import Mathlib

/-!
# Silhouette: line traversal, horizon extraction and gradient noise

A shallow embedding of `src/silhouette/main.js`.

* JavaScript numbers that hold integers (cell coordinates, the error term of the
  line traversal) are `Int`.
* JavaScript numbers that hold fractions (heights, angles, noise values) are elements
  of a linearly ordered field `K`; the definitions are generic in `K` and in the
  `Math` functions they call, so they evaluate over `ℚ`, and the theorems are stated
  over `ℝ`. The operations of `K` are exact. The rounding of doubles is `roundDouble`;
  `doubleMath` is `Math` and `doubleArith` the arithmetic of the ray visitor with every
  result rounded, and what a rounding decides (which of two nearly equal quotients is
  the larger, the sine of `2*Math.PI`) is stated over these.
* The typed arrays `xGradient`, `yGradient` and `heightMap` are functions from the
  index to the stored value. A read outside an array yields `undefined` in the code;
  the definitions named `...Checked` return `none` where that makes the value `NaN`.
* `while (true)` loops take a fuel argument and return `none` when it runs out.
-/

namespace Silhouette

/-! ## Line traversal -/

/-- The loop of `bresenhamLine` (lines 145-161). `setPixel` is the callback: it receives
the caller state and the cell and returns the stop request and the new caller state. -/
def bresenhamLoop {σ : Type} (setPixel : σ → Int → Int → Bool × σ)
    (x1 y1 dx dy sx sy : Int) : Nat → σ → Int → Int → Int → Option σ
  | 0, _, _, _, _ => none
  | fuel + 1, s, x0, y0, err =>
    let r := setPixel s x0 y0
    if r.1 then some r.2
    else if x0 = x1 ∧ y0 = y1 then some r.2
    else
      let e2 := err * 2
      let err1 := if e2 > dy then err + dy else err
      let x0n := if e2 > dy then x0 + sx else x0
      let err2 := if e2 < dx then err1 + dx else err1
      let y0n := if e2 < dx then y0 + sy else y0
      bresenhamLoop setPixel x1 y1 dx dy sx sy fuel r.2 x0n y0n err2

/-- The function `bresenhamLine(x0, y0, x1, y1, setPixel)` (lines 137-162). -/
def bresenhamLine {σ : Type} (fuel : Nat) (x0 y0 x1 y1 : Int)
    (setPixel : σ → Int → Int → Bool × σ) (s : σ) : Option σ :=
  let dx := |x1 - x0|
  let dy := -|y1 - y0|
  let sx : Int := if x0 < x1 then 1 else -1
  let sy : Int := if y0 < y1 then 1 else -1
  let err := dx + dy
  bresenhamLoop setPixel x1 y1 dx dy sx sy fuel s x0 y0 err

/-- A callback that appends every cell it is called on to a log and requests a stop
exactly when `visit` holds of the cell. -/
def recordVisit (visit : Int → Int → Bool) (log : List (Int × Int)) (x y : Int) :
    Bool × List (Int × Int) :=
  (visit x y, log ++ [(x, y)])

/-- The sequence of cells `bresenhamLine` calls the visitor on, in order. -/
def visitedCells (fuel : Nat) (x0 y0 x1 y1 : Int) (visit : Int → Int → Bool) :
    Option (List (Int × Int)) :=
  bresenhamLine fuel x0 y0 x1 y1 (recordVisit visit) []

/-- A visitor that never requests a stop. -/
def neverStop : Int → Int → Bool := fun _ _ => false


/-! ### Proof devices for the traversal -/

/-- The cells the loop of `bresenhamLine` passes through when nobody stops it: the
positions `(x0, y0)` of the successive iterations, up to and including the endpoint.
`none` when the fuel runs out before the endpoint is reached. -/
def linePath (x1 y1 dx dy sx sy : Int) : Nat → Int → Int → Int → Option (List (Int × Int))
  | 0, _, _, _ => none
  | fuel + 1, x0, y0, err =>
    if x0 = x1 ∧ y0 = y1 then some [(x0, y0)]
    else
      let e2 := err * 2
      let err1 := if e2 > dy then err + dy else err
      let x0n := if e2 > dy then x0 + sx else x0
      let err2 := if e2 < dx then err1 + dx else err1
      let y0n := if e2 < dx then y0 + sy else y0
      (linePath x1 y1 dx dy sx sy fuel x0n y0n err2).map (fun p => (x0, y0) :: p)

/-- Calling `setPixel` on the cells of a list in order, until it requests a stop. -/
def runVisitor {σ : Type} (setPixel : σ → Int → Int → Bool × σ) : σ → List (Int × Int) → σ
  | s, [] => s
  | s, c :: rest =>
    let r := setPixel s c.1 c.2
    if r.1 then r.2 else runVisitor setPixel r.2 rest

/-- The complete line from `(x0, y0)` to `(x1, y1)`: the path of the loop started as
`bresenhamLine` starts it, with as much fuel as the two axes are long. -/
def lineCells (x0 y0 x1 y1 : Int) : List (Int × Int) :=
  (linePath x1 y1 |x1 - x0| (-|y1 - y0|) (if x0 < x1 then 1 else -1) (if y0 < y1 then 1 else -1)
    ((x1 - x0).natAbs + (y1 - y0).natAbs + 1) x0 y0 (|x1 - x0| + -|y1 - y0|)).getD []

/-- The fuel that always suffices for the line from `(x0, y0)` to `(x1, y1)`. -/
def lineFuel (x0 y0 x1 y1 : Int) : Nat :=
  (x1 - x0).natAbs + (y1 - y0).natAbs + 1

/-- One move of the traversal, in steps still to go on each axis: each axis advances by
at most one step, never backwards, and at least one of them advances. -/
def StepsToward (p q : Nat × Nat) : Prop :=
  q.1 ≤ p.1 ∧ p.1 ≤ q.1 + 1 ∧ q.2 ≤ p.2 ∧ p.2 ≤ q.2 + 1 ∧ q.1 + q.2 < p.1 + p.2

/-- The cell that is `r.1` steps of `sx` and `r.2` steps of `sy` before `(x1, y1)`. -/
def cellBefore (x1 y1 sx sy : Int) (r : Nat × Nat) : Int × Int :=
  (x1 - sx * r.1, y1 - sy * r.2)

/-- The specification of a stop request: the cells up to and including the first one
on which `visit` holds, all of them when it holds of none. -/
def cutAfterFirst (visit : Int → Int → Bool) : List (Int × Int) → List (Int × Int)
  | [] => []
  | c :: rest => if visit c.1 c.2 then [c] else c :: cutAfterFirst visit rest

/-- The step direction `sx` (or `sy`) that `bresenhamLine` chooses on one axis. -/
def stepSign (u0 u1 : Int) : Int := if u0 < u1 then 1 else -1

/-- One move of the traversal, in cells: at most one step on each axis, and on neither
axis away from `(x1, y1)`. -/
def MovesToward (x1 y1 : Int) (p q : Int × Int) : Prop :=
  |q.1 - p.1| ≤ 1 ∧ |q.2 - p.2| ≤ 1 ∧ |x1 - q.1| ≤ |x1 - p.1| ∧ |y1 - q.2| ≤ |y1 - p.2|

/-- Earlier in the traversal: no fewer steps to go on either axis and more in total. -/
def Before (p q : Nat × Nat) : Prop :=
  q.1 ≤ p.1 ∧ q.2 ≤ p.2 ∧ q.1 + q.2 < p.1 + p.2

instance : IsTrans (Nat × Nat) Before :=
  ⟨fun _ _ _ h1 h2 => ⟨le_trans h2.1 h1.1, le_trans h2.2.1 h1.2.1, lt_trans h2.2.2 h1.2.2⟩⟩

/-! ## Numbers -/

/-- The function `toInt(x)`, which is `x|0` (lines 4-6): the fraction is dropped (toward
zero) and the integer is wrapped into the 32-bit two's complement range. -/
def toInt {K : Type} [LinearOrderedField K] [FloorRing K] (x : K) : Int :=
  let t : Int := if 0 ≤ x then ⌊x⌋ else ⌈x⌉
  (t + 2 ^ 31) % 2 ^ 32 - 2 ^ 31

/-- The function `lerp(a, b, u)` (lines 28-30). -/
def lerp {K : Type} [LinearOrderedField K] (a b u : K) : K :=
  a + (b - a) * u

/-- The members of JavaScript's `Math` that the program calls on fractions. -/
structure JsMath (K : Type) where
  cos : K → K
  sin : K → K
  sqrt : K → K
  PI : K

/-- The `Math` functions over the reals. -/
noncomputable def realMath : JsMath ℝ :=
  ⟨Real.cos, Real.sin, Real.sqrt, Real.pi⟩

/-! ## Horizon extraction -/

/-- What a pass of `redraw` reads: the grid size, the height map (by index
`x + y*width`), the viewer height and the viewpoint. -/
structure Scene (K : Type) where
  width : Int
  height : Int
  heightMap : Int → K
  viewerHeight : K
  xStart : Int
  yStart : Int

/-- The variables of one ray that the visitor closure updates (lines 185-189). -/
structure Best (K : Type) where
  bestHeight : K
  bestDistance : K
  xBest : Int
  yBest : Int

/-- The values the ray's variables start with (lines 185-189). -/
def Best.init {K : Type} [LinearOrderedField K] (sc : Scene K) : Best K :=
  ⟨0, 1, sc.xStart, sc.yStart⟩

/-- The callback `redraw` passes to `bresenhamLine` (lines 194-219), without the pixel
writes. -/
def rayVisitor {K : Type} [LinearOrderedField K] (M : JsMath K) (sc : Scene K)
    (s : Best K) (x y : Int) : Bool × Best K :=
  if x < 0 ∨ x ≥ sc.width ∨ y < 0 ∨ y ≥ sc.height then (true, s)
  else
    let dx := x - sc.xStart
    let dy := y - sc.yStart
    if dx = 0 ∧ dy = 0 then (false, s)
    else
      let currentDistance := M.sqrt ((dx * dx + dy * dy : Int) : K)
      let currentHeight := sc.heightMap (x + y * sc.width) - sc.viewerHeight
      if currentHeight / currentDistance > s.bestHeight / s.bestDistance then
        (false, ⟨currentHeight, currentDistance, x, y⟩)
      else (false, s)

/-- The end of the ray for an angle (lines 173, 191-192). -/
def rayEnd {K : Type} [LinearOrderedField K] [FloorRing K] (M : JsMath K) (sc : Scene K)
    (angle : K) : Int × Int :=
  let distance : Int := 2 * max sc.width sc.height
  (toInt (M.cos angle * (distance : K) + (sc.xStart : K)),
   toInt (M.sin angle * (distance : K) + (sc.yStart : K)))

/-- The body of the loop over the angles (lines 185-221) for one angle: the sample
`[xBest, yBest, bestHeight]` that is pushed. -/
def castRay {K : Type} [LinearOrderedField K] [FloorRing K] (M : JsMath K) (fuel : Nat)
    (sc : Scene K) (angle : K) : Option (Int × Int × K) :=
  let xEnd := (rayEnd M sc angle).1
  let yEnd := (rayEnd M sc angle).2
  (bresenhamLine fuel sc.xStart sc.yStart xEnd yEnd (rayVisitor M sc) (Best.init sc)).map
    (fun s => (s.xBest, s.yBest, s.bestHeight))

/-- The angle of a step (line 183). -/
def stepAngle {K : Type} [LinearOrderedField K] (M : JsMath K) (n step : Nat) : K :=
  lerp 0 (M.PI * 2) ((step : K) / (n : K))

/-- The loop `for (var step = 0; step <= n; step++)` of `redraw` (lines 182-222), with
`todo` iterations left. -/
def silhouetteLoop {K : Type} [LinearOrderedField K] [FloorRing K] (M : JsMath K)
    (fuel : Nat) (sc : Scene K) (n : Nat) :
    Nat → Nat → List (Int × Int × K) → Option (List (Int × Int × K))
  | 0, _, silhouette => some silhouette
  | todo + 1, step, silhouette =>
    match castRay M fuel sc (stepAngle M n step) with
    | none => none
    | some sample => silhouetteLoop M fuel sc n todo (step + 1) (silhouette ++ [sample])

/-- The silhouette that `redraw` builds (lines 175-222) for `n` angle steps. -/
def redraw {K : Type} [LinearOrderedField K] [FloorRing K] (M : JsMath K) (fuel : Nat)
    (sc : Scene K) (n : Nat) : Option (List (Int × Int × K)) :=
  silhouetteLoop M fuel sc n (n + 1) 0 []

/-- The stop request of the ray visitor: the cell is outside the height map. -/
def outOfBounds {K : Type} (sc : Scene K) (x y : Int) : Bool :=
  decide (x < 0 ∨ x ≥ sc.width ∨ y < 0 ∨ y ≥ sc.height)

/-- The cells the traversal of the ray for an angle visits. -/
def rayCells {K : Type} [LinearOrderedField K] [FloorRing K] (M : JsMath K) (fuel : Nat)
    (sc : Scene K) (angle : K) : Option (List (Int × Int)) :=
  visitedCells fuel sc.xStart sc.yStart (rayEnd M sc angle).1 (rayEnd M sc angle).2
    (outOfBounds sc)

/-- The visited cells that compete for the ray's sample: inside the height map and not
the viewpoint's own cell. -/
def candidates {K : Type} (sc : Scene K) (cells : List (Int × Int)) : List (Int × Int) :=
  cells.filter (fun c => !outOfBounds sc c.1 c.2 && !decide (c = (sc.xStart, sc.yStart)))

/-- The spec's planar distance: the Euclidean distance from the viewpoint to a cell. -/
def planarDistance {K : Type} [LinearOrderedField K] (M : JsMath K) (sc : Scene K)
    (c : Int × Int) : K :=
  M.sqrt (((c.1 - sc.xStart) * (c.1 - sc.xStart) + (c.2 - sc.yStart) * (c.2 - sc.yStart) : Int) : K)

/-- The spec's slope of a cell: `(heightAt(cell) − eyeHeight) / planarDistance`. -/
def slopeAt {K : Type} [LinearOrderedField K] (M : JsMath K) (sc : Scene K)
    (c : Int × Int) : K :=
  (sc.heightMap (c.1 + c.2 * sc.width) - sc.viewerHeight) / planarDistance M sc c

/-- The update of the ray's variables at a competing cell. -/
def better {K : Type} [LinearOrderedField K] (M : JsMath K) (sc : Scene K)
    (s : Best K) (c : Int × Int) : Best K :=
  if slopeAt M sc c > s.bestHeight / s.bestDistance then
    ⟨sc.heightMap (c.1 + c.2 * sc.width) - sc.viewerHeight, planarDistance M sc c, c.1, c.2⟩
  else s

/-- The fuel that suffices for every ray from the viewpoint: ray ends are 32-bit. -/
def rayFuel (xStart yStart : Int) : Nat :=
  2 ^ 32 + xStart.natAbs + yStart.natAbs + 1

/-- The cells a ray visits, as a total function: the complete line to the ray end, cut
after the first cell outside the height map. -/
def rayPath {K : Type} [LinearOrderedField K] [FloorRing K] (M : JsMath K) (sc : Scene K)
    (angle : K) : List (Int × Int) :=
  cutAfterFirst (outOfBounds sc)
    (lineCells sc.xStart sc.yStart (rayEnd M sc angle).1 (rayEnd M sc angle).2)

/-- The final values of a ray's variables, as a total function of the angle. -/
def rayBest {K : Type} [LinearOrderedField K] [FloorRing K] (M : JsMath K) (sc : Scene K)
    (angle : K) : Best K :=
  (candidates sc (rayPath M sc angle)).foldl (better M sc) (Best.init sc)

/-- The sample of a ray, as a total function of the angle. -/
def raySample {K : Type} [LinearOrderedField K] [FloorRing K] (M : JsMath K) (sc : Scene K)
    (angle : K) : Int × Int × K :=
  ((rayBest M sc angle).xBest, (rayBest M sc angle).yBest, (rayBest M sc angle).bestHeight)

/-- A 3×1 height map with one raised cell at index 2, seen from cell `(0, 0)` at viewer
height 0. -/
def spikeScene (K : Type) [LinearOrderedField K] : Scene K :=
  ⟨3, 1, fun i => if i = 2 then 1 else 0, 0, 0, 0⟩

/-- A flat 3×3 height map, every cell 0.3 (3/10), seen from its centre `(1, 1)` at viewer
height 0.5 (1/2). -/
def flatScene (K : Type) [LinearOrderedField K] : Scene K :=
  ⟨3, 3, fun _ => 3 / 10, 1 / 2, 1, 1⟩

/-! ## Gradient noise -/

/-- The gradient field: the grid width and the typed arrays `xGradient` and `yGradient`
(lines 11, 16-17), each read by index. -/
structure Gradients (K : Type) where
  width : Int
  xGradient : Int → K
  yGradient : Int → K

/-- The function `smoothCurve(t)` (lines 44-46). -/
def smoothCurve {K : Type} [LinearOrderedField K] (t : K) : K :=
  t * t * (3 - 2 * t)

/-- The function `dotGridGradient(ix, iy, x, y)` (lines 49-57). -/
def dotGridGradient {K : Type} [LinearOrderedField K] (G : Gradients K) (ix iy : Int)
    (x y : K) : K :=
  let dx := x - (ix : K)
  let dy := y - (iy : K)
  let i := ix + iy * G.width
  dx * G.xGradient i + dy * G.yGradient i

/-- The function `perlinNoise(x, y)` (lines 60-81). -/
def perlinNoise {K : Type} [LinearOrderedField K] [FloorRing K] (G : Gradients K)
    (x y : K) : K :=
  let x0 := toInt x
  let x1 := x0 + 1
  let y0 := toInt y
  let y1 := y0 + 1
  let ux := x - (x0 : K)
  let uy := y - (y0 : K)
  let ux := smoothCurve ux
  let uy := smoothCurve uy
  let d00 := dotGridGradient G x0 y0 x y
  let d01 := dotGridGradient G x0 y1 x y
  let d10 := dotGridGradient G x1 y0 x y
  let d11 := dotGridGradient G x1 y1 x y
  let d0 := lerp d00 d10 ux
  let d1 := lerp d01 d11 ux
  lerp d0 d1 uy

/-- The lattice corners `(x0, y0)` and `(x1, y1)` that `perlinNoise` computes
(lines 61-64). -/
def latticeCorners {K : Type} [LinearOrderedField K] [FloorRing K] (x y : K) :
    (Int × Int) × (Int × Int) :=
  let x0 := toInt x
  let x1 := x0 + 1
  let y0 := toInt y
  let y1 := y0 + 1
  ((x0, y0), (x1, y1))

/-- The lattice points at which `perlinNoise(x, y)` calls `dotGridGradient`, in the
order of the calls (lines 72-75). -/
def perlinLookups {K : Type} [LinearOrderedField K] [FloorRing K] (x y : K) :
    List (Int × Int) :=
  let x0 := toInt x
  let x1 := x0 + 1
  let y0 := toInt y
  let y1 := y0 + 1
  [(x0, y0), (x0, y1), (x1, y0), (x1, y1)]

/-- The loop of `perlinNoiseOctaves` (lines 88-94) with `todo` iterations left; it
returns the final `result` and `sum`. The factor 0.5 is written `1 / 2`. -/
def octaveLoop {K : Type} [LinearOrderedField K] [FloorRing K] (G : Gradients K) :
    Nat → K → K → K → K → K → K × K
  | 0, result, _, sum, _, _ => (result, sum)
  | todo + 1, result, scale, sum, x, y =>
    octaveLoop G todo (result + perlinNoise G x y * scale) (scale * (1 / 2)) (sum + scale)
      (x * 2) (y * 2)

/-- The function `perlinNoiseOctaves(x, y, n)` (lines 84-96). -/
def perlinNoiseOctaves {K : Type} [LinearOrderedField K] [FloorRing K] (G : Gradients K)
    (x y : K) (n : Nat) : K :=
  let r := octaveLoop G n 0 1 0 x y
  r.1 / r.2

/-- The lattice points at which the loop of `perlinNoiseOctaves` has `perlinNoise` look
gradients up, with `todo` iterations left. -/
def octaveLookups {K : Type} [LinearOrderedField K] [FloorRing K] :
    Nat → K → K → List (Int × Int)
  | 0, _, _ => []
  | todo + 1, x, y => perlinLookups x y ++ octaveLookups todo (x * 2) (y * 2)

/-- The body of the loops of `initializeHeightMap` (lines 101-111): the value stored for
the cell `(x, y)`. The constants 0.01 and 0.5 are written `1 / 100` and `1 / 2`. -/
def cellValue {K : Type} [LinearOrderedField K] [FloorRing K] (G : Gradients K)
    (x y : Int) : K :=
  let scale : K := 1 / 100
  let value := perlinNoiseOctaves G ((x : K) * scale) ((y : K) * scale) 2
  let value := value * (1 / 2) + 1 / 2
  let value := if x > 100 ∧ x < 200 ∧ y > 100 ∧ y < 200 then 0 else value
  let value := if x > 150 ∧ x < 250 ∧ y > 150 ∧ y < 250 then 1 else value
  value

/-- The lattice points at which gradients are looked up while the value of the cell
`(x, y)` is computed (line 102). -/
def cellLookups {K : Type} [LinearOrderedField K] [FloorRing K] (x y : Int) :
    List (Int × Int) :=
  octaveLookups 2 ((x : K) * (1 / 100)) ((y : K) * (1 / 100))

/-- The inner loop `for (var x = 0; x < width; x++)` of `initializeHeightMap`
(lines 100-114) for the row `y`, with `todo` iterations left. -/
def initRow {K : Type} [LinearOrderedField K] [FloorRing K] (G : Gradients K) (y : Int) :
    Nat → Int → (Int → K) → (Int → K)
  | 0, _, heightMap => heightMap
  | todo + 1, x, heightMap =>
    initRow G y todo (x + 1) (Function.update heightMap (x + y * G.width) (cellValue G x y))

/-- The outer loop `for (var y = 0; y < height; y++)` of `initializeHeightMap`
(lines 99-115), with `todo` iterations left. -/
def initRows {K : Type} [LinearOrderedField K] [FloorRing K] (G : Gradients K) :
    Nat → Int → (Int → K) → (Int → K)
  | 0, _, heightMap => heightMap
  | todo + 1, y, heightMap =>
    initRows G todo (y + 1) (initRow G y G.width.toNat 0 heightMap)

/-- The function `initializeHeightMap()` (lines 98-116): the height map it leaves, from
the one it finds. The grid is `G.width` by `height`. -/
def initializeHeightMap {K : Type} [LinearOrderedField K] [FloorRing K] (G : Gradients K)
    (height : Int) (heightMap : Int → K) : Int → K :=
  initRows G height.toNat 0 heightMap

/-- A gradient field of a given width whose every gradient is the unit vector `(1, 0)`. -/
def eastField (K : Type) [LinearOrderedField K] (width : Int) : Gradients K :=
  ⟨width, fun _ => 1, fun _ => 0⟩

/-- The callback of `redraw` again (lines 194-219), with the two hazards made explicit:
`none` when the height map would be read at an index outside `[0, width*height)` or
when a quotient would have a zero divisor. -/
def rayVisitorChecked {K : Type} [LinearOrderedField K] (M : JsMath K) (sc : Scene K)
    (s : Best K) (x y : Int) : Option (Bool × Best K) :=
  if x < 0 ∨ x ≥ sc.width ∨ y < 0 ∨ y ≥ sc.height then some (true, s)
  else
    let dx := x - sc.xStart
    let dy := y - sc.yStart
    if dx = 0 ∧ dy = 0 then some (false, s)
    else
      let currentDistance := M.sqrt ((dx * dx + dy * dy : Int) : K)
      let i := x + y * sc.width
      if i < 0 ∨ i ≥ sc.width * sc.height then none
      else
        let currentHeight := sc.heightMap i - sc.viewerHeight
        if currentDistance = 0 ∨ s.bestDistance = 0 then none
        else if currentHeight / currentDistance > s.bestHeight / s.bestDistance then
          some (false, ⟨currentHeight, currentDistance, x, y⟩)
        else some (false, s)

/-- The checked callback as a callback of `bresenhamLine`: once a hazard occurred the
state is `none` and the traversal is stopped. -/
def rayVisitorGuarded {K : Type} [LinearOrderedField K] (M : JsMath K) (sc : Scene K)
    (s : Option (Best K)) (x y : Int) : Bool × Option (Best K) :=
  match s with
  | none => (true, none)
  | some b =>
    match rayVisitorChecked M sc b x y with
    | none => (true, none)
    | some r => (r.1, some r.2)

/-- The ray of an angle run with the checked callback: `some none` when a hazard
occurred on the way, `some (some sample)` otherwise. -/
def castRayChecked {K : Type} [LinearOrderedField K] [FloorRing K] (M : JsMath K)
    (fuel : Nat) (sc : Scene K) (angle : K) : Option (Option (Int × Int × K)) :=
  (bresenhamLine fuel sc.xStart sc.yStart (rayEnd M sc angle).1 (rayEnd M sc angle).2
      (rayVisitorGuarded M sc) (some (Best.init sc))).map
    (fun s => s.map (fun b => (b.xBest, b.yBest, b.bestHeight)))

/-- A height map of width `1431655766` and height 1 (so that `3 * max width height`
exceeds `2^32`), seen from its last cell `(1431655765, 0)`. -/
def longScene (K : Type) [LinearOrderedField K] : Scene K :=
  ⟨1431655766, 1, fun _ => 0, 0, 1431655765, 0⟩

/-- The sizes a grid of the program can have: `width` and `height` are read from
`canvas.width` and `canvas.height` (lines 11-12), which hold non-negative integers of at
most `2^31 - 1`. -/
def CanvasSize (width height : Int) : Prop :=
  0 ≤ width ∧ width ≤ 2147483647 ∧ 0 ≤ height ∧ height ≤ 2147483647

/-- The function `dotGridGradient(ix, iy, x, y)` again (lines 49-57), with the hazard of
the array reads made explicit. The arrays hold `width*height` entries (lines 16-17); a
read at an index outside `[0, width*height)` yields `undefined`, and every product and
sum with it is `NaN`, written `none`. -/
def dotGridGradientChecked {K : Type} [LinearOrderedField K] (G : Gradients K) (height : Int)
    (ix iy : Int) (x y : K) : Option K :=
  let dx := x - (ix : K)
  let dy := y - (iy : K)
  let i := ix + iy * G.width
  if i < 0 ∨ i ≥ G.width * height then none
  else some (dx * G.xGradient i + dy * G.yGradient i)

/-- The function `perlinNoise(x, y)` again (lines 60-81) over the checked dot products:
`lerp` of a `NaN` is `NaN`, so the result is `none` as soon as one of the four reads is
outside the arrays. -/
def perlinNoiseChecked {K : Type} [LinearOrderedField K] [FloorRing K] (G : Gradients K)
    (height : Int) (x y : K) : Option K :=
  let x0 := toInt x
  let x1 := x0 + 1
  let y0 := toInt y
  let y1 := y0 + 1
  let ux := x - (x0 : K)
  let uy := y - (y0 : K)
  let ux := smoothCurve ux
  let uy := smoothCurve uy
  match dotGridGradientChecked G height x0 y0 x y, dotGridGradientChecked G height x0 y1 x y,
    dotGridGradientChecked G height x1 y0 x y, dotGridGradientChecked G height x1 y1 x y with
  | some d00, some d01, some d10, some d11 =>
    let d0 := lerp d00 d10 ux
    let d1 := lerp d01 d11 ux
    some (lerp d0 d1 uy)
  | _, _, _, _ => none

/-- The loop of `perlinNoiseOctaves` again (lines 88-94) over the checked noise: once a
term is `NaN` the running `result` stays `NaN`. -/
def octaveLoopChecked {K : Type} [LinearOrderedField K] [FloorRing K] (G : Gradients K)
    (height : Int) : Nat → Option K → K → K → K → K → Option K × K
  | 0, result, _, sum, _, _ => (result, sum)
  | todo + 1, result, scale, sum, x, y =>
    let next : Option K :=
      match result, perlinNoiseChecked G height x y with
      | some r, some v => some (r + v * scale)
      | _, _ => none
    octaveLoopChecked G height todo next (scale * (1 / 2)) (sum + scale) (x * 2) (y * 2)

/-- The function `perlinNoiseOctaves(x, y, n)` again (lines 84-96) over the checked
noise; the final quotient `result/sum` is `NaN` also when `sum` is 0 (`n = 0`). -/
def perlinNoiseOctavesChecked {K : Type} [LinearOrderedField K] [FloorRing K]
    (G : Gradients K) (height : Int) (x y : K) (n : Nat) : Option K :=
  let r := octaveLoopChecked G height n (some 0) 1 0 x y
  if r.2 = 0 then none else r.1.map (fun result => result / r.2)

/-- The body of the loops of `initializeHeightMap` again (lines 101-111) over the checked
noise: the value stored for the cell `(x, y)`, `none` when it is `NaN`. The two
rectangles overwrite the value whatever it was. -/
def cellValueChecked {K : Type} [LinearOrderedField K] [FloorRing K] (G : Gradients K)
    (height : Int) (x y : Int) : Option K :=
  let scale : K := 1 / 100
  let value := perlinNoiseOctavesChecked G height ((x : K) * scale) ((y : K) * scale) 2
  let value := value.map (fun v => v * (1 / 2) + 1 / 2)
  let value := if x > 100 ∧ x < 200 ∧ y > 100 ∧ y < 200 then some 0 else value
  let value := if x > 150 ∧ x < 250 ∧ y > 150 ∧ y < 250 then some 1 else value
  value

/-- The indices `ix + iy*width` at which the gradient arrays, of length `width*height`,
can be read: the lattice points of a list all have theirs inside `[0, width*height)`. -/
def ReadsInside (width height : Int) (points : List (Int × Int)) : Prop :=
  ∀ p ∈ points, 0 ≤ p.1 + p.2 * width ∧ p.1 + p.2 * width < width * height

/-- Rounding of a fraction to the nearest integer, a tie going to the even one. -/
def roundHalfEven {K : Type} [LinearOrderedField K] [FloorRing K] (s : K) : Int :=
  let f := ⌊s⌋
  let r := s - (f : K)
  if r < 1 / 2 then f
  else if 1 / 2 < r then f + 1
  else if f % 2 = 0 then f
  else f + 1

/-- The JavaScript number (IEEE 754 double) that an exact value `x` is rounded to: the
nearest number with a significand of 53 bits, a tie going to the even significand. For
`2^e ≤ |x| < 2^(e+1)` these numbers are the multiples of `2^(e-52)`. The exponent range is
not modelled (no overflow, no subnormal numbers): the values rounded in this file are
between `2^-60` and `2^40` in magnitude. -/
def roundDouble {K : Type} [LinearOrderedField K] [FloorRing K] (x : K) : K :=
  if x = 0 then 0
  else
    let e : Int := Int.log 2 |x|
    let ulp : K := (2 : K) ^ (e - 52)
    let n : Int := roundHalfEven (|x| / ulp)
    if 0 < x then (n : K) * ulp else -((n : K) * ulp)

/-- The `Math` functions as they are computed in doubles: `Math.PI` is the double nearest
to π, and the result of `Math.sqrt`, `Math.cos` and `Math.sin` is the double nearest to
the exact value. For `Math.sqrt` this is what IEEE 754 prescribes. For `Math.cos` and
`Math.sin` it is what is returned at the angles 0 and `2*Math.PI` (1, 0, 1 and
`-2.4492935982947064e-16`); at other angles the results are used only through bounds
that leave the ray end hundredths of a cell away from the next cell. -/
noncomputable def doubleMath : JsMath ℝ :=
  ⟨fun a => roundDouble (Real.cos a), fun a => roundDouble (Real.sin a),
    fun a => roundDouble (Real.sqrt a), roundDouble Real.pi⟩
/-- What the first and the last ray of a profile use of `Math`: `Math.PI` is positive, at
the angles 0 and `2*Math.PI` the cosine is 1, and the sine is 0 at the angle 0 and
between `-2^-51` and 0 at `2*Math.PI`. The doubles have these values
(`Math.sin(2*Math.PI)` is `-2.449e-16`), and so have the exact reals. -/
def ClosesTurn {K : Type} [LinearOrderedField K] (M : JsMath K) : Prop :=
  0 < M.PI ∧ M.cos 0 = 1 ∧ M.sin 0 = 0 ∧ M.cos (M.PI * 2) = 1 ∧
    -(1 / 2 ^ 51) ≤ M.sin (M.PI * 2) ∧ M.sin (M.PI * 2) ≤ 0
/-- A height map as wide as a canvas can be, `2147483647` by 2, with one raised cell at
index 0, seen from the cell `(2, 1)` at viewer height 0.5: here
`2*max(width, height) + xStart` is `2^32`, which `toInt` wraps to 0. -/
def wideScene (K : Type) [LinearOrderedField K] : Scene K :=
  ⟨2147483647, 2, fun i => if i = 0 then 1 else 0, 1 / 2, 2, 1⟩

/-- The arithmetic on fractions that the ray visitor uses (lines 202-206): the
difference and the quotient of two JavaScript numbers, and `Math.sqrt`. -/
structure JsArith (K : Type) where
  sub : K → K → K
  div : K → K → K
  sqrt : K → K

/-- The arithmetic without rounding: the difference and the quotient of the field. -/
def exactArith {K : Type} [LinearOrderedField K] (M : JsMath K) : JsArith K :=
  ⟨fun a b => a - b, fun a b => a / b, M.sqrt⟩

/-- The arithmetic of doubles: each operation yields the double nearest to the exact
result. -/
def roundedArith {K : Type} [LinearOrderedField K] [FloorRing K] (M : JsMath K) : JsArith K :=
  ⟨fun a b => roundDouble (a - b), fun a b => roundDouble (a / b),
    fun a => roundDouble (M.sqrt a)⟩

/-- The callback `redraw` passes to `bresenhamLine` (lines 194-219) again, without the
pixel writes, over an arithmetic `A` in place of the exact one. -/
def rayVisitorIn {K : Type} [LinearOrderedField K] (A : JsArith K) (sc : Scene K)
    (s : Best K) (x y : Int) : Bool × Best K :=
  if x < 0 ∨ x ≥ sc.width ∨ y < 0 ∨ y ≥ sc.height then (true, s)
  else
    let dx := x - sc.xStart
    let dy := y - sc.yStart
    if dx = 0 ∧ dy = 0 then (false, s)
    else
      let currentDistance := A.sqrt ((dx * dx + dy * dy : Int) : K)
      let currentHeight := A.sub (sc.heightMap (x + y * sc.width)) sc.viewerHeight
      if A.div currentHeight currentDistance > A.div s.bestHeight s.bestDistance then
        (false, ⟨currentHeight, currentDistance, x, y⟩)
      else (false, s)

/-- The body of the loop over the angles (lines 185-221) for one angle, over an
arithmetic `A`: the sample `[xBest, yBest, bestHeight]` that is pushed. -/
def castRayIn {K : Type} [LinearOrderedField K] [FloorRing K] (A : JsArith K) (M : JsMath K)
    (fuel : Nat) (sc : Scene K) (angle : K) : Option (Int × Int × K) :=
  let xEnd := (rayEnd M sc angle).1
  let yEnd := (rayEnd M sc angle).2
  (bresenhamLine fuel sc.xStart sc.yStart xEnd yEnd (rayVisitorIn A sc) (Best.init sc)).map
    (fun s => (s.xBest, s.yBest, s.bestHeight))

/-- The squared Euclidean distance from the viewpoint to a cell, `dx*dx + dy*dy`. -/
def squaredDistance {K : Type} (sc : Scene K) (c : Int × Int) : Int :=
  (c.1 - sc.xStart) * (c.1 - sc.xStart) + (c.2 - sc.yStart) * (c.2 - sc.yStart)

/-- The quotient `currentHeight/currentDistance` that the visitor computes for a cell
(lines 202-206) in the arithmetic `A`. -/
def slopeIn {K : Type} [LinearOrderedField K] (A : JsArith K) (sc : Scene K)
    (c : Int × Int) : K :=
  A.div (A.sub (sc.heightMap (c.1 + c.2 * sc.width)) sc.viewerHeight)
    (A.sqrt ((squaredDistance sc c : Int) : K))

/-- The update of the ray's variables at a competing cell, in the arithmetic `A`. -/
def betterIn {K : Type} [LinearOrderedField K] (A : JsArith K) (sc : Scene K)
    (s : Best K) (c : Int × Int) : Best K :=
  if slopeIn A sc c > A.div s.bestHeight s.bestDistance then
    ⟨A.sub (sc.heightMap (c.1 + c.2 * sc.width)) sc.viewerHeight,
      A.sqrt ((squaredDistance sc c : Int) : K), c.1, c.2⟩
  else s

/-- The sample of a ray in the arithmetic `A`, as a total function of the angle. -/
def raySampleIn {K : Type} [LinearOrderedField K] [FloorRing K] (A : JsArith K)
    (M : JsMath K) (sc : Scene K) (angle : K) : Int × Int × K :=
  let b := (candidates sc (rayPath M sc angle)).foldl (betterIn A sc) (Best.init sc)
  (b.xBest, b.yBest, b.bestHeight)

/-- A 4×4 height map whose cells `(1, 1)`, `(2, 2)`, `(3, 3)` on the diagonal hold 0.625,
0.75 and 0.875 (5/8, 3/4, 7/8) and whose other cells hold 0, seen from the corner `(0, 0)`
at viewer height 0.5: the three exact slopes are equal, `0.125/√2`. -/
def diagonalScene (K : Type) [LinearOrderedField K] : Scene K :=
  ⟨4, 4, fun i => if i = 5 then 5 / 8 else if i = 10 then 3 / 4 else if i = 15 then 7 / 8 else 0,
    1 / 2, 0, 0⟩

/-- A 27×6 height map whose cells `(24, 5)` and `(26, 5)` (indices 159 and 161) hold the
32-bit floats `0.5 + 5476600/2^24` and `0.5 + 5914701/2^24` and whose other cells hold 0,
seen from the corner `(0, 0)` at viewer height 0.5. -/
def nearTieScene (K : Type) [LinearOrderedField K] : Scene K :=
  ⟨27, 6, fun i => if i = 159 then 1 / 2 + 5476600 / 16777216
      else if i = 161 then 1 / 2 + 5914701 / 16777216 else 0,
    1 / 2, 0, 0⟩

/-- A 3×1 height map whose cells `(1, 0)` and `(2, 0)` hold 0.75 and 1, seen from
`(0, 0)` at viewer height 0.5: both cells have the slope 0.25. -/
def evenScene (K : Type) [LinearOrderedField K] : Scene K :=
  ⟨3, 1, fun i => if i = 1 then 3 / 4 else if i = 2 then 1 else 0, 1 / 2, 0, 0⟩
/-- The arithmetic of doubles over the reals: `Math.sqrt` and every difference and
quotient yield the double nearest to the exact result. -/
noncomputable def doubleArith : JsArith ℝ := roundedArith realMath

/-! ## Lemmas about the line traversal -/

theorem linePath_mono (x1 y1 dx dy sx sy : Int) (k : Nat) :
    ∀ (fuel : Nat) (x0 y0 err : Int) (p : List (Int × Int)),
      linePath x1 y1 dx dy sx sy fuel x0 y0 err = some p →
      linePath x1 y1 dx dy sx sy (fuel + k) x0 y0 err = some p := by
  intro fuel
  induction fuel with
  | zero => intro x0 y0 err p h; simp [linePath] at h
  | succ n ih =>
    intro x0 y0 err p h
    rw [Nat.succ_add]
    unfold linePath at h ⊢
    by_cases hend : x0 = x1 ∧ y0 = y1
    · simpa [hend] using h
    · simp only [hend, if_false] at h ⊢
      simp only [Option.map_eq_some'] at h ⊢
      obtain ⟨q, hq, rfl⟩ := h
      exact ⟨q, ih _ _ _ _ hq, rfl⟩

theorem bresenhamLoop_eq_runVisitor {σ : Type} (setPixel : σ → Int → Int → Bool × σ)
    (x1 y1 dx dy sx sy : Int) :
    ∀ (fuel : Nat) (s : σ) (x0 y0 err : Int) (p : List (Int × Int)),
      linePath x1 y1 dx dy sx sy fuel x0 y0 err = some p →
      bresenhamLoop setPixel x1 y1 dx dy sx sy fuel s x0 y0 err
        = some (runVisitor setPixel s p) := by
  intro fuel
  induction fuel with
  | zero => intro s x0 y0 err p h; simp [linePath] at h
  | succ n ih =>
    intro s x0 y0 err p h
    unfold linePath at h
    unfold bresenhamLoop
    by_cases hend : x0 = x1 ∧ y0 = y1
    · obtain ⟨rfl, rfl⟩ := hend
      simp only [and_self, if_true, Option.some.injEq] at h
      subst h
      by_cases hstop : (setPixel s x0 y0).1 = true
      · simp [runVisitor, hstop]
      · simp [runVisitor, hstop]
    · simp only [hend, if_false, Option.map_eq_some'] at h
      obtain ⟨q, hq, rfl⟩ := h
      by_cases hstop : (setPixel s x0 y0).1 = true
      · simp [runVisitor, hstop]
      · simp only [hstop, hend, if_false, runVisitor]
        exact ih _ _ _ _ _ hq

theorem linePath_spec (x1 y1 sx sy : Int) (a b : Nat) (hsx : sx ≠ 0) (hsy : sy ≠ 0) :
    ∀ (fuel m n : Nat), m ≤ a → n ≤ b → m + n + 1 ≤ fuel →
      ∃ L : List (Nat × Nat),
        linePath x1 y1 a (-b) sx sy fuel (x1 - sx * m) (y1 - sy * n) (a - b + b * m - a * n)
          = some (((m, n) :: L).map (cellBefore x1 y1 sx sy)) ∧
        List.Chain StepsToward (m, n) L ∧ ((m, n) :: L).getLast? = some (0, 0) := by
  intro fuel
  induction fuel with
  | zero => intro m n _ _ h; omega
  | succ k ih =>
    intro m n hm hn hfuel
    unfold linePath
    by_cases hend : m = 0 ∧ n = 0
    · obtain ⟨rfl, rfl⟩ := hend
      exact ⟨[], by simp [cellBefore], List.Chain.nil, by simp⟩
    · have hne : ¬ (x1 - sx * (m : Int) = x1 ∧ y1 - sy * (n : Int) = y1) := by
        rintro ⟨h1, h2⟩
        apply hend
        have h1' : sx * (m : Int) = 0 := by linarith
        have h2' : sy * (n : Int) = 0 := by linarith
        rcases mul_eq_zero.mp h1' with h | h
        · exact absurd h hsx
        rcases mul_eq_zero.mp h2' with h' | h'
        · exact absurd h' hsy
        exact ⟨by exact_mod_cast h, by exact_mod_cast h'⟩
      simp only [hne, if_false]
      -- the continuation, once the next position is known
      have next : ∀ (m' n' : Nat) (x' y' e' : Int), m' ≤ m → m ≤ m' + 1 → n' ≤ n → n ≤ n' + 1 →
          m' + n' < m + n → x' = x1 - sx * m' → y' = y1 - sy * n' →
          e' = a - b + b * m' - a * n' →
          ∃ L : List (Nat × Nat),
            Option.map (fun p => (x1 - sx * (m : Int), y1 - sy * (n : Int)) :: p)
              (linePath x1 y1 a (-b) sx sy k x' y' e')
              = some (((m, n) :: L).map (cellBefore x1 y1 sx sy)) ∧
            List.Chain StepsToward (m, n) L ∧ ((m, n) :: L).getLast? = some (0, 0) := by
        intro m' n' x' y' e' h1 h2 h3 h4 h5 hx hy he
        obtain ⟨L, hL, hc, hl⟩ := ih m' n' (by omega) (by omega) (by omega)
        refine ⟨(m', n') :: L, ?_, List.Chain.cons ⟨h1, h2, h3, h4, h5⟩ hc, ?_⟩
        · rw [hx, hy, he, hL]; simp [cellBefore]
        · rw [List.getLast?_cons_cons]; exact hl
      have hbm : (0 : Int) ≤ (b : Int) * m := by positivity
      have han : (0 : Int) ≤ (a : Int) * n := by positivity
      have hbm' : 1 ≤ m → (b : Int) ≤ (b : Int) * m := by
        intro h; have : (1 : Int) ≤ m := by exact_mod_cast h
        nlinarith [Int.natCast_nonneg b]
      have han' : 1 ≤ n → (a : Int) ≤ (a : Int) * n := by
        intro h; have : (1 : Int) ≤ n := by exact_mod_cast h
        nlinarith [Int.natCast_nonneg a]
      have hm0 : m = 0 → (b : Int) * m = 0 := by rintro rfl; simp
      have hn0 : n = 0 → (a : Int) * n = 0 := by rintro rfl; simp
      by_cases hx : (↑a - ↑b + ↑b * ↑m - ↑a * ↑n) * 2 > -(b : Int)
      · have hm1 : 1 ≤ m := by
          by_contra hcon
          have hm00 : m = 0 := by omega
          have := hm0 hm00
          have := han' (by omega)
          omega
        by_cases hy : (↑a - ↑b + ↑b * ↑m - ↑a * ↑n) * 2 < (a : Int)
        · have hn1 : 1 ≤ n := by
            by_contra hcon
            have hn00 : n = 0 := by omega
            have := hn0 hn00
            have := hbm' hm1
            omega
          simp only [hx, hy, if_true]
          refine next (m - 1) (n - 1) _ _ _ (by omega) (by omega) (by omega) (by omega)
            (by omega) ?_ ?_ ?_
          · rw [Nat.cast_sub hm1]; push_cast; ring
          · rw [Nat.cast_sub hn1]; push_cast; ring
          · rw [Nat.cast_sub hm1, Nat.cast_sub hn1]; push_cast; ring
        · simp only [hx, hy, if_true, if_false]
          refine next (m - 1) n _ _ _ (by omega) (by omega) (by omega) (by omega)
            (by omega) ?_ rfl ?_
          · rw [Nat.cast_sub hm1]; push_cast; ring
          · rw [Nat.cast_sub hm1]; push_cast; ring
      · have hy : (↑a - ↑b + ↑b * ↑m - ↑a * ↑n) * 2 < (a : Int) := by
          have hab : 0 < a + b := by omega
          omega
        have hn1 : 1 ≤ n := by
          by_contra hcon
          have hn00 : n = 0 := by omega
          have := hn0 hn00
          have := hbm' (by omega)
          omega
        simp only [hx, hy, if_true, if_false]
        refine next m (n - 1) _ _ _ (by omega) (by omega) (by omega) (by omega)
          (by omega) rfl ?_ ?_
        · rw [Nat.cast_sub hn1]; push_cast; ring
        · rw [Nat.cast_sub hn1]; push_cast; ring

theorem stepSign_ne_zero (u0 u1 : Int) : stepSign u0 u1 ≠ 0 := by
  unfold stepSign; split_ifs <;> decide

theorem stepSign_mul_natAbs (u0 u1 : Int) :
    u1 - stepSign u0 u1 * ((u1 - u0).natAbs : Int) = u0 := by
  unfold stepSign
  split_ifs with h
  · rw [Int.natCast_natAbs, abs_of_nonneg (by omega)]; ring
  · rw [Int.natCast_natAbs, abs_of_nonpos (by omega)]; ring

theorem stepSign_mul_self (u0 u1 : Int) : stepSign u0 u1 * stepSign u0 u1 = 1 := by
  unfold stepSign; split_ifs <;> decide

/-- The shape of the complete line: the cells are the images of a list of pairs of
steps still to go, which starts at the two axis lengths, ends at `(0, 0)` and moves by
`StepsToward`; any fuel from `lineFuel` on yields exactly this path. -/
theorem lineCells_spec (x0 y0 x1 y1 : Int) :
    ∃ L : List (Nat × Nat),
      lineCells x0 y0 x1 y1
        = (((x1 - x0).natAbs, (y1 - y0).natAbs) :: L).map
            (cellBefore x1 y1 (stepSign x0 x1) (stepSign y0 y1)) ∧
      List.Chain StepsToward ((x1 - x0).natAbs, (y1 - y0).natAbs) L ∧
      (((x1 - x0).natAbs, (y1 - y0).natAbs) :: L).getLast? = some (0, 0) ∧
      ∀ fuel, lineFuel x0 y0 x1 y1 ≤ fuel →
        linePath x1 y1 |x1 - x0| (-|y1 - y0|) (stepSign x0 x1) (stepSign y0 y1) fuel x0 y0
          (|x1 - x0| + -|y1 - y0|) = some (lineCells x0 y0 x1 y1) := by
  obtain ⟨L, hL, hc, hl⟩ := linePath_spec x1 y1 (stepSign x0 x1) (stepSign y0 y1)
    (x1 - x0).natAbs (y1 - y0).natAbs (stepSign_ne_zero _ _) (stepSign_ne_zero _ _)
    (lineFuel x0 y0 x1 y1) (x1 - x0).natAbs (y1 - y0).natAbs le_rfl le_rfl le_rfl
  rw [stepSign_mul_natAbs, stepSign_mul_natAbs] at hL
  have herr : ((x1 - x0).natAbs : Int) - ((y1 - y0).natAbs : Int)
      + ((y1 - y0).natAbs : Int) * ((x1 - x0).natAbs : Int)
      - ((x1 - x0).natAbs : Int) * ((y1 - y0).natAbs : Int)
      = |x1 - x0| + -|y1 - y0| := by
    rw [Int.natCast_natAbs, Int.natCast_natAbs]; ring
  rw [herr, Int.natCast_natAbs, Int.natCast_natAbs] at hL
  have hcells : lineCells x0 y0 x1 y1
      = (((x1 - x0).natAbs, (y1 - y0).natAbs) :: L).map
          (cellBefore x1 y1 (stepSign x0 x1) (stepSign y0 y1)) := by
    have h := hL
    unfold lineFuel stepSign at h
    unfold lineCells
    rw [h]; rfl
  refine ⟨L, hcells, hc, hl, ?_⟩
  intro fuel hfuel
  obtain ⟨k, rfl⟩ := Nat.exists_eq_add_of_le hfuel
  rw [hcells]
  exact linePath_mono _ _ _ _ _ _ k _ _ _ _ _ hL

/-- With enough fuel `bresenhamLine` returns, and what it returns is the visitor run
over the cells of the complete line until it asks to stop. -/
theorem bresenhamLine_eq_runVisitor {σ : Type} (fuel : Nat) (x0 y0 x1 y1 : Int)
    (setPixel : σ → Int → Int → Bool × σ) (s : σ) (hfuel : lineFuel x0 y0 x1 y1 ≤ fuel) :
    bresenhamLine fuel x0 y0 x1 y1 setPixel s
      = some (runVisitor setPixel s (lineCells x0 y0 x1 y1)) := by
  obtain ⟨L, -, -, -, hpath⟩ := lineCells_spec x0 y0 x1 y1
  have h := bresenhamLoop_eq_runVisitor setPixel _ _ _ _ _ _ fuel s _ _ _ _ (hpath fuel hfuel)
  unfold stepSign at h
  exact h

theorem runVisitor_recordVisit (visit : Int → Int → Bool) :
    ∀ (cells log : List (Int × Int)),
      runVisitor (recordVisit visit) log cells = log ++ cutAfterFirst visit cells := by
  intro cells
  induction cells with
  | nil => intro log; simp [runVisitor, cutAfterFirst]
  | cons c rest ih =>
    intro log
    by_cases h : visit c.1 c.2 = true
    · simp [runVisitor, cutAfterFirst, recordVisit, h]
    · simp [runVisitor, cutAfterFirst, recordVisit, h, ih]

theorem cutAfterFirst_neverStop (cells : List (Int × Int)) :
    cutAfterFirst neverStop cells = cells := by
  induction cells with
  | nil => rfl
  | cons c rest ih => simp [cutAfterFirst, neverStop, ih]

/-- With enough fuel the visited cells are the complete line cut after the first stop. -/
theorem visitedCells_eq (fuel : Nat) (x0 y0 x1 y1 : Int) (visit : Int → Int → Bool)
    (hfuel : lineFuel x0 y0 x1 y1 ≤ fuel) :
    visitedCells fuel x0 y0 x1 y1 visit
      = some (cutAfterFirst visit (lineCells x0 y0 x1 y1)) := by
  unfold visitedCells
  rw [bresenhamLine_eq_runVisitor fuel x0 y0 x1 y1 _ _ hfuel, runVisitor_recordVisit]
  simp

theorem cutAfterFirst_initial (visit : Int → Int → Bool) (cells : List (Int × Int)) :
    cutAfterFirst visit cells <+: cells := by
  induction cells with
  | nil => simp [cutAfterFirst]
  | cons c rest ih =>
    unfold cutAfterFirst
    split_ifs
    · exact ⟨rest, rfl⟩
    · exact (List.prefix_cons_inj c).mpr ih

theorem cutAfterFirst_dropLast (visit : Int → Int → Bool) (cells : List (Int × Int)) :
    ∀ c ∈ (cutAfterFirst visit cells).dropLast, visit c.1 c.2 = false := by
  induction cells with
  | nil => simp [cutAfterFirst]
  | cons c rest ih =>
    unfold cutAfterFirst
    split_ifs with h
    · simp
    · intro d hd
      cases hrest : cutAfterFirst visit rest with
      | nil => rw [hrest] at hd; simp at hd
      | cons e tl =>
        rw [hrest, List.dropLast_cons₂] at hd
        rcases List.mem_cons.mp hd with rfl | hd'
        · simpa using h
        · exact ih d (by rw [hrest]; exact hd')

theorem cutAfterFirst_last (visit : Int → Int → Bool) (cells : List (Int × Int)) :
    cutAfterFirst visit cells = cells ∨
      ∃ c, (cutAfterFirst visit cells).getLast? = some c ∧ visit c.1 c.2 = true := by
  induction cells with
  | nil => left; rfl
  | cons c rest ih =>
    unfold cutAfterFirst
    split_ifs with h
    · right; exact ⟨c, by simp, h⟩
    · rcases ih with ih | ⟨d, hd, hv⟩
      · left; rw [ih]
      · right
        refine ⟨d, ?_, hv⟩
        cases hrest : cutAfterFirst visit rest with
        | nil => rw [hrest] at hd; simp at hd
        | cons e tl => rw [List.getLast?_cons_cons, ← hrest]; exact hd

theorem lineCells_head (x0 y0 x1 y1 : Int) :
    (lineCells x0 y0 x1 y1).head? = some (x0, y0) := by
  obtain ⟨L, hL, -, -, -⟩ := lineCells_spec x0 y0 x1 y1
  rw [hL]
  simp only [List.map_cons, List.head?_cons, cellBefore, stepSign_mul_natAbs]

theorem lineCells_getLast (x0 y0 x1 y1 : Int) :
    (lineCells x0 y0 x1 y1).getLast? = some (x1, y1) := by
  obtain ⟨L, hL, -, hl, -⟩ := lineCells_spec x0 y0 x1 y1
  rw [hL, List.getLast?_map, hl]
  simp [cellBefore]

theorem abs_stepSign_mul (u0 u1 : Int) (k : Nat) : |stepSign u0 u1 * (k : Int)| = k := by
  unfold stepSign
  split_ifs
  · simp
  · simp

theorem movesToward_of_stepsToward (x0 y0 x1 y1 : Int) (p q : Nat × Nat)
    (h : StepsToward p q) :
    MovesToward x1 y1 (cellBefore x1 y1 (stepSign x0 x1) (stepSign y0 y1) p)
      (cellBefore x1 y1 (stepSign x0 x1) (stepSign y0 y1) q) := by
  obtain ⟨h1, h2, h3, h4, -⟩ := h
  have e1 : ∀ (u0 u1 : Int) (a b : Nat), b ≤ a → a ≤ b + 1 →
      |(u1 - stepSign u0 u1 * (b : Int)) - (u1 - stepSign u0 u1 * (a : Int))| ≤ 1 := by
    intro u0 u1 a b hba hab
    have : (u1 - stepSign u0 u1 * (b : Int)) - (u1 - stepSign u0 u1 * (a : Int))
        = stepSign u0 u1 * ((a - b : Nat) : Int) := by
      rw [Nat.cast_sub hba]; ring
    rw [this, abs_stepSign_mul]
    exact_mod_cast (by omega : a - b ≤ 1)
  have e2 : ∀ (u0 u1 : Int) (a : Nat), |u1 - (u1 - stepSign u0 u1 * (a : Int))| = a := by
    intro u0 u1 a
    rw [sub_sub_cancel, abs_stepSign_mul]
  refine ⟨e1 _ _ _ _ h1 h2, e1 _ _ _ _ h3 h4, ?_, ?_⟩
  · simp only [cellBefore]; rw [e2, e2]; exact_mod_cast h1
  · simp only [cellBefore]; rw [e2, e2]; exact_mod_cast h3

theorem lineCells_chain (x0 y0 x1 y1 : Int) :
    List.Chain' (MovesToward x1 y1) (lineCells x0 y0 x1 y1) := by
  obtain ⟨L, hL, hc, -, -⟩ := lineCells_spec x0 y0 x1 y1
  rw [hL, List.chain'_map]
  exact List.Chain'.imp (fun p q h => movesToward_of_stepsToward x0 y0 x1 y1 p q h) hc

theorem lineCells_pairwise (x0 y0 x1 y1 : Int) :
    ∃ L : List (Nat × Nat),
      lineCells x0 y0 x1 y1
        = L.map (cellBefore x1 y1 (stepSign x0 x1) (stepSign y0 y1)) ∧
      List.Pairwise Before L ∧
      ∀ r ∈ L, r.1 ≤ (x1 - x0).natAbs ∧ r.2 ≤ (y1 - y0).natAbs := by
  obtain ⟨L, hL, hc, -, -⟩ := lineCells_spec x0 y0 x1 y1
  have hp : List.Pairwise Before (((x1 - x0).natAbs, (y1 - y0).natAbs) :: L) :=
    List.chain_iff_pairwise.mp
      (List.Chain.imp (fun p q h => ⟨h.1, h.2.2.1, h.2.2.2.2⟩) hc)
  refine ⟨_, hL, hp, ?_⟩
  intro r hr
  rcases List.mem_cons.mp hr with rfl | hr'
  · exact ⟨le_rfl, le_rfl⟩
  · have := (List.pairwise_cons.mp hp).1 r hr'
    exact ⟨this.1, this.2.1⟩

theorem cellBefore_injective (x0 y0 x1 y1 : Int) :
    Function.Injective (cellBefore x1 y1 (stepSign x0 x1) (stepSign y0 y1)) := by
  intro p q h
  simp only [cellBefore, Prod.mk.injEq] at h
  obtain ⟨h1, h2⟩ := h
  have h1' : stepSign x0 x1 * (p.1 : Int) = stepSign x0 x1 * (q.1 : Int) := by linarith
  have h2' : stepSign y0 y1 * (p.2 : Int) = stepSign y0 y1 * (q.2 : Int) := by linarith
  have a1 := mul_left_cancel₀ (stepSign_ne_zero x0 x1) h1'
  have a2 := mul_left_cancel₀ (stepSign_ne_zero y0 y1) h2'
  exact Prod.ext (by exact_mod_cast a1) (by exact_mod_cast a2)

theorem lineCells_nodup (x0 y0 x1 y1 : Int) : (lineCells x0 y0 x1 y1).Nodup := by
  obtain ⟨L, hL, hp, -⟩ := lineCells_pairwise x0 y0 x1 y1
  rw [hL]
  refine List.Nodup.map (cellBefore_injective x0 y0 x1 y1) ?_
  refine List.Pairwise.imp ?_ hp
  intro p q h heq
  subst heq
  exact absurd h.2.2 (lt_irrefl _)

/-! ## Lemmas about the horizon extraction -/

theorem toInt_range {K : Type} [LinearOrderedField K] [FloorRing K] (x : K) :
    -2 ^ 31 ≤ toInt x ∧ toInt x < 2 ^ 31 := by
  unfold toInt
  generalize (if 0 ≤ x then ⌊x⌋ else ⌈x⌉) = t
  dsimp only
  constructor <;> omega

theorem toInt_intCast {K : Type} [LinearOrderedField K] [FloorRing K] (k : Int)
    (h1 : -2 ^ 31 ≤ k) (h2 : k < 2 ^ 31) : toInt (k : K) = k := by
  unfold toInt
  simp only [Int.floor_intCast, Int.ceil_intCast, ite_self]
  omega

theorem lineFuel_le_rayFuel {K : Type} [LinearOrderedField K] [FloorRing K] (M : JsMath K)
    (sc : Scene K) (angle : K) :
    lineFuel sc.xStart sc.yStart (rayEnd M sc angle).1 (rayEnd M sc angle).2
      ≤ rayFuel sc.xStart sc.yStart := by
  have hx := toInt_range (M.cos angle * ((2 * max sc.width sc.height : Int) : K) + (sc.xStart : K))
  have hy := toInt_range (M.sin angle * ((2 * max sc.width sc.height : Int) : K) + (sc.yStart : K))
  unfold lineFuel rayFuel rayEnd
  simp only
  omega

theorem runVisitor_rayVisitor {K : Type} [LinearOrderedField K] (M : JsMath K)
    (sc : Scene K) :
    ∀ (cells : List (Int × Int)) (s : Best K),
      runVisitor (rayVisitor M sc) s cells
        = (candidates sc (cutAfterFirst (outOfBounds sc) cells)).foldl (better M sc) s := by
  intro cells
  induction cells with
  | nil => intro s; simp [runVisitor, cutAfterFirst, candidates]
  | cons c rest ih =>
    intro s
    by_cases hout : c.1 < 0 ∨ c.1 ≥ sc.width ∨ c.2 < 0 ∨ c.2 ≥ sc.height
    · have ho : outOfBounds sc c.1 c.2 = true := by simp [outOfBounds, hout]
      simp [runVisitor, rayVisitor, cutAfterFirst, candidates, hout, ho]
    · have ho : outOfBounds sc c.1 c.2 = false := by simp [outOfBounds, hout]
      by_cases hvp : c.1 - sc.xStart = 0 ∧ c.2 - sc.yStart = 0
      · have hc : c = (sc.xStart, sc.yStart) := Prod.ext (by simp; omega) (by simp; omega)
        have hstep : rayVisitor M sc s c.1 c.2 = (false, s) := by
          simp only [rayVisitor, hout, hvp, and_self, if_false, if_true]
        have := ih s
        simp only [candidates] at this
        have hdec : decide (c = (sc.xStart, sc.yStart)) = true := by simp [hc]
        simp [runVisitor, hstep, cutAfterFirst, candidates, ho, hdec, this]
      · have hc : ¬ c = (sc.xStart, sc.yStart) := by
          intro h; apply hvp; rw [h]; simp
        have hstep : rayVisitor M sc s c.1 c.2 = (false, better M sc s c) := by
          simp only [rayVisitor, hout, hvp, if_false, better, slopeAt, planarDistance]
          split_ifs <;> rfl
        have := ih (better M sc s c)
        simp only [candidates] at this
        simp [runVisitor, hstep, cutAfterFirst, candidates, ho, hc, this]

/-- What the running best is after a list of competing cells: it never falls, it bounds
the slope of every cell, and either nothing was recorded or the record is a cell of the
list that beat the start and every cell before it. -/
theorem foldl_better_spec {K : Type} [LinearOrderedField K] (M : JsMath K) (sc : Scene K) :
    ∀ (cand : List (Int × Int)) (s : Best K),
      s.bestHeight / s.bestDistance
        ≤ (cand.foldl (better M sc) s).bestHeight / (cand.foldl (better M sc) s).bestDistance ∧
      (∀ c ∈ cand, slopeAt M sc c
        ≤ (cand.foldl (better M sc) s).bestHeight / (cand.foldl (better M sc) s).bestDistance) ∧
      (cand.foldl (better M sc) s = s ∨
        ∃ pre b post, cand = pre ++ b :: post ∧
          cand.foldl (better M sc) s
            = ⟨sc.heightMap (b.1 + b.2 * sc.width) - sc.viewerHeight,
                planarDistance M sc b, b.1, b.2⟩ ∧
          s.bestHeight / s.bestDistance < slopeAt M sc b ∧
          ∀ c ∈ pre, slopeAt M sc c < slopeAt M sc b) := by
  intro cand
  induction cand with
  | nil => intro s; simp
  | cons c rest ih =>
    intro s
    obtain ⟨h1, h2, h3⟩ := ih (better M sc s c)
    simp only [List.foldl_cons]
    -- the first cell against the start
    have hc : s.bestHeight / s.bestDistance
          ≤ (better M sc s c).bestHeight / (better M sc s c).bestDistance ∧
        slopeAt M sc c ≤ (better M sc s c).bestHeight / (better M sc s c).bestDistance ∧
        (better M sc s c = s ∨
          (better M sc s c = ⟨sc.heightMap (c.1 + c.2 * sc.width) - sc.viewerHeight,
              planarDistance M sc c, c.1, c.2⟩ ∧
            s.bestHeight / s.bestDistance < slopeAt M sc c)) := by
      unfold better
      split_ifs with h
      · exact ⟨le_of_lt h, le_refl _, Or.inr ⟨rfl, h⟩⟩
      · exact ⟨le_refl _, not_lt.mp h, Or.inl rfl⟩
    obtain ⟨c1, c2, c3⟩ := hc
    refine ⟨le_trans c1 h1, ?_, ?_⟩
    · intro d hd
      rcases List.mem_cons.mp hd with rfl | hd'
      · exact le_trans c2 h1
      · exact h2 d hd'
    · rcases h3 with h3 | ⟨pre, b, post, hsplit, hrec, hlt, hpre⟩
      · rcases c3 with c3 | ⟨c3, c4⟩
        · left; rw [h3, c3]
        · right
          exact ⟨[], c, rest, rfl, by rw [h3, c3], c4, by simp⟩
      · right
        refine ⟨c :: pre, b, post, by rw [hsplit]; rfl, hrec, lt_of_le_of_lt c1 hlt, ?_⟩
        intro d hd
        rcases List.mem_cons.mp hd with rfl | hd'
        · exact lt_of_le_of_lt c2 hlt
        · exact hpre d hd'

/-- With enough fuel for the line to the ray end, the ray returns: its visited cells are
`rayPath` and its sample is `raySample`. -/
theorem castRay_eq {K : Type} [LinearOrderedField K] [FloorRing K] (M : JsMath K)
    (fuel : Nat) (sc : Scene K) (angle : K)
    (hfuel : lineFuel sc.xStart sc.yStart (rayEnd M sc angle).1 (rayEnd M sc angle).2 ≤ fuel) :
    rayCells M fuel sc angle = some (rayPath M sc angle) ∧
      castRay M fuel sc angle = some (raySample M sc angle) := by
  refine ⟨visitedCells_eq fuel _ _ _ _ _ hfuel, ?_⟩
  unfold castRay
  simp only
  rw [bresenhamLine_eq_runVisitor fuel _ _ _ _ _ _ hfuel, runVisitor_rayVisitor]
  rfl

theorem castRay_eq_of_rayFuel {K : Type} [LinearOrderedField K] [FloorRing K] (M : JsMath K)
    (fuel : Nat) (sc : Scene K) (angle : K) (hfuel : rayFuel sc.xStart sc.yStart ≤ fuel) :
    rayCells M fuel sc angle = some (rayPath M sc angle) ∧
      castRay M fuel sc angle = some (raySample M sc angle) :=
  castRay_eq M fuel sc angle (le_trans (lineFuel_le_rayFuel M sc angle) hfuel)

/-- The two outcomes of a ray: nothing recorded, the sample is the start values and no
competing cell has a positive slope; or a competing cell is recorded, its slope is
positive, larger than that of every competing cell before it and not smaller than that
of any competing cell. -/
theorem raySample_spec {K : Type} [LinearOrderedField K] [FloorRing K] (M : JsMath K)
    (sc : Scene K) (angle : K) :
    (raySample M sc angle = (sc.xStart, sc.yStart, 0) ∧
        ∀ c ∈ candidates sc (rayPath M sc angle), slopeAt M sc c ≤ 0) ∨
    (∃ pre b post, candidates sc (rayPath M sc angle) = pre ++ b :: post ∧
        raySample M sc angle
          = (b.1, b.2, sc.heightMap (b.1 + b.2 * sc.width) - sc.viewerHeight) ∧
        0 < slopeAt M sc b ∧
        (∀ c ∈ pre, slopeAt M sc c < slopeAt M sc b) ∧
        ∀ c ∈ candidates sc (rayPath M sc angle), slopeAt M sc c ≤ slopeAt M sc b) := by
  obtain ⟨-, h2, h3⟩ := foldl_better_spec M sc (candidates sc (rayPath M sc angle)) (Best.init sc)
  have h0 : (Best.init sc).bestHeight / (Best.init sc).bestDistance = 0 := by
    simp [Best.init]
  rcases h3 with h3 | ⟨pre, b, post, hsplit, hrec, hlt, hpre⟩
  · left
    refine ⟨?_, ?_⟩
    · simp only [raySample, rayBest]
      rw [h3]
      rfl
    · intro c hc
      have := h2 c hc
      rwa [h3, h0] at this
  · right
    refine ⟨pre, b, post, hsplit, ?_, ?_, hpre, ?_⟩
    · simp only [raySample, rayBest]
      rw [hrec]
    · rwa [h0] at hlt
    · intro c hc
      have := h2 c hc
      rw [hrec] at this
      exact this

/-- Along the complete line the squared distance from the start grows strictly. -/
theorem lineCells_pairwise_dist (x0 y0 x1 y1 : Int) :
    List.Pairwise
      (fun p q : Int × Int =>
        (p.1 - x0) * (p.1 - x0) + (p.2 - y0) * (p.2 - y0)
          < (q.1 - x0) * (q.1 - x0) + (q.2 - y0) * (q.2 - y0))
      (lineCells x0 y0 x1 y1) := by
  obtain ⟨L, hL, hp, hle⟩ := lineCells_pairwise x0 y0 x1 y1
  rw [hL, List.pairwise_map]
  refine List.Pairwise.imp_of_mem ?_ hp
  intro p q hpm hqm hpq
  obtain ⟨hp1, hp2⟩ := hle p hpm
  obtain ⟨hq1, hq2⟩ := hle q hqm
  obtain ⟨b1, b2, b3⟩ := hpq
  have ex : ∀ r : Nat, (x1 - stepSign x0 x1 * (r : Int) - x0)
      = stepSign x0 x1 * (((x1 - x0).natAbs : Int) - r) := by
    intro r
    have := stepSign_mul_natAbs x0 x1
    linarith
  have ey : ∀ r : Nat, (y1 - stepSign y0 y1 * (r : Int) - y0)
      = stepSign y0 y1 * (((y1 - y0).natAbs : Int) - r) := by
    intro r
    have := stepSign_mul_natAbs y0 y1
    linarith
  have sq : ∀ (s u : Int), s * s = 1 → (s * u) * (s * u) = u * u := by
    intro s u hs
    calc (s * u) * (s * u) = (s * s) * (u * u) := by ring
      _ = u * u := by rw [hs, one_mul]
  simp only [cellBefore]
  rw [ex, ex, ey, ey, sq _ _ (stepSign_mul_self x0 x1), sq _ _ (stepSign_mul_self y0 y1),
    sq _ _ (stepSign_mul_self x0 x1), sq _ _ (stepSign_mul_self y0 y1)]
  have hp1' : (p.1 : Int) ≤ (x1 - x0).natAbs := by exact_mod_cast hp1
  have hp2' : (p.2 : Int) ≤ (y1 - y0).natAbs := by exact_mod_cast hp2
  have b1' : (q.1 : Int) ≤ p.1 := by exact_mod_cast b1
  have b2' : (q.2 : Int) ≤ p.2 := by exact_mod_cast b2
  have b3' : (q.1 : Int) + q.2 + 1 ≤ p.1 + p.2 := by exact_mod_cast b3
  have key : ∀ (u v d1 d2 : Int), 0 ≤ u → 0 ≤ v → 0 ≤ d1 → 0 ≤ d2 → 1 ≤ d1 + d2 →
      u * u + v * v < (u + d1) * (u + d1) + (v + d2) * (v + d2) := by
    intro u v d1 d2 hu hv hd1 hd2 hd
    have h1 := mul_nonneg hu hd1
    have h2 := mul_nonneg hv hd2
    have h3 := mul_nonneg hd1 hd1
    have h4 := mul_nonneg hd2 hd2
    rcases le_or_lt 1 d1 with h | h
    · have h5 := mul_nonneg (sub_nonneg.mpr h) hd1
      nlinarith
    · have h6 : 1 ≤ d2 := by omega
      have h5 := mul_nonneg (sub_nonneg.mpr h6) hd2
      nlinarith
  have := key (((x1 - x0).natAbs : Int) - p.1) (((y1 - y0).natAbs : Int) - p.2)
    ((p.1 : Int) - q.1) ((p.2 : Int) - q.2) (by omega) (by omega) (by omega) (by omega)
    (by omega)
  have e1 : ((x1 - x0).natAbs : Int) - p.1 + ((p.1 : Int) - q.1)
      = ((x1 - x0).natAbs : Int) - q.1 := by ring
  have e2 : ((y1 - y0).natAbs : Int) - p.2 + ((p.2 : Int) - q.2)
      = ((y1 - y0).natAbs : Int) - q.2 := by ring
  rw [e1, e2] at this
  exact this

theorem candidates_sublist {K : Type} [LinearOrderedField K] [FloorRing K] (M : JsMath K)
    (sc : Scene K) (angle : K) :
    List.Sublist (candidates sc (rayPath M sc angle))
      (lineCells sc.xStart sc.yStart (rayEnd M sc angle).1 (rayEnd M sc angle).2) :=
  List.Sublist.trans (List.filter_sublist _) (cutAfterFirst_initial _ _).sublist

theorem silhouetteLoop_eq {K : Type} [LinearOrderedField K] [FloorRing K] (M : JsMath K)
    (fuel : Nat) (sc : Scene K) (n : Nat) (hfuel : rayFuel sc.xStart sc.yStart ≤ fuel) :
    ∀ (todo step : Nat) (acc : List (Int × Int × K)),
      silhouetteLoop M fuel sc n todo step acc
        = some (acc ++ (List.range todo).map
            (fun i => raySample M sc (stepAngle M n (step + i)))) := by
  intro todo
  induction todo with
  | zero => intro step acc; simp [silhouetteLoop]
  | succ t ih =>
    intro step acc
    unfold silhouetteLoop
    rw [(castRay_eq_of_rayFuel M fuel sc _ hfuel).2]
    simp only
    rw [ih, List.range_succ_eq_map]
    simp only [List.map_cons, List.map_map, Nat.add_zero, List.append_assoc,
      List.singleton_append, Option.some.injEq, List.append_cancel_left_eq, List.cons.injEq,
      true_and]
    apply List.map_congr_left
    intro i _
    simp only [Function.comp, Nat.succ_eq_add_one]
    congr 2
    omega

/-- With fuel from `rayFuel` on, `redraw` returns the samples of the angles of the steps
`0, 1, ..., n` in this order. -/
theorem redraw_eq {K : Type} [LinearOrderedField K] [FloorRing K] (M : JsMath K)
    (fuel : Nat) (sc : Scene K) (n : Nat) (hfuel : rayFuel sc.xStart sc.yStart ≤ fuel) :
    redraw M fuel sc n
      = some ((List.range (n + 1)).map (fun i => raySample M sc (stepAngle M n i))) := by
  unfold redraw
  rw [silhouetteLoop_eq M fuel sc n hfuel]
  simp

/-- Where no cell inside the height map is above the viewer, a ray records nothing. -/
theorem raySample_of_not_above (sc : Scene ℝ) (angle : ℝ)
    (hlow : ∀ x y : Int, 0 ≤ x → x < sc.width → 0 ≤ y → y < sc.height →
      sc.heightMap (x + y * sc.width) ≤ sc.viewerHeight) :
    raySample realMath sc angle = (sc.xStart, sc.yStart, 0) := by
  rcases raySample_spec realMath sc angle with ⟨h, -⟩ | ⟨pre, b, post, hsplit, -, hpos, -, -⟩
  · exact h
  · exfalso
    have hb : b ∈ candidates sc (rayPath realMath sc angle) := by
      rw [hsplit]; simp
    have hin : outOfBounds sc b.1 b.2 = false := by
      have := (List.mem_filter.mp hb).2
      simp only [Bool.and_eq_true, Bool.not_eq_true'] at this
      exact this.1
    simp only [outOfBounds, decide_eq_false_iff_not, not_or, not_lt, ge_iff_le, not_le] at hin
    have hh := hlow b.1 b.2 hin.1 hin.2.1 hin.2.2.1 hin.2.2.2
    have : slopeAt realMath sc b ≤ 0 := by
      unfold slopeAt planarDistance realMath
      exact div_nonpos_of_nonpos_of_nonneg (by linarith) (Real.sqrt_nonneg _)
    linarith

/-- The ray for angle 0 ends `2 * max width height` cells to the right of the viewpoint
(while that is a 32-bit integer). -/
theorem rayEnd_zero (sc : Scene ℝ)
    (h1 : -2 ^ 31 ≤ 2 * max sc.width sc.height + sc.xStart)
    (h2 : 2 * max sc.width sc.height + sc.xStart < 2 ^ 31)
    (h3 : -2 ^ 31 ≤ sc.yStart) (h4 : sc.yStart < 2 ^ 31) :
    rayEnd realMath sc 0 = (2 * max sc.width sc.height + sc.xStart, sc.yStart) := by
  unfold rayEnd realMath
  simp only [Real.cos_zero, Real.sin_zero, one_mul, zero_mul, zero_add]
  rw [← Int.cast_add, toInt_intCast _ h1 h2, toInt_intCast _ h3 h4]

theorem rayEnd_spikeScene : rayEnd realMath (spikeScene ℝ) 0 = (6, 0) := by
  rw [rayEnd_zero (spikeScene ℝ) (by decide) (by decide) (by decide) (by decide)]
  decide

theorem rayEnd_flatScene : rayEnd realMath (flatScene ℝ) 0 = (7, 1) := by
  rw [rayEnd_zero (flatScene ℝ) (by decide) (by decide) (by decide) (by decide)]
  decide

theorem candidates_spikeScene :
    candidates (spikeScene ℝ) (rayPath realMath (spikeScene ℝ) 0) = [(1, 0), (2, 0)] := by
  unfold rayPath
  rw [rayEnd_spikeScene]
  decide

theorem sqrt_four : Real.sqrt 4 = 2 := by
  rw [show (4 : ℝ) = 2 * 2 by norm_num]
  exact Real.sqrt_mul_self (by norm_num)

theorem raySample_spikeScene : raySample realMath (spikeScene ℝ) 0 = (2, 0, 1) := by
  unfold raySample rayBest
  rw [candidates_spikeScene]
  simp [better, slopeAt, planarDistance, realMath, Best.init, spikeScene]

/-- A split of the competing cells at a cell is a split of the visited cells at it. -/
theorem candidates_split {K : Type} (sc : Scene K) (cells pre post : List (Int × Int))
    (b : Int × Int) (h : candidates sc cells = pre ++ b :: post) :
    ∃ before after, cells = before ++ b :: after ∧ candidates sc before = pre ∧
      candidates sc after = post := by
  unfold candidates at h
  obtain ⟨l1, l2, hcells, hl1, hl2⟩ := List.filter_eq_append_iff.mp h
  obtain ⟨m1, m2, hl2', hm1, -, hm2⟩ := List.filter_eq_cons_iff.mp hl2
  refine ⟨l1 ++ m1, m2, by rw [hcells, hl2', List.append_assoc], ?_, hm2⟩
  unfold candidates
  rw [List.filter_append, hl1, List.filter_eq_nil_iff.mpr hm1, List.append_nil]

/-! ## Lemmas about the gradient noise -/

theorem toInt_intCast_wrap {K : Type} [LinearOrderedField K] [FloorRing K] (k : Int) :
    toInt (k : K) = (k + 2 ^ 31) % 2 ^ 32 - 2 ^ 31 := by
  unfold toInt
  simp only [Int.floor_intCast, Int.ceil_intCast, ite_self]

theorem toInt_of_nonneg {K : Type} [LinearOrderedField K] [FloorRing K] (x : K)
    (h : 0 ≤ x) : toInt x = (⌊x⌋ + 2 ^ 31) % 2 ^ 32 - 2 ^ 31 := by
  unfold toInt
  simp only [h, if_true]

theorem toInt_of_neg {K : Type} [LinearOrderedField K] [FloorRing K] (x : K)
    (h : x < 0) : toInt x = (⌈x⌉ + 2 ^ 31) % 2 ^ 32 - 2 ^ 31 := by
  unfold toInt
  simp only [not_le.mpr h, if_false]

/-- In the 32-bit range and on non-negative numbers `toInt` is the floor. -/
theorem toInt_eq_floor {K : Type} [LinearOrderedField K] [FloorRing K] (x : K)
    (h0 : 0 ≤ x) (h1 : x < 2 ^ 31) : toInt x = ⌊x⌋ := by
  rw [toInt_of_nonneg x h0]
  have hf0 : 0 ≤ ⌊x⌋ := Int.floor_nonneg.mpr h0
  have hf1 : ⌊x⌋ < 2 ^ 31 := by
    rw [Int.floor_lt]
    exact_mod_cast h1
  omega

theorem ceil_eq_floor_or {K : Type} [LinearOrderedField K] [FloorRing K] (x : K) :
    ((⌊x⌋ : K) = x ∧ ⌈x⌉ = ⌊x⌋) ∨ ((⌊x⌋ : K) ≠ x ∧ ⌈x⌉ = ⌊x⌋ + 1) := by
  by_cases h : (⌊x⌋ : K) = x
  · left
    refine ⟨h, ?_⟩
    rw [← h, Int.ceil_intCast, Int.floor_intCast]
  · right
    refine ⟨h, ?_⟩
    have hlt : (⌊x⌋ : K) < x := lt_of_le_of_ne (Int.floor_le x) h
    have h1 : ⌊x⌋ < ⌈x⌉ := by
      rw [Int.lt_ceil]
      exact hlt
    have h2 := Int.ceil_le_floor_add_one x
    omega

/-- Exactly when `toInt` is the floor: on numbers that are non-negative or integers and
whose floor is in the 32-bit range. -/
theorem toInt_eq_floor_iff {K : Type} [LinearOrderedField K] [FloorRing K] (x : K) :
    toInt x = ⌊x⌋ ↔ (0 ≤ x ∨ (⌊x⌋ : K) = x) ∧ -2 ^ 31 ≤ ⌊x⌋ ∧ ⌊x⌋ < 2 ^ 31 := by
  rcases le_or_lt 0 x with h | h
  · rw [toInt_of_nonneg x h]
    constructor
    · intro he
      exact ⟨Or.inl h, by omega, by omega⟩
    · rintro ⟨-, h1, h2⟩
      omega
  · rw [toInt_of_neg x h]
    rcases ceil_eq_floor_or x with ⟨hi, hc⟩ | ⟨hi, hc⟩
    · rw [hc]
      constructor
      · intro he
        exact ⟨Or.inr hi, by omega, by omega⟩
      · rintro ⟨-, h1, h2⟩
        omega
    · rw [hc]
      constructor
      · intro he
        omega
      · rintro ⟨h1 | h1, -, -⟩
        · exact absurd h1 (not_le.mpr h)
        · exact absurd h1 hi

/-- The corners `perlinNoise` works with are the ones of `latticeCorners`, and the four
lattice points it looks gradients up at are the ones of `perlinLookups`. -/
theorem perlinNoise_eq_corners {K : Type} [LinearOrderedField K] [FloorRing K]
    (G : Gradients K) (x y : K) :
    perlinNoise G x y
      = lerp
          (lerp (dotGridGradient G (latticeCorners x y).1.1 (latticeCorners x y).1.2 x y)
            (dotGridGradient G (latticeCorners x y).2.1 (latticeCorners x y).1.2 x y)
            (smoothCurve (x - ((latticeCorners x y).1.1 : K))))
          (lerp (dotGridGradient G (latticeCorners x y).1.1 (latticeCorners x y).2.2 x y)
            (dotGridGradient G (latticeCorners x y).2.1 (latticeCorners x y).2.2 x y)
            (smoothCurve (x - ((latticeCorners x y).1.1 : K))))
          (smoothCurve (y - ((latticeCorners x y).1.2 : K))) ∧
    perlinLookups x y
      = [(latticeCorners x y).1, ((latticeCorners x y).1.1, (latticeCorners x y).2.2),
         ((latticeCorners x y).2.1, (latticeCorners x y).1.2), (latticeCorners x y).2] :=
  ⟨rfl, rfl⟩

/-- The closed form of the loop of `perlinNoiseOctaves`: each iteration adds the noise at
the doubled coordinates with the halved weight. -/
theorem octaveLoop_eq {K : Type} [LinearOrderedField K] [FloorRing K] (G : Gradients K) :
    ∀ (todo : Nat) (result scale sum x y : K),
      octaveLoop G todo result scale sum x y
        = (result + ∑ i in Finset.range todo,
              perlinNoise G (x * 2 ^ i) (y * 2 ^ i) * (scale * (1 / 2) ^ i),
           sum + ∑ i in Finset.range todo, scale * (1 / 2) ^ i) := by
  intro todo
  induction todo with
  | zero => intro result scale sum x y; simp [octaveLoop]
  | succ t ih =>
    intro result scale sum x y
    unfold octaveLoop
    rw [ih, Finset.sum_range_succ', Finset.sum_range_succ']
    have e1 : ∀ i : Nat, perlinNoise G (x * 2 * 2 ^ i) (y * 2 * 2 ^ i)
          * (scale * (1 / 2) * (1 / 2) ^ i)
        = perlinNoise G (x * 2 ^ (i + 1)) (y * 2 ^ (i + 1)) * (scale * (1 / 2) ^ (i + 1)) := by
      intro i
      have hx : x * 2 * 2 ^ i = x * 2 ^ (i + 1) := by ring
      have hy : y * 2 * 2 ^ i = y * 2 ^ (i + 1) := by ring
      have hs : scale * (1 / 2) * (1 / 2) ^ i = scale * (1 / 2) ^ (i + 1) := by ring
      rw [hx, hy, hs]
    have e2 : ∀ i : Nat, scale * (1 / 2) * (1 / 2) ^ i = scale * (1 / 2) ^ (i + 1) := by
      intro i; ring
    rw [Finset.sum_congr rfl (fun i _ => e1 i), Finset.sum_congr rfl (fun i _ => e2 i)]
    simp only [pow_zero, mul_one]
    refine Prod.ext ?_ ?_
    · simp only; ring
    · simp only; ring

theorem perlinNoiseOctaves_eq {K : Type} [LinearOrderedField K] [FloorRing K]
    (G : Gradients K) (x y : K) (n : Nat) :
    perlinNoiseOctaves G x y n
      = (∑ i in Finset.range n, perlinNoise G (x * 2 ^ i) (y * 2 ^ i) * (1 / 2) ^ i)
        / (∑ i in Finset.range n, (1 / 2 : K) ^ i) := by
  unfold perlinNoiseOctaves
  rw [octaveLoop_eq]
  simp only [zero_add, one_mul]

theorem abs_le_one_of_unit {K : Type} [LinearOrderedField K] (a b : K)
    (h : a ^ 2 + b ^ 2 = 1) : |a| ≤ 1 ∧ |b| ≤ 1 := by
  have ha : 0 ≤ a ^ 2 := sq_nonneg a
  have hb : 0 ≤ b ^ 2 := sq_nonneg b
  constructor
  · rw [abs_le]; constructor <;> nlinarith
  · rw [abs_le]; constructor <;> nlinarith

/-- A dot product with a unit gradient is at most the sum of the two offsets. -/
theorem dot_abs_le {K : Type} [LinearOrderedField K] (p q a b : K)
    (h : a ^ 2 + b ^ 2 = 1) : |p * a + q * b| ≤ |p| + |q| := by
  obtain ⟨ha, hb⟩ := abs_le_one_of_unit a b h
  calc |p * a + q * b| ≤ |p * a| + |q * b| := abs_add _ _
    _ = |p| * |a| + |q| * |b| := by rw [abs_mul, abs_mul]
    _ ≤ |p| * 1 + |q| * 1 :=
        add_le_add (mul_le_mul_of_nonneg_left ha (abs_nonneg p))
          (mul_le_mul_of_nonneg_left hb (abs_nonneg q))
    _ = |p| + |q| := by rw [mul_one, mul_one]

theorem smoothCurve_mem_unit {K : Type} [LinearOrderedField K] (u : K) (h0 : 0 ≤ u)
    (h1 : u ≤ 1) : 0 ≤ smoothCurve u ∧ smoothCurve u ≤ 1 := by
  unfold smoothCurve
  constructor
  · have : 0 ≤ 3 - 2 * u := by linarith
    exact mul_nonneg (mul_nonneg h0 h0) this
  · have e : 1 - u * u * (3 - 2 * u) = (1 - u) * (1 - u) * (1 + 2 * u) := by ring
    have h2 : 0 ≤ 1 - u := by linarith
    have : 0 ≤ (1 - u) * (1 - u) * (1 + 2 * u) :=
      mul_nonneg (mul_nonneg h2 h2) (by linarith)
    linarith

/-- The faded mix of the offsets to the two corners of one axis is at most a half. -/
theorem fade_mix_le_half {K : Type} [LinearOrderedField K] (u : K) (h0 : 0 ≤ u)
    (h1 : u ≤ 1) : (1 - smoothCurve u) * u + smoothCurve u * (1 - u) ≤ 1 / 2 := by
  unfold smoothCurve
  have e : 1 / 2 - ((1 - u * u * (3 - 2 * u)) * u + u * u * (3 - 2 * u) * (1 - u))
      = 1 / 2 * ((2 * u - 1) * (2 * u - 1)) * (1 + 2 * (u * (1 - u))) := by ring
  have h2 : 0 ≤ 1 - u := by linarith
  have : 0 ≤ 1 / 2 * ((2 * u - 1) * (2 * u - 1)) * (1 + 2 * (u * (1 - u))) := by
    apply mul_nonneg
    · exact mul_nonneg (by norm_num) (mul_self_nonneg _)
    · have := mul_nonneg h0 h2
      linarith
  linarith

/-- The interpolation of four corner influences of unit gradients stays in `[-1, 1]`. -/
theorem bilinear_abs_le_one {K : Type} [LinearOrderedField K]
    (u v a0 b0 a1 b1 a2 b2 a3 b3 : K) (hu0 : 0 ≤ u) (hu1 : u ≤ 1) (hv0 : 0 ≤ v)
    (hv1 : v ≤ 1) (h0 : a0 ^ 2 + b0 ^ 2 = 1) (h1 : a1 ^ 2 + b1 ^ 2 = 1)
    (h2 : a2 ^ 2 + b2 ^ 2 = 1) (h3 : a3 ^ 2 + b3 ^ 2 = 1) :
    |lerp (lerp (u * a0 + v * b0) ((u - 1) * a2 + v * b2) (smoothCurve u))
        (lerp (u * a1 + (v - 1) * b1) ((u - 1) * a3 + (v - 1) * b3) (smoothCurve u))
        (smoothCurve v)| ≤ 1 := by
  obtain ⟨hs0, hs1⟩ := smoothCurve_mem_unit u hu0 hu1
  obtain ⟨ht0, ht1⟩ := smoothCurve_mem_unit v hv0 hv1
  have fu := fade_mix_le_half u hu0 hu1
  have fv := fade_mix_le_half v hv0 hv1
  generalize smoothCurve u = s at hs0 hs1 fu
  generalize smoothCurve v = t at ht0 ht1 fv
  have au : |u| = u := abs_of_nonneg hu0
  have av : |v| = v := abs_of_nonneg hv0
  have au1 : |u - 1| = 1 - u := by rw [abs_of_nonpos (by linarith)]; ring
  have av1 : |v - 1| = 1 - v := by rw [abs_of_nonpos (by linarith)]; ring
  have d0 := dot_abs_le u v a0 b0 h0
  have d1 := dot_abs_le u (v - 1) a1 b1 h1
  have d2 := dot_abs_le (u - 1) v a2 b2 h2
  have d3 := dot_abs_le (u - 1) (v - 1) a3 b3 h3
  rw [au, av] at d0
  rw [au, av1] at d1
  rw [au1, av] at d2
  rw [au1, av1] at d3
  rw [abs_le] at d0 d1 d2 d3
  have w00 : 0 ≤ (1 - t) * (1 - s) := mul_nonneg (by linarith) (by linarith)
  have w10 : 0 ≤ (1 - t) * s := mul_nonneg (by linarith) hs0
  have w01 : 0 ≤ t * (1 - s) := mul_nonneg ht0 (by linarith)
  have w11 : 0 ≤ t * s := mul_nonneg ht0 hs0
  have e : lerp (lerp (u * a0 + v * b0) ((u - 1) * a2 + v * b2) s)
        (lerp (u * a1 + (v - 1) * b1) ((u - 1) * a3 + (v - 1) * b3) s) t
      = (1 - t) * (1 - s) * (u * a0 + v * b0) + (1 - t) * s * ((u - 1) * a2 + v * b2)
        + t * (1 - s) * (u * a1 + (v - 1) * b1) + t * s * ((u - 1) * a3 + (v - 1) * b3) := by
    unfold lerp; ring
  rw [e, abs_le]
  have p0u := mul_le_mul_of_nonneg_left d0.2 w00
  have p0l := mul_le_mul_of_nonneg_left d0.1 w00
  have p1u := mul_le_mul_of_nonneg_left d1.2 w01
  have p1l := mul_le_mul_of_nonneg_left d1.1 w01
  have p2u := mul_le_mul_of_nonneg_left d2.2 w10
  have p2l := mul_le_mul_of_nonneg_left d2.1 w10
  have p3u := mul_le_mul_of_nonneg_left d3.2 w11
  have p3l := mul_le_mul_of_nonneg_left d3.1 w11
  have tot : (1 - t) * (1 - s) * (u + v) + (1 - t) * s * (1 - u + v)
      + t * (1 - s) * (u + (1 - v)) + t * s * (1 - u + (1 - v))
      = ((1 - s) * u + s * (1 - u)) + ((1 - t) * v + t * (1 - v)) := by ring
  constructor
  · linarith
  · linarith

/-- The single-octave bound: at non-negative coordinates in the 32-bit range whose four
surrounding lattice points carry unit gradients, the noise is in `[-1, 1]`. -/
theorem perlinNoise_abs_le_one {K : Type} [LinearOrderedField K] [FloorRing K]
    (G : Gradients K) (x y : K) (hx0 : 0 ≤ x) (hx1 : x < 2 ^ 31) (hy0 : 0 ≤ y)
    (hy1 : y < 2 ^ 31)
    (hunit : ∀ ix iy : Int, (ix = ⌊x⌋ ∨ ix = ⌊x⌋ + 1) → (iy = ⌊y⌋ ∨ iy = ⌊y⌋ + 1) →
      G.xGradient (ix + iy * G.width) ^ 2 + G.yGradient (ix + iy * G.width) ^ 2 = 1) :
    |perlinNoise G x y| ≤ 1 := by
  unfold perlinNoise
  rw [toInt_eq_floor x hx0 hx1, toInt_eq_floor y hy0 hy1]
  simp only [dotGridGradient]
  have ex : x - ((⌊x⌋ + 1 : Int) : K) = (x - (⌊x⌋ : K)) - 1 := by push_cast; ring
  have ey : y - ((⌊y⌋ + 1 : Int) : K) = (y - (⌊y⌋ : K)) - 1 := by push_cast; ring
  rw [ex, ey]
  have hu0 : 0 ≤ x - (⌊x⌋ : K) := sub_nonneg.mpr (Int.floor_le x)
  have hu1 : x - (⌊x⌋ : K) ≤ 1 := by
    have := Int.lt_floor_add_one x
    linarith
  have hv0 : 0 ≤ y - (⌊y⌋ : K) := sub_nonneg.mpr (Int.floor_le y)
  have hv1 : y - (⌊y⌋ : K) ≤ 1 := by
    have := Int.lt_floor_add_one y
    linarith
  exact bilinear_abs_le_one _ _ _ _ _ _ _ _ _ _ hu0 hu1 hv0 hv1
    (hunit _ _ (Or.inl rfl) (Or.inl rfl)) (hunit _ _ (Or.inl rfl) (Or.inr rfl))
    (hunit _ _ (Or.inr rfl) (Or.inl rfl)) (hunit _ _ (Or.inr rfl) (Or.inr rfl))

/-- The multi-octave bound: when every octave is in `[-1, 1]`, so is the normalized sum. -/
theorem perlinNoiseOctaves_abs_le_one {K : Type} [LinearOrderedField K] [FloorRing K]
    (G : Gradients K) (x y : K) (n : Nat) (hn : 1 ≤ n)
    (hoct : ∀ i, i < n → |perlinNoise G (x * 2 ^ i) (y * 2 ^ i)| ≤ 1) :
    |perlinNoiseOctaves G x y n| ≤ 1 := by
  rw [perlinNoiseOctaves_eq]
  have hpow : ∀ i : Nat, (0 : K) < (1 / 2 : K) ^ i := fun i => pow_pos (by norm_num) i
  have hsum : (0 : K) < ∑ i in Finset.range n, (1 / 2 : K) ^ i := by
    apply Finset.sum_pos
    · intro i _; exact hpow i
    · exact ⟨0, Finset.mem_range.mpr (by omega)⟩
  rw [abs_div, abs_of_pos hsum, div_le_one hsum]
  calc |∑ i in Finset.range n, perlinNoise G (x * 2 ^ i) (y * 2 ^ i) * (1 / 2) ^ i|
      ≤ ∑ i in Finset.range n, |perlinNoise G (x * 2 ^ i) (y * 2 ^ i) * (1 / 2) ^ i| :=
        Finset.abs_sum_le_sum_abs _ _
    _ ≤ ∑ i in Finset.range n, (1 / 2 : K) ^ i := by
        apply Finset.sum_le_sum
        intro i hi
        rw [abs_mul, abs_of_pos (hpow i)]
        calc |perlinNoise G (x * 2 ^ i) (y * 2 ^ i)| * (1 / 2) ^ i
            ≤ 1 * (1 / 2) ^ i :=
              mul_le_mul_of_nonneg_right (hoct i (Finset.mem_range.mp hi)) (le_of_lt (hpow i))
          _ = (1 / 2) ^ i := one_mul _

/-- What a row of `initializeHeightMap` leaves at an index: the value of the cell of the
row that has this index, when there is one among the cells `x0, ..., x0 + todo - 1`. -/
theorem initRow_get {K : Type} [LinearOrderedField K] [FloorRing K] (G : Gradients K)
    (y : Int) :
    ∀ (todo : Nat) (x0 : Int) (heightMap : Int → K) (i : Int),
      initRow G y todo x0 heightMap i
        = if x0 ≤ i - y * G.width ∧ i - y * G.width < x0 + todo then
            cellValue G (i - y * G.width) y
          else heightMap i := by
  intro todo
  induction todo with
  | zero =>
    intro x0 heightMap i
    have : ¬ (x0 ≤ i - y * G.width ∧ i - y * G.width < x0 + ((0 : Nat) : Int)) := by
      push_cast; omega
    simp only [initRow, this, if_false]
  | succ t ih =>
    intro x0 heightMap i
    unfold initRow
    rw [ih]
    by_cases hi : i = x0 + y * G.width
    · subst hi
      have h1 : ¬ (x0 + 1 ≤ x0 + y * G.width - y * G.width ∧
          x0 + y * G.width - y * G.width < x0 + 1 + (t : Int)) := by omega
      have h2 : x0 ≤ x0 + y * G.width - y * G.width ∧
          x0 + y * G.width - y * G.width < x0 + ((t + 1 : Nat) : Int) := by
        push_cast; omega
      have h3 : x0 + y * G.width - y * G.width = x0 := by omega
      rw [if_neg h1, if_pos h2, h3, Function.update_same]
    · by_cases hc : x0 + 1 ≤ i - y * G.width ∧ i - y * G.width < x0 + 1 + (t : Int)
      · have h2 : x0 ≤ i - y * G.width ∧ i - y * G.width < x0 + ((t + 1 : Nat) : Int) := by
          push_cast; omega
        rw [if_pos hc, if_pos h2]
      · have h2 : ¬ (x0 ≤ i - y * G.width ∧ i - y * G.width < x0 + ((t + 1 : Nat) : Int)) := by
          push_cast; omega
        rw [if_neg hc, if_neg h2, Function.update_noteq hi]

theorem initRows_get {K : Type} [LinearOrderedField K] [FloorRing K] (G : Gradients K) :
    ∀ (todo : Nat) (y0 : Int) (heightMap : Int → K) (x y : Int), 0 ≤ x → x < G.width →
      initRows G todo y0 heightMap (x + y * G.width)
        = if y0 ≤ y ∧ y < y0 + todo then cellValue G x y
          else heightMap (x + y * G.width) := by
  intro todo
  induction todo with
  | zero =>
    intro y0 heightMap x y _ _
    have : ¬ (y0 ≤ y ∧ y < y0 + ((0 : Nat) : Int)) := by push_cast; omega
    simp only [initRows, this, if_false]
  | succ t ih =>
    intro y0 heightMap x y hx0 hx1
    unfold initRows
    rw [ih _ _ x y hx0 hx1, initRow_get]
    have hw : ((G.width.toNat : Nat) : Int) = G.width := Int.toNat_of_nonneg (by omega)
    by_cases hy : y = y0
    · subst hy
      have h1 : ¬ (y + 1 ≤ y ∧ y < y + 1 + (t : Int)) := by omega
      have h2 : y ≤ y ∧ y < y + ((t + 1 : Nat) : Int) := by push_cast; omega
      have h3 : x + y * G.width - y * G.width = x := by ring
      have h4 : (0 : Int) ≤ x + y * G.width - y * G.width ∧
          x + y * G.width - y * G.width < 0 + ((G.width.toNat : Nat) : Int) := by
        rw [hw, h3]; omega
      rw [if_neg h1, if_pos h2, if_pos h4, h3]
    · have hrow : ¬ ((0 : Int) ≤ x + y * G.width - y0 * G.width ∧
          x + y * G.width - y0 * G.width < 0 + ((G.width.toNat : Nat) : Int)) := by
        rw [hw]
        rintro ⟨a1, a2⟩
        have e : x + y * G.width - y0 * G.width = x + (y - y0) * G.width := by ring
        rw [e] at a1 a2
        rcases lt_or_gt_of_ne hy with h | h
        · have : (y - y0) * G.width ≤ -1 * G.width :=
            mul_le_mul_of_nonneg_right (by omega) (by omega)
          omega
        · have : 1 * G.width ≤ (y - y0) * G.width :=
            mul_le_mul_of_nonneg_right (by omega) (by omega)
          omega
      by_cases hc : y0 + 1 ≤ y ∧ y < y0 + 1 + (t : Int)
      · have h2 : y0 ≤ y ∧ y < y0 + ((t + 1 : Nat) : Int) := by push_cast; omega
        rw [if_pos hc, if_pos h2]
      · have h2 : ¬ (y0 ≤ y ∧ y < y0 + ((t + 1 : Nat) : Int)) := by push_cast; omega
        rw [if_neg hc, if_neg h2, if_neg hrow]

/-- After `initializeHeightMap` every cell of the grid holds the value of the loop body
for this cell. -/
theorem initializeHeightMap_get {K : Type} [LinearOrderedField K] [FloorRing K]
    (G : Gradients K) (height : Int) (heightMap : Int → K) (x y : Int) (hx0 : 0 ≤ x)
    (hx1 : x < G.width) (hy0 : 0 ≤ y) (hy1 : y < height) :
    initializeHeightMap G height heightMap (x + y * G.width) = cellValue G x y := by
  unfold initializeHeightMap
  rw [initRows_get G _ _ _ x y hx0 hx1]
  have hh : ((height.toNat : Nat) : Int) = height := Int.toNat_of_nonneg (by omega)
  have : (0 : Int) ≤ y ∧ y < 0 + ((height.toNat : Nat) : Int) := by rw [hh]; omega
  rw [if_pos this]

/-- The sampled coordinate of a cell index `x` of a grid axis of length `w`, at either
octave, is non-negative, below `2^31`, and has the lattice point after its floor inside
the axis, as long as `2 ≤ w ≤ 50·2^31`. -/
theorem cell_coordinate_ok (w x : Int) (hw2 : 2 ≤ w) (hw : w ≤ 107374182400) (hx0 : 0 ≤ x)
    (hx1 : x < w) (i : Nat) (hi : i < 2) :
    0 ≤ (x : ℝ) * (1 / 100) * 2 ^ i ∧ (x : ℝ) * (1 / 100) * 2 ^ i < 2 ^ 31 ∧
      0 ≤ ⌊(x : ℝ) * (1 / 100) * 2 ^ i⌋ ∧ ⌊(x : ℝ) * (1 / 100) * 2 ^ i⌋ + 1 < w := by
  have hxr : (0 : ℝ) ≤ x := by exact_mod_cast hx0
  have hxw : (x : ℝ) ≤ (w : ℝ) - 1 := by
    have : x ≤ w - 1 := by omega
    exact_mod_cast this
  have hwr : (w : ℝ) ≤ 107374182400 := by exact_mod_cast hw
  have hw2r : (2 : ℝ) ≤ w := by exact_mod_cast hw2
  have hp : (2 : ℝ) ^ i ≤ 2 := by
    interval_cases i <;> norm_num
  have hp0 : (0 : ℝ) < 2 ^ i := by positivity
  have h0 : 0 ≤ (x : ℝ) * (1 / 100) * 2 ^ i := by positivity
  have hle : (x : ℝ) * (1 / 100) * 2 ^ i ≤ (x : ℝ) * (1 / 100) * 2 :=
    mul_le_mul_of_nonneg_left hp (by positivity)
  have hlt : (x : ℝ) * (1 / 100) * 2 ^ i < ((w - 1 : Int) : ℝ) := by
    push_cast
    linarith
  refine ⟨h0, by linarith, Int.floor_nonneg.mpr h0, ?_⟩
  have := Int.floor_lt.mpr hlt
  omega

/-- The octaves of the value of a cell, at the coordinates the loop of
`perlinNoiseOctaves` reaches. -/
theorem cell_octave_abs_le_one (G : Gradients ℝ) (height x y : Int) (hw2 : 2 ≤ G.width)
    (hw : G.width ≤ 107374182400) (hh2 : 2 ≤ height) (hh : height ≤ 107374182400)
    (hunit : ∀ ix iy : Int, 0 ≤ ix → ix < G.width → 0 ≤ iy → iy < height →
      G.xGradient (ix + iy * G.width) ^ 2 + G.yGradient (ix + iy * G.width) ^ 2 = 1)
    (hx0 : 0 ≤ x) (hx1 : x < G.width) (hy0 : 0 ≤ y) (hy1 : y < height) (i : Nat)
    (hi : i < 2) :
    |perlinNoise G ((x : ℝ) * (1 / 100) * 2 ^ i) ((y : ℝ) * (1 / 100) * 2 ^ i)| ≤ 1 := by
  obtain ⟨a1, a2, a3, a4⟩ := cell_coordinate_ok G.width x hw2 hw hx0 hx1 i hi
  obtain ⟨b1, b2, b3, b4⟩ := cell_coordinate_ok height y hh2 hh hy0 hy1 i hi
  refine perlinNoise_abs_le_one G _ _ a1 a2 b1 b2 ?_
  intro ix iy hix hiy
  apply hunit <;> omega

theorem cellValue_mem_unit (G : Gradients ℝ) (height x y : Int) (hw2 : 2 ≤ G.width)
    (hw : G.width ≤ 107374182400) (hh2 : 2 ≤ height) (hh : height ≤ 107374182400)
    (hunit : ∀ ix iy : Int, 0 ≤ ix → ix < G.width → 0 ≤ iy → iy < height →
      G.xGradient (ix + iy * G.width) ^ 2 + G.yGradient (ix + iy * G.width) ^ 2 = 1)
    (hx0 : 0 ≤ x) (hx1 : x < G.width) (hy0 : 0 ≤ y) (hy1 : y < height) :
    0 ≤ cellValue G x y ∧ cellValue G x y ≤ 1 := by
  have hN := perlinNoiseOctaves_abs_le_one G ((x : ℝ) * (1 / 100)) ((y : ℝ) * (1 / 100)) 2
    (by decide)
    (fun i hi => cell_octave_abs_le_one G height x y hw2 hw hh2 hh hunit hx0 hx1 hy0 hy1 i hi)
  rw [abs_le] at hN
  unfold cellValue
  simp only
  split_ifs
  · exact ⟨by norm_num, le_rfl⟩
  · exact ⟨le_rfl, by norm_num⟩
  · constructor <;> linarith

/-- The lattice points `perlinNoise` looks up lie around the floors of the coordinates
(for non-negative coordinates below `2^31`). -/
theorem perlinLookups_mem (x y : ℝ) (hx0 : 0 ≤ x) (hx1 : x < 2 ^ 31) (hy0 : 0 ≤ y)
    (hy1 : y < 2 ^ 31) (p : Int × Int) (hp : p ∈ perlinLookups x y) :
    (p.1 = ⌊x⌋ ∨ p.1 = ⌊x⌋ + 1) ∧ (p.2 = ⌊y⌋ ∨ p.2 = ⌊y⌋ + 1) := by
  unfold perlinLookups at hp
  rw [toInt_eq_floor x hx0 hx1, toInt_eq_floor y hy0 hy1] at hp
  simp only [List.mem_cons, List.mem_singleton, List.not_mem_nil, or_false] at hp
  rcases hp with rfl | rfl | rfl | rfl <;> simp

/-- The noise reads the gradient arrays only at the lattice points of `perlinLookups`:
two fields of the same width that agree there give the same noise. -/
theorem perlinNoise_congr {K : Type} [LinearOrderedField K] [FloorRing K]
    (G G' : Gradients K) (hw : G.width = G'.width) (x y : K)
    (h : ∀ p ∈ perlinLookups x y,
      G.xGradient (p.1 + p.2 * G.width) = G'.xGradient (p.1 + p.2 * G.width) ∧
      G.yGradient (p.1 + p.2 * G.width) = G'.yGradient (p.1 + p.2 * G.width)) :
    perlinNoise G x y = perlinNoise G' x y := by
  have h00 := h (toInt x, toInt y) (by simp [perlinLookups])
  have h01 := h (toInt x, toInt y + 1) (by simp [perlinLookups])
  have h10 := h (toInt x + 1, toInt y) (by simp [perlinLookups])
  have h11 := h (toInt x + 1, toInt y + 1) (by simp [perlinLookups])
  simp only at h00 h01 h10 h11
  unfold perlinNoise dotGridGradient
  simp only [← hw, h00.1, h00.2, h01.1, h01.2, h10.1, h10.2, h11.1, h11.2]

theorem octaveLoop_congr {K : Type} [LinearOrderedField K] [FloorRing K]
    (G G' : Gradients K) (hw : G.width = G'.width) :
    ∀ (todo : Nat) (result scale sum x y : K),
      (∀ p ∈ octaveLookups todo x y,
        G.xGradient (p.1 + p.2 * G.width) = G'.xGradient (p.1 + p.2 * G.width) ∧
        G.yGradient (p.1 + p.2 * G.width) = G'.yGradient (p.1 + p.2 * G.width)) →
      octaveLoop G todo result scale sum x y = octaveLoop G' todo result scale sum x y := by
  intro todo
  induction todo with
  | zero => intro result scale sum x y _; rfl
  | succ t ih =>
    intro result scale sum x y h
    unfold octaveLoop
    rw [perlinNoise_congr G G' hw x y (fun p hp => h p (by
      unfold octaveLookups; exact List.mem_append.mpr (Or.inl hp)))]
    exact ih _ _ _ _ _ (fun p hp => h p (by
      unfold octaveLookups; exact List.mem_append.mpr (Or.inr hp)))

/-- The value of a cell reads the gradient arrays only at the lattice points of
`cellLookups`. -/
theorem cellValue_congr {K : Type} [LinearOrderedField K] [FloorRing K]
    (G G' : Gradients K) (hw : G.width = G'.width) (x y : Int)
    (h : ∀ p ∈ cellLookups (K := K) x y,
      G.xGradient (p.1 + p.2 * G.width) = G'.xGradient (p.1 + p.2 * G.width) ∧
      G.yGradient (p.1 + p.2 * G.width) = G'.yGradient (p.1 + p.2 * G.width)) :
    cellValue G x y = cellValue G' x y := by
  have e := octaveLoop_congr G G' hw 2 0 1 0 ((x : K) * (1 / 100)) ((y : K) * (1 / 100)) h
  unfold cellValue perlinNoiseOctaves
  simp only [e]

/-- One axis of the ray end: when the direction has a component of at least a half on
this axis and `3 * m ≤ 2^32`, the end coordinate is outside `[0, len)` for every start
inside, also after the 32-bit wrap of `toInt`. -/
theorem axis_end_outside (c : ℝ) (hc1 : -1 ≤ c) (hc2 : c ≤ 1)
    (hbig : 1 / 2 ≤ c ∨ c ≤ -(1 / 2)) (m len s : Int) (hlen : 1 ≤ len) (hm : len ≤ m)
    (h3 : 3 * m ≤ 2 ^ 32) (hs0 : 0 ≤ s) (hs1 : s < len) :
    toInt (c * ((2 * m : Int) : ℝ) + (s : ℝ)) < 0 ∨
      toInt (c * ((2 * m : Int) : ℝ) + (s : ℝ)) ≥ len := by
  have hmr : (0 : ℝ) ≤ (m : ℝ) := by exact_mod_cast (by omega : (0 : Int) ≤ m)
  have hsr : (0 : ℝ) ≤ (s : ℝ) := by exact_mod_cast hs0
  have hd : ((2 * m : Int) : ℝ) = 2 * (m : ℝ) := by push_cast; ring
  rw [hd]
  rcases hbig with h | h
  · have hv1 : (m : ℝ) + (s : ℝ) ≤ c * (2 * (m : ℝ)) + (s : ℝ) := by nlinarith
    have hv2 : c * (2 * (m : ℝ)) + (s : ℝ) ≤ 2 * (m : ℝ) + (s : ℝ) := by nlinarith
    have hv0 : (0 : ℝ) ≤ c * (2 * (m : ℝ)) + (s : ℝ) := by linarith
    have f1 : m + s ≤ ⌊c * (2 * (m : ℝ)) + (s : ℝ)⌋ := by
      rw [Int.le_floor]; push_cast; exact hv1
    have f2 : ⌊c * (2 * (m : ℝ)) + (s : ℝ)⌋ ≤ 2 * m + s := by
      have := Int.floor_le (c * (2 * (m : ℝ)) + (s : ℝ))
      have h' : ((⌊c * (2 * (m : ℝ)) + (s : ℝ)⌋ : Int) : ℝ) ≤ ((2 * m + s : Int) : ℝ) := by
        push_cast; linarith
      exact_mod_cast h'
    rw [toInt_of_nonneg _ hv0]
    omega
  · have hv1 : c * (2 * (m : ℝ)) + (s : ℝ) ≤ -(m : ℝ) + (s : ℝ) := by nlinarith
    have hv2 : -(2 * (m : ℝ)) + (s : ℝ) ≤ c * (2 * (m : ℝ)) + (s : ℝ) := by nlinarith
    have hsl : (s : ℝ) ≤ (m : ℝ) - 1 := by
      have : s ≤ m - 1 := by omega
      exact_mod_cast this
    have hv0 : c * (2 * (m : ℝ)) + (s : ℝ) < 0 := by linarith
    have f1 : ⌈c * (2 * (m : ℝ)) + (s : ℝ)⌉ ≤ -m + s := by
      rw [Int.ceil_le]; push_cast; exact hv1
    have f2 : -(2 * m) + s ≤ ⌈c * (2 * (m : ℝ)) + (s : ℝ)⌉ := by
      have := Int.le_ceil (c * (2 * (m : ℝ)) + (s : ℝ))
      have h' : ((-(2 * m) + s : Int) : ℝ) ≤ ((⌈c * (2 * (m : ℝ)) + (s : ℝ)⌉ : Int) : ℝ) := by
        push_cast; linarith
      exact_mod_cast h'
    rw [toInt_of_neg _ hv0]
    omega

/-- A unit direction has a component of at least a half on one of the two axes. -/
theorem cos_or_sin_big (angle : ℝ) :
    (1 / 2 ≤ Real.cos angle ∨ Real.cos angle ≤ -(1 / 2)) ∨
      (1 / 2 ≤ Real.sin angle ∨ Real.sin angle ≤ -(1 / 2)) := by
  have h := Real.cos_sq_add_sin_sq angle
  by_contra hcon
  push_neg at hcon
  obtain ⟨⟨c1, c2⟩, s1, s2⟩ := hcon
  nlinarith

/-- The ray end of every angle is outside the height map, as long as
`3 * max width height ≤ 2^32` and the viewpoint is inside. -/
theorem rayEnd_outOfBounds (sc : Scene ℝ) (angle : ℝ) (hw : 1 ≤ sc.width)
    (hh : 1 ≤ sc.height) (h3 : 3 * max sc.width sc.height ≤ 2 ^ 32)
    (hx0 : 0 ≤ sc.xStart) (hx1 : sc.xStart < sc.width) (hy0 : 0 ≤ sc.yStart)
    (hy1 : sc.yStart < sc.height) :
    outOfBounds sc (rayEnd realMath sc angle).1 (rayEnd realMath sc angle).2 = true := by
  unfold outOfBounds rayEnd realMath
  simp only [decide_eq_true_eq]
  rcases cos_or_sin_big angle with h | h
  · have := axis_end_outside (Real.cos angle) (Real.neg_one_le_cos angle)
      (Real.cos_le_one angle) h (max sc.width sc.height) sc.width sc.xStart hw
      (le_max_left _ _) h3 hx0 hx1
    rcases this with a | a
    · exact Or.inl a
    · exact Or.inr (Or.inl a)
  · have := axis_end_outside (Real.sin angle) (Real.neg_one_le_sin angle)
      (Real.sin_le_one angle) h (max sc.width sc.height) sc.height sc.yStart hh
      (le_max_right _ _) h3 hy0 hy1
    rcases this with a | a
    · exact Or.inr (Or.inr (Or.inl a))
    · exact Or.inr (Or.inr (Or.inr a))

/-- Along the path of the loop every cell is some steps before the endpoint, and the
cross product of its remaining steps with the two axis lengths stays within half of any
`M` that bounds both lengths: the error term never drifts more than half a cell. -/
theorem linePath_near_line (x1 y1 sx sy : Int) (a b : Nat) (M : Int) (hMa : (a : Int) ≤ M)
    (hMb : (b : Int) ≤ M) :
    ∀ (fuel m n : Nat), m ≤ a → n ≤ b →
      -M ≤ 2 * ((a : Int) * n - b * m) → 2 * ((a : Int) * n - b * m) ≤ M →
      ∀ p, linePath x1 y1 a (-b) sx sy fuel (x1 - sx * m) (y1 - sy * n)
          (a - b + b * m - a * n) = some p →
        ∀ c ∈ p, ∃ m' n' : Nat, m' ≤ a ∧ n' ≤ b ∧ c = cellBefore x1 y1 sx sy (m', n') ∧
          -M ≤ 2 * ((a : Int) * n' - b * m') ∧ 2 * ((a : Int) * n' - b * m') ≤ M := by
  intro fuel
  induction fuel with
  | zero => intro m n _ _ _ _ p hp; simp [linePath] at hp
  | succ k ih =>
    intro m n hm hn hlo hhi p hp c hc
    unfold linePath at hp
    by_cases hend : x1 - sx * (m : Int) = x1 ∧ y1 - sy * (n : Int) = y1
    · rw [if_pos hend] at hp
      simp only [Option.some.injEq] at hp
      subst hp
      simp only [List.mem_singleton] at hc
      exact ⟨m, n, hm, hn, by rw [hc]; rfl, hlo, hhi⟩
    · rw [if_neg hend] at hp
      simp only [Option.map_eq_some'] at hp
      obtain ⟨q, hq, rfl⟩ := hp
      rcases List.mem_cons.mp hc with rfl | hcq
      · exact ⟨m, n, hm, hn, rfl, hlo, hhi⟩
      · have hmn : ¬ (m = 0 ∧ n = 0) := by
          rintro ⟨rfl, rfl⟩
          apply hend
          simp
        -- the continuation, once the next position is known
        have next : ∀ (m' n' : Nat) (x' y' e' : Int), m' ≤ a → n' ≤ b →
            -M ≤ 2 * ((a : Int) * n' - b * m') → 2 * ((a : Int) * n' - b * m') ≤ M →
            x' = x1 - sx * m' → y' = y1 - sy * n' → e' = a - b + b * m' - a * n' →
            linePath x1 y1 a (-b) sx sy k x' y' e' = some q →
            ∃ m'' n'' : Nat, m'' ≤ a ∧ n'' ≤ b ∧ c = cellBefore x1 y1 sx sy (m'', n'') ∧
              -M ≤ 2 * ((a : Int) * n'' - b * m'') ∧ 2 * ((a : Int) * n'' - b * m'') ≤ M := by
          intro m' n' x' y' e' h1 h2 h3 h4 hx hy he hq'
          rw [hx, hy, he] at hq'
          exact ih m' n' h1 h2 h3 h4 q hq' c hcq
        have hbm : (0 : Int) ≤ (b : Int) * m := by positivity
        have han : (0 : Int) ≤ (a : Int) * n := by positivity
        have hbm' : 1 ≤ m → (b : Int) ≤ (b : Int) * m := by
          intro h; have : (1 : Int) ≤ m := by exact_mod_cast h
          nlinarith [Int.natCast_nonneg b]
        have han' : 1 ≤ n → (a : Int) ≤ (a : Int) * n := by
          intro h; have : (1 : Int) ≤ n := by exact_mod_cast h
          nlinarith [Int.natCast_nonneg a]
        have hm0 : m = 0 → (b : Int) * m = 0 := by rintro rfl; simp
        have hn0 : n = 0 → (a : Int) * n = 0 := by rintro rfl; simp
        have em : 1 ≤ m → (b : Int) * ((m - 1 : Nat) : Int) = b * m - b := by
          intro h; rw [Nat.cast_sub h]; push_cast; ring
        have en : 1 ≤ n → (a : Int) * ((n - 1 : Nat) : Int) = a * n - a := by
          intro h; rw [Nat.cast_sub h]; push_cast; ring
        by_cases hx : (↑a - ↑b + ↑b * ↑m - ↑a * ↑n) * 2 > -(b : Int)
        · have hm1 : 1 ≤ m := by
            by_contra hcon
            have hm00 : m = 0 := by omega
            have := hm0 hm00
            have := han' (by omega)
            omega
          have em' := em hm1
          by_cases hy : (↑a - ↑b + ↑b * ↑m - ↑a * ↑n) * 2 < (a : Int)
          · have hn1 : 1 ≤ n := by
              by_contra hcon
              have hn00 : n = 0 := by omega
              have := hn0 hn00
              have := hbm' hm1
              omega
            have en' := en hn1
            simp only [hx, hy, if_true] at hq
            refine next (m - 1) (n - 1) _ _ _ (by omega) (by omega) (by omega) (by omega)
              ?_ ?_ ?_ hq
            · rw [Nat.cast_sub hm1]; push_cast; ring
            · rw [Nat.cast_sub hn1]; push_cast; ring
            · rw [Nat.cast_sub hm1, Nat.cast_sub hn1]; push_cast; ring
          · simp only [hx, hy, if_true, if_false] at hq
            refine next (m - 1) n _ _ _ (by omega) (by omega) (by omega) (by omega)
              ?_ rfl ?_ hq
            · rw [Nat.cast_sub hm1]; push_cast; ring
            · rw [Nat.cast_sub hm1]; push_cast; ring
        · have hy : (↑a - ↑b + ↑b * ↑m - ↑a * ↑n) * 2 < (a : Int) := by
            have hab : 0 < a + b := by omega
            omega
          have hn1 : 1 ≤ n := by
            by_contra hcon
            have hn00 : n = 0 := by omega
            have := hn0 hn00
            have := hbm' (by omega)
            omega
          have en' := en hn1
          simp only [hx, hy, if_true, if_false] at hq
          refine next m (n - 1) _ _ _ (by omega) (by omega) (by omega) (by omega)
            rfl ?_ ?_ hq
          · rw [Nat.cast_sub hn1]; push_cast; ring
          · rw [Nat.cast_sub hn1]; push_cast; ring

/-- Every cell of the complete line is within half a cell of the ideal segment. -/
theorem lineCells_near_line (x0 y0 x1 y1 : Int) :
    ∀ c ∈ lineCells x0 y0 x1 y1,
      2 * |(c.1 - x0) * (y1 - y0) - (c.2 - y0) * (x1 - x0)| ≤ max |x1 - x0| |y1 - y0| := by
  intro c hc
  obtain ⟨L, -, -, -, hpath⟩ := lineCells_spec x0 y0 x1 y1
  have hp := hpath (lineFuel x0 y0 x1 y1) le_rfl
  have ex := stepSign_mul_natAbs x0 x1
  have ey := stepSign_mul_natAbs y0 y1
  have hM1 : ((x1 - x0).natAbs : Int) ≤ max |x1 - x0| |y1 - y0| := by
    rw [Int.natCast_natAbs]; exact le_max_left _ _
  have hM2 : ((y1 - y0).natAbs : Int) ≤ max |x1 - x0| |y1 - y0| := by
    rw [Int.natCast_natAbs]; exact le_max_right _ _
  have hM0 : (0 : Int) ≤ max |x1 - x0| |y1 - y0| := le_trans (abs_nonneg _) (le_max_left _ _)
  have hstart : linePath x1 y1 ((x1 - x0).natAbs : Int) (-((y1 - y0).natAbs : Int))
      (stepSign x0 x1) (stepSign y0 y1) (lineFuel x0 y0 x1 y1)
      (x1 - stepSign x0 x1 * ((x1 - x0).natAbs : Int))
      (y1 - stepSign y0 y1 * ((y1 - y0).natAbs : Int))
      (((x1 - x0).natAbs : Int) - ((y1 - y0).natAbs : Int)
        + ((y1 - y0).natAbs : Int) * ((x1 - x0).natAbs : Int)
        - ((x1 - x0).natAbs : Int) * ((y1 - y0).natAbs : Int))
      = some (lineCells x0 y0 x1 y1) := by
    rw [ex, ey]
    have herr : ((x1 - x0).natAbs : Int) - ((y1 - y0).natAbs : Int)
        + ((y1 - y0).natAbs : Int) * ((x1 - x0).natAbs : Int)
        - ((x1 - x0).natAbs : Int) * ((y1 - y0).natAbs : Int)
        = |x1 - x0| + -|y1 - y0| := by
      rw [Int.natCast_natAbs, Int.natCast_natAbs]; ring
    rw [herr, Int.natCast_natAbs, Int.natCast_natAbs]
    exact hp
  have hzero : (((x1 - x0).natAbs : Int)) * ((y1 - y0).natAbs : Int)
      - ((y1 - y0).natAbs : Int) * ((x1 - x0).natAbs : Int) = 0 := by ring
  obtain ⟨m', n', hm', hn', hcell, hlo, hhi⟩ :=
    linePath_near_line x1 y1 (stepSign x0 x1) (stepSign y0 y1) (x1 - x0).natAbs
      (y1 - y0).natAbs (max |x1 - x0| |y1 - y0|) hM1 hM2 (lineFuel x0 y0 x1 y1) (x1 - x0).natAbs (y1 - y0).natAbs
      le_rfl le_rfl (by rw [hzero]; omega) (by rw [hzero]; omega) _ hstart c hc
  -- the cross product of the cell, in steps still to go
  have hcross : (c.1 - x0) * (y1 - y0) - (c.2 - y0) * (x1 - x0)
      = (stepSign x0 x1 * stepSign y0 y1)
        * (((x1 - x0).natAbs : Int) * n' - ((y1 - y0).natAbs : Int) * m') := by
    rw [hcell]
    simp only [cellBefore]
    have hx1 : x1 - x0 = stepSign x0 x1 * ((x1 - x0).natAbs : Int) := by linarith
    have hy1 : y1 - y0 = stepSign y0 y1 * ((y1 - y0).natAbs : Int) := by linarith
    have hcx : x1 - stepSign x0 x1 * (m' : Int) - x0
        = stepSign x0 x1 * (((x1 - x0).natAbs : Int) - m') := by linarith
    have hcy : y1 - stepSign y0 y1 * (n' : Int) - y0
        = stepSign y0 y1 * (((y1 - y0).natAbs : Int) - n') := by linarith
    rw [hcx, hcy]
    generalize ((x1 - x0).natAbs : Int) = A at hx1 ⊢
    generalize ((y1 - y0).natAbs : Int) = B at hy1 ⊢
    rw [hx1, hy1]
    have s1 := stepSign_mul_self x0 x1
    have s2 := stepSign_mul_self y0 y1
    generalize stepSign x0 x1 = p at s1 ⊢
    generalize stepSign y0 y1 = q at s2 ⊢
    have e1 : p * (A - ↑m') * (q * B) - q * (B - ↑n') * (p * A)
        = (p * q) * (A * ↑n' - B * ↑m') := by ring
    rw [e1]
  have habs : |stepSign x0 x1 * stepSign y0 y1| = 1 := by
    unfold stepSign
    split_ifs <;> decide
  rw [hcross, abs_mul, habs, one_mul]
  have : |((x1 - x0).natAbs : Int) * n' - ((y1 - y0).natAbs : Int) * m'| * 2
      ≤ max |x1 - x0| |y1 - y0| := by
    rcases abs_cases (((x1 - x0).natAbs : Int) * n' - ((y1 - y0).natAbs : Int) * m')
      with ⟨h, -⟩ | ⟨h, -⟩
    · rw [h]; omega
    · rw [h]; omega
  omega

/-- The index of a cell inside the height map is inside the array. -/
theorem index_in_range (width height x y : Int) (hx0 : 0 ≤ x) (hx1 : x < width)
    (hy0 : 0 ≤ y) (hy1 : y < height) :
    0 ≤ x + y * width ∧ x + y * width < width * height := by
  have h0 := mul_nonneg hy0 (by omega : (0 : Int) ≤ width)
  have h1 : y * width ≤ (height - 1) * width :=
    mul_le_mul_of_nonneg_right (by omega) (by omega)
  have h2 : (height - 1) * width = width * height - width := by ring
  constructor <;> omega

/-- One call of the callback: from variables with a non-zero `bestDistance` no hazard
occurs, the checked callback agrees with the callback, and `bestDistance` stays
non-zero (for a square root that is non-zero on positive numbers). -/
theorem rayVisitorChecked_eq {K : Type} [LinearOrderedField K] (M : JsMath K)
    (hsqrt : ∀ k : Int, 0 < k → M.sqrt (k : K) ≠ 0) (sc : Scene K) (s : Best K)
    (x y : Int) (hs : s.bestDistance ≠ 0) :
    rayVisitorChecked M sc s x y = some (rayVisitor M sc s x y) ∧
      (rayVisitor M sc s x y).2.bestDistance ≠ 0 := by
  unfold rayVisitorChecked rayVisitor
  by_cases hout : x < 0 ∨ x ≥ sc.width ∨ y < 0 ∨ y ≥ sc.height
  · simp only [hout, if_true]
    exact ⟨trivial, hs⟩
  · by_cases hvp : x - sc.xStart = 0 ∧ y - sc.yStart = 0
    · simp only [hout, hvp, and_self, if_true, if_false]
      exact ⟨trivial, hs⟩
    · have hidx := index_in_range sc.width sc.height x y (by omega) (by omega) (by omega)
        (by omega)
      have hi : ¬ (x + y * sc.width < 0 ∨ x + y * sc.width ≥ sc.width * sc.height) := by
        omega
      have hpos : 0 < (x - sc.xStart) * (x - sc.xStart) + (y - sc.yStart) * (y - sc.yStart) := by
        rcases not_and_or.mp hvp with h | h
        · have := mul_self_pos.mpr h
          have := mul_self_nonneg (y - sc.yStart)
          omega
        · have := mul_self_pos.mpr h
          have := mul_self_nonneg (x - sc.xStart)
          omega
      have hd := hsqrt _ hpos
      have hz : ¬ (M.sqrt (((x - sc.xStart) * (x - sc.xStart)
          + (y - sc.yStart) * (y - sc.yStart) : Int) : K) = 0 ∨ s.bestDistance = 0) := by
        rintro (h | h)
        · exact hd h
        · exact hs h
      simp only [hout, hvp, hi, hz, if_false]
      split_ifs
      · exact ⟨rfl, hd⟩
      · exact ⟨rfl, hs⟩

/-- A whole run of the callback over a list of cells: no hazard occurs. -/
theorem runVisitor_guarded {K : Type} [LinearOrderedField K] (M : JsMath K)
    (hsqrt : ∀ k : Int, 0 < k → M.sqrt (k : K) ≠ 0) (sc : Scene K) :
    ∀ (cells : List (Int × Int)) (s : Best K), s.bestDistance ≠ 0 →
      runVisitor (rayVisitorGuarded M sc) (some s) cells
        = some (runVisitor (rayVisitor M sc) s cells) := by
  intro cells
  induction cells with
  | nil => intro s _; rfl
  | cons c rest ih =>
    intro s hs
    obtain ⟨h1, h2⟩ := rayVisitorChecked_eq M hsqrt sc s c.1 c.2 hs
    have hg : rayVisitorGuarded M sc (some s) c.1 c.2
        = ((rayVisitor M sc s c.1 c.2).1, some (rayVisitor M sc s c.1 c.2).2) := by
      simp only [rayVisitorGuarded, h1]
    unfold runVisitor
    simp only [hg]
    by_cases hstop : (rayVisitor M sc s c.1 c.2).1 = true
    · simp only [hstop, if_true]
    · simp only [hstop, if_false]
      exact ih _ h2

theorem real_sqrt_ne_zero (k : Int) (hk : 0 < k) : realMath.sqrt (k : ℝ) ≠ 0 := by
  have : (0 : ℝ) < (k : ℝ) := by exact_mod_cast hk
  exact ne_of_gt (Real.sqrt_pos.mpr this)

/-- With enough fuel the checked ray returns the sample of the ray: no hazard occurs
on the way. -/
theorem castRayChecked_eq (sc : Scene ℝ) (angle : ℝ) (fuel : Nat)
    (hfuel : rayFuel sc.xStart sc.yStart ≤ fuel) :
    castRayChecked realMath fuel sc angle = some (some (raySample realMath sc angle)) ∧
      castRay realMath fuel sc angle = some (raySample realMath sc angle) := by
  have hf := le_trans (lineFuel_le_rayFuel realMath sc angle) hfuel
  refine ⟨?_, (castRay_eq realMath fuel sc angle hf).2⟩
  unfold castRayChecked
  rw [bresenhamLine_eq_runVisitor fuel _ _ _ _ _ _ hf,
    runVisitor_guarded realMath real_sqrt_ne_zero sc _ _ (by simp [Best.init]),
    runVisitor_rayVisitor]
  rfl

theorem cellLookups_example : ((2 : Int), (1 : Int)) ∈ cellLookups (K := ℝ) 299 180 := by
  have hx : toInt (((299 : Int) : ℝ) * (1 / 100)) = 2 := by
    rw [toInt_eq_floor _ (by norm_num) (by norm_num), Int.floor_eq_iff]
    constructor <;> norm_num
  have hy : toInt (((180 : Int) : ℝ) * (1 / 100)) = 1 := by
    rw [toInt_eq_floor _ (by norm_num) (by norm_num), Int.floor_eq_iff]
    constructor <;> norm_num
  unfold cellLookups octaveLookups
  apply List.mem_append.mpr
  left
  unfold perlinLookups
  rw [hx, hy]
  simp

theorem dotGridGradientChecked_eq {K : Type} [LinearOrderedField K] (G : Gradients K)
    (height ix iy : Int) (x y : K) :
    dotGridGradientChecked G height ix iy x y
      = if 0 ≤ ix + iy * G.width ∧ ix + iy * G.width < G.width * height then
          some (dotGridGradient G ix iy x y)
        else none := by
  unfold dotGridGradientChecked dotGridGradient
  simp only
  by_cases h : 0 ≤ ix + iy * G.width ∧ ix + iy * G.width < G.width * height
  · rw [if_pos h, if_neg (by omega)]
  · rw [if_neg h, if_pos (by omega)]

/-- The checked noise is the noise when the four reads are inside the arrays, and `NaN`
otherwise. -/
theorem perlinNoiseChecked_eq {K : Type} [LinearOrderedField K] [FloorRing K]
    (G : Gradients K) (height : Int) (x y : K) :
    (ReadsInside G.width height (perlinLookups x y) →
      perlinNoiseChecked G height x y = some (perlinNoise G x y)) ∧
    (¬ ReadsInside G.width height (perlinLookups x y) →
      perlinNoiseChecked G height x y = none) := by
  have hall : ReadsInside G.width height (perlinLookups x y) ↔
      ((0 ≤ toInt x + toInt y * G.width ∧ toInt x + toInt y * G.width < G.width * height) ∧
       (0 ≤ toInt x + (toInt y + 1) * G.width
          ∧ toInt x + (toInt y + 1) * G.width < G.width * height) ∧
       (0 ≤ toInt x + 1 + toInt y * G.width
          ∧ toInt x + 1 + toInt y * G.width < G.width * height) ∧
       (0 ≤ toInt x + 1 + (toInt y + 1) * G.width
          ∧ toInt x + 1 + (toInt y + 1) * G.width < G.width * height)) := by
    unfold ReadsInside perlinLookups
    simp only [List.mem_cons, List.mem_singleton, List.not_mem_nil, or_false, forall_eq_or_imp,
      forall_eq]
  constructor
  · intro h
    obtain ⟨h1, h2, h3, h4⟩ := hall.mp h
    unfold perlinNoiseChecked perlinNoise
    simp only [dotGridGradientChecked_eq, if_pos h1, if_pos h2, if_pos h3, if_pos h4]
  · intro h
    rw [hall] at h
    unfold perlinNoiseChecked
    simp only [dotGridGradientChecked_eq]
    by_cases h1 : 0 ≤ toInt x + toInt y * G.width ∧ toInt x + toInt y * G.width < G.width * height
    · by_cases h2 : 0 ≤ toInt x + (toInt y + 1) * G.width
          ∧ toInt x + (toInt y + 1) * G.width < G.width * height
      · by_cases h3 : 0 ≤ toInt x + 1 + toInt y * G.width
            ∧ toInt x + 1 + toInt y * G.width < G.width * height
        · have h4 : ¬ (0 ≤ toInt x + 1 + (toInt y + 1) * G.width
              ∧ toInt x + 1 + (toInt y + 1) * G.width < G.width * height) :=
            fun h4 => h ⟨h1, h2, h3, h4⟩
          simp only [if_pos h1, if_pos h2, if_pos h3, if_neg h4]
        · simp only [if_pos h1, if_pos h2, if_neg h3]
      · simp only [if_pos h1, if_neg h2]
    · simp only [if_neg h1]

theorem octaveLoopChecked_eq {K : Type} [LinearOrderedField K] [FloorRing K]
    (G : Gradients K) (height : Int) :
    ∀ (todo : Nat) (result scale sum x y : K),
      ReadsInside G.width height (octaveLookups todo x y) →
      octaveLoopChecked G height todo (some result) scale sum x y
        = (some (octaveLoop G todo result scale sum x y).1,
            (octaveLoop G todo result scale sum x y).2) := by
  intro todo
  induction todo with
  | zero => intro result scale sum x y _; rfl
  | succ t ih =>
    intro result scale sum x y h
    have h1 : ReadsInside G.width height (perlinLookups x y) := fun p hp =>
      h p (by unfold octaveLookups; exact List.mem_append.mpr (Or.inl hp))
    have h2 : ReadsInside G.width height (octaveLookups t (x * 2) (y * 2)) := fun p hp =>
      h p (by unfold octaveLookups; exact List.mem_append.mpr (Or.inr hp))
    unfold octaveLoopChecked octaveLoop
    simp only [(perlinNoiseChecked_eq G height x y).1 h1]
    exact ih _ _ _ _ _ h2

theorem octaveLoop_sum_pos {K : Type} [LinearOrderedField K] [FloorRing K]
    (G : Gradients K) (x y : K) (n : Nat) (hn : 1 ≤ n) :
    0 < (octaveLoop G n 0 1 0 x y).2 := by
  rw [octaveLoop_eq]
  simp only [zero_add, one_mul]
  apply Finset.sum_pos
  · intro i _; exact pow_pos (by norm_num) i
  · exact ⟨0, Finset.mem_range.mpr (by omega)⟩

theorem perlinNoiseOctavesChecked_eq {K : Type} [LinearOrderedField K] [FloorRing K]
    (G : Gradients K) (height : Int) (x y : K) (n : Nat) (hn : 1 ≤ n)
    (h : ReadsInside G.width height (octaveLookups n x y)) :
    perlinNoiseOctavesChecked G height x y n = some (perlinNoiseOctaves G x y n) := by
  unfold perlinNoiseOctavesChecked perlinNoiseOctaves
  simp only [octaveLoopChecked_eq G height n 0 1 0 x y h]
  rw [if_neg (ne_of_gt (octaveLoop_sum_pos G x y n hn))]
  rfl

theorem cellValueChecked_eq {K : Type} [LinearOrderedField K] [FloorRing K]
    (G : Gradients K) (height x y : Int)
    (h : ReadsInside G.width height (cellLookups (K := K) x y)) :
    cellValueChecked G height x y = some (cellValue G x y) := by
  unfold cellValueChecked cellValue
  simp only [perlinNoiseOctavesChecked_eq G height _ _ 2 (by decide) h, Option.map_some']
  split_ifs <;> rfl
theorem octaveLookups_mem {K : Type} [LinearOrderedField K] [FloorRing K] :
    ∀ (todo : Nat) (x y : K) (p : Int × Int), p ∈ octaveLookups todo x y →
      ∃ i, i < todo ∧ p ∈ perlinLookups (x * 2 ^ i) (y * 2 ^ i) := by
  intro todo
  induction todo with
  | zero => intro x y p hp; simp [octaveLookups] at hp
  | succ t ih =>
    intro x y p hp
    unfold octaveLookups at hp
    rcases List.mem_append.mp hp with h | h
    · exact ⟨0, by omega, by simpa using h⟩
    · obtain ⟨i, hi, hmem⟩ := ih _ _ p h
      refine ⟨i + 1, by omega, ?_⟩
      have hx : x * 2 * 2 ^ i = x * 2 ^ (i + 1) := by ring
      have hy : y * 2 * 2 ^ i = y * 2 ^ (i + 1) := by ring
      rwa [hx, hy] at hmem

/-- The lattice points read at coordinates `x, y ≥ 0` whose corners are inside a grid no
larger than a canvas are points of the grid, and their indices are inside the arrays. -/
theorem perlinLookups_inside (width height : Int) (x y : ℝ) (hsize : CanvasSize width height)
    (hx : 0 ≤ x) (hy : 0 ≤ y) (hw : ⌊x⌋ + 1 < width) (hh : ⌊y⌋ + 1 < height)
    (p : Int × Int) (hp : p ∈ perlinLookups x y) :
    (p.1 = ⌊x⌋ ∨ p.1 = ⌊x⌋ + 1) ∧ (p.2 = ⌊y⌋ ∨ p.2 = ⌊y⌋ + 1) ∧
      0 ≤ p.1 ∧ p.1 < width ∧ 0 ≤ p.2 ∧ p.2 < height ∧
      0 ≤ p.1 + p.2 * width ∧ p.1 + p.2 * width < width * height := by
  obtain ⟨-, hw31, -, hh31⟩ := hsize
  have hfx : 0 ≤ ⌊x⌋ := Int.floor_nonneg.mpr hx
  have hfy : 0 ≤ ⌊y⌋ := Int.floor_nonneg.mpr hy
  have hx31 : x < 2 ^ 31 := by
    have h1 : ⌊x⌋ + 1 ≤ 2147483646 := by omega
    have h2 : x < ((⌊x⌋ + 1 : Int) : ℝ) := by push_cast; exact Int.lt_floor_add_one x
    have h3 : ((⌊x⌋ + 1 : Int) : ℝ) ≤ 2147483646 := by exact_mod_cast h1
    have h4 : (2147483646 : ℝ) < 2 ^ 31 := by norm_num
    linarith
  have hy31 : y < 2 ^ 31 := by
    have h1 : ⌊y⌋ + 1 ≤ 2147483646 := by omega
    have h2 : y < ((⌊y⌋ + 1 : Int) : ℝ) := by push_cast; exact Int.lt_floor_add_one y
    have h3 : ((⌊y⌋ + 1 : Int) : ℝ) ≤ 2147483646 := by exact_mod_cast h1
    have h4 : (2147483646 : ℝ) < 2 ^ 31 := by norm_num
    linarith
  obtain ⟨c1, c2⟩ := perlinLookups_mem x y hx hx31 hy hy31 p hp
  have g1 : 0 ≤ p.1 := by omega
  have g2 : p.1 < width := by omega
  have g3 : 0 ≤ p.2 := by omega
  have g4 : p.2 < height := by omega
  obtain ⟨i1, i2⟩ := index_in_range width height p.1 p.2 g1 g2 g3 g4
  exact ⟨c1, c2, g1, g2, g3, g4, i1, i2⟩

theorem perlinNoise_at_integers {K : Type} [LinearOrderedField K] [FloorRing K]
    (G : Gradients K) (x y : Int) (hx1 : -2 ^ 31 ≤ x) (hx2 : x < 2 ^ 31)
    (hy1 : -2 ^ 31 ≤ y) (hy2 : y < 2 ^ 31) :
    perlinNoise G (x : K) (y : K) = 0 := by
  unfold perlinNoise
  rw [toInt_intCast x hx1 hx2, toInt_intCast y hy1 hy2]
  simp only [dotGridGradient, lerp, smoothCurve, sub_self, zero_mul, mul_zero, add_zero]

theorem perlinLookups_at_integers {K : Type} [LinearOrderedField K] [FloorRing K]
    (x y : Int) (hx1 : -2 ^ 31 ≤ x) (hx2 : x < 2 ^ 31)
    (hy1 : -2 ^ 31 ≤ y) (hy2 : y < 2 ^ 31) :
    perlinLookups (x : K) (y : K) = [(x, y), (x, y + 1), (x + 1, y), (x + 1, y + 1)] := by
  unfold perlinLookups
  rw [toInt_intCast x hx1 hx2, toInt_intCast y hy1 hy2]
/-- Every gradient lookup made for a cell of a grid with `2 ≤ width, height ≤ 50·2^31` is
at a lattice point of the grid, whose index is inside the gradient arrays. -/
theorem cellLookups_inside_grid (width height x y : Int) (hw2 : 2 ≤ width)
    (hw : width ≤ 107374182400) (hh2 : 2 ≤ height) (hh : height ≤ 107374182400)
    (hx0 : 0 ≤ x) (hx1 : x < width) (hy0 : 0 ≤ y) (hy1 : y < height) :
    ∀ p ∈ cellLookups (K := ℝ) x y,
      0 ≤ p.1 ∧ p.1 < width ∧ 0 ≤ p.2 ∧ p.2 < height ∧
      0 ≤ p.1 + p.2 * width ∧ p.1 + p.2 * width < width * height := by
  intro p hp
  have inside : ∀ i, i < 2 →
      p ∈ perlinLookups ((x : ℝ) * (1 / 100) * 2 ^ i) ((y : ℝ) * (1 / 100) * 2 ^ i) →
      0 ≤ p.1 ∧ p.1 < width ∧ 0 ≤ p.2 ∧ p.2 < height := by
    intro i hi hmem
    obtain ⟨a1, a2, a3, a4⟩ := cell_coordinate_ok width x hw2 hw hx0 hx1 i hi
    obtain ⟨b1, b2, b3, b4⟩ := cell_coordinate_ok height y hh2 hh hy0 hy1 i hi
    obtain ⟨c1, c2⟩ := perlinLookups_mem _ _ a1 a2 b1 b2 p hmem
    omega
  have hgrid : 0 ≤ p.1 ∧ p.1 < width ∧ 0 ≤ p.2 ∧ p.2 < height := by
    unfold cellLookups at hp
    obtain ⟨i, hi, hmem⟩ := octaveLookups_mem 2 _ _ p hp
    exact inside i hi hmem
  obtain ⟨g1, g2, g3, g4⟩ := hgrid
  obtain ⟨i1, i2⟩ := index_in_range width height p.1 p.2 g1 g2 g3 g4
  exact ⟨g1, g2, g3, g4, i1, i2⟩

theorem roundHalfEven_eq {K : Type} [LinearOrderedField K] [FloorRing K] (s : K) (n : Int)
    (h1 : (n : K) - 1 / 2 < s) (h2 : s < (n : K) + 1 / 2) : roundHalfEven s = n := by
  unfold roundHalfEven
  simp only
  rcases le_or_lt (n : K) s with h | h
  · have hf : ⌊s⌋ = n := by
      rw [Int.floor_eq_iff]
      exact ⟨h, by linarith⟩
    rw [hf, if_pos (by linarith)]
  · have hf : ⌊s⌋ = n - 1 := by
      rw [Int.floor_eq_iff]
      push_cast
      exact ⟨by linarith, by linarith⟩
    rw [hf]
    push_cast
    rw [if_neg (by linarith), if_pos (by linarith)]
    ring

theorem roundHalfEven_bounds {K : Type} [LinearOrderedField K] [FloorRing K] (s : K) :
    ⌊s⌋ ≤ roundHalfEven s ∧ roundHalfEven s ≤ ⌊s⌋ + 1 := by
  unfold roundHalfEven
  simp only
  split_ifs <;> constructor <;> omega

theorem log_two_eq {K : Type} [LinearOrderedField K] [FloorRing K] (x : K) (e : Int)
    (h1 : (2 : K) ^ e ≤ x) (h2 : x < (2 : K) ^ (e + 1)) : Int.log 2 x = e := by
  have hx : 0 < x := lt_of_lt_of_le (zpow_pos (by norm_num) e) h1
  have a1 : e ≤ Int.log 2 x := by
    rw [← Int.zpow_le_iff_le_log (by norm_num) hx]
    simpa using h1
  have a2 : Int.log 2 x < e + 1 := by
    rw [← Int.lt_zpow_iff_log_lt (by norm_num) hx]
    simpa using h2
  omega

/-- A positive value in the binade `[2^e, 2^(e+1))` that is within half a unit in the
last place of the multiple `n · 2^(e-52)` is rounded to it. -/
theorem roundDouble_eq {K : Type} [LinearOrderedField K] [FloorRing K] (x : K) (e n : Int)
    (h1 : (2 : K) ^ e ≤ x) (h2 : x < (2 : K) ^ (e + 1))
    (h3 : ((n : K) - 1 / 2) * (2 : K) ^ (e - 52) < x)
    (h4 : x < ((n : K) + 1 / 2) * (2 : K) ^ (e - 52)) :
    roundDouble x = (n : K) * (2 : K) ^ (e - 52) := by
  have hx : 0 < x := lt_of_lt_of_le (zpow_pos (by norm_num) e) h1
  have hu : (0 : K) < (2 : K) ^ (e - 52) := zpow_pos (by norm_num) _
  unfold roundDouble
  rw [if_neg (ne_of_gt hx)]
  simp only
  rw [abs_of_pos hx, log_two_eq x e h1 h2, if_pos hx,
    roundHalfEven_eq (x / (2 : K) ^ (e - 52)) n
      (by rw [lt_div_iff₀ hu]; exact h3) (by rw [div_lt_iff₀ hu]; exact h4)]

theorem roundDouble_neg {K : Type} [LinearOrderedField K] [FloorRing K] (x : K) :
    roundDouble (-x) = -roundDouble x := by
  unfold roundDouble
  rcases lt_trichotomy x 0 with h | h | h
  · rw [if_neg (by linarith : -x ≠ 0), if_neg (ne_of_lt h)]
    simp only [abs_neg]
    rw [if_pos (by linarith : 0 < -x), if_neg (by linarith : ¬ 0 < x), neg_neg]
  · subst h
    simp
  · rw [if_neg (by linarith : -x ≠ 0), if_neg (ne_of_gt h)]
    simp only [abs_neg]
    rw [if_neg (by linarith : ¬ 0 < -x), if_pos h]

/-- Rounding keeps a positive value inside its binade (the upper end included). -/
theorem roundDouble_binade {K : Type} [LinearOrderedField K] [FloorRing K] (x : K) (e : Int)
    (h1 : (2 : K) ^ e ≤ x) (h2 : x < (2 : K) ^ (e + 1)) :
    (2 : K) ^ e ≤ roundDouble x ∧ roundDouble x ≤ (2 : K) ^ (e + 1) := by
  have hx : 0 < x := lt_of_lt_of_le (zpow_pos (by norm_num) e) h1
  have hu : (0 : K) < (2 : K) ^ (e - 52) := zpow_pos (by norm_num) _
  have hlo : (2 : K) ^ e = ((2 ^ 52 : Int) : K) * (2 : K) ^ (e - 52) := by
    have c : ((2 ^ 52 : Int) : K) = (2 : K) ^ (52 : Int) := by norm_num
    rw [c, ← zpow_add₀ (by norm_num : (2 : K) ≠ 0)]
    congr 1
    omega
  have hhi : (2 : K) ^ (e + 1) = ((2 ^ 53 : Int) : K) * (2 : K) ^ (e - 52) := by
    have c : ((2 ^ 53 : Int) : K) = (2 : K) ^ (53 : Int) := by norm_num
    rw [c, ← zpow_add₀ (by norm_num : (2 : K) ≠ 0)]
    congr 1
    omega
  have hs1 : ((2 ^ 52 : Int) : K) ≤ x / (2 : K) ^ (e - 52) := by
    rw [le_div_iff₀ hu, ← hlo]; exact h1
  have hs2 : x / (2 : K) ^ (e - 52) < ((2 ^ 53 : Int) : K) := by
    rw [div_lt_iff₀ hu, ← hhi]; exact h2
  have hf1 : (2 ^ 52 : Int) ≤ ⌊x / (2 : K) ^ (e - 52)⌋ := Int.le_floor.mpr hs1
  have hf2 : ⌊x / (2 : K) ^ (e - 52)⌋ < (2 ^ 53 : Int) := Int.floor_lt.mpr hs2
  obtain ⟨b1, b2⟩ := roundHalfEven_bounds (x / (2 : K) ^ (e - 52))
  unfold roundDouble
  rw [if_neg (ne_of_gt hx)]
  simp only
  rw [abs_of_pos hx, log_two_eq x e h1 h2, if_pos hx, hlo, hhi]
  constructor
  · apply mul_le_mul_of_nonneg_right _ (le_of_lt hu)
    exact_mod_cast le_trans hf1 b1
  · apply mul_le_mul_of_nonneg_right _ (le_of_lt hu)
    have : roundHalfEven (x / (2 : K) ^ (e - 52)) ≤ (2 ^ 53 : Int) := by omega
    exact_mod_cast this

theorem roundDouble_zero {K : Type} [LinearOrderedField K] [FloorRing K] :
    roundDouble (0 : K) = 0 := by
  simp [roundDouble]

theorem roundDouble_nonneg {K : Type} [LinearOrderedField K] [FloorRing K] (x : K)
    (hx : 0 ≤ x) : 0 ≤ roundDouble x := by
  rcases eq_or_lt_of_le hx with h | h
  · rw [← h, roundDouble_zero]
  · have hu : (0 : K) < (2 : K) ^ (Int.log 2 |x| - 52) := zpow_pos (by norm_num) _
    unfold roundDouble
    rw [if_neg (ne_of_gt h)]
    simp only
    rw [if_pos h]
    apply mul_nonneg _ (le_of_lt hu)
    have h0 : (0 : Int) ≤ ⌊|x| / (2 : K) ^ (Int.log 2 |x| - 52)⌋ :=
      Int.floor_nonneg.mpr (div_nonneg (abs_nonneg x) (le_of_lt hu))
    have := (roundHalfEven_bounds (|x| / (2 : K) ^ (Int.log 2 |x| - 52))).1
    exact_mod_cast le_trans h0 this

theorem roundDouble_nonpos {K : Type} [LinearOrderedField K] [FloorRing K] (x : K)
    (hx : x ≤ 0) : roundDouble x ≤ 0 := by
  have := roundDouble_nonneg (-x) (by linarith)
  rw [roundDouble_neg] at this
  linarith

theorem roundDouble_one {K : Type} [LinearOrderedField K] [FloorRing K] :
    roundDouble (1 : K) = 1 := by
  have h := roundDouble_eq (1 : K) 0 (2 ^ 52) (by simp) (by norm_num)
    (by norm_num) (by norm_num)
  rw [h]
  norm_num
/-- The double nearest to π, `Math.PI`: `884279719003555 / 2^48`, a little below π. -/
theorem doubleMath_PI : doubleMath.PI = 884279719003555 / 281474976710656 := by
  have hlo := Real.pi_gt_d20
  have hhi := Real.pi_lt_d20
  have h := roundDouble_eq Real.pi 1 7074237752028440 (by norm_num; linarith)
    (by norm_num; linarith) (by norm_num; linarith) (by norm_num; linarith)
  show roundDouble Real.pi = _
  rw [h]
  norm_num

/-- The gap between a full turn and `2 * Math.PI`: about `2.449e-16`. -/
theorem doubleMath_turn_gap :
    doubleMath.PI * 2 = 2 * Real.pi - (2 * Real.pi - 884279719003555 / 281474976710656 * 2) ∧
      (2449 : ℝ) / 10 ^ 19 < 2 * Real.pi - 884279719003555 / 281474976710656 * 2 ∧
      2 * Real.pi - 884279719003555 / 281474976710656 * 2 < (2450 : ℝ) / 10 ^ 19 := by
  have hlo := Real.pi_gt_d20
  have hhi := Real.pi_lt_d20
  refine ⟨by rw [doubleMath_PI]; ring, ?_, ?_⟩
  · norm_num at hlo ⊢; linarith
  · norm_num at hhi ⊢; linarith

theorem doubleMath_cos_zero : doubleMath.cos 0 = 1 := by
  show roundDouble (Real.cos 0) = 1
  rw [Real.cos_zero, roundDouble_one]

theorem doubleMath_sin_zero : doubleMath.sin 0 = 0 := by
  show roundDouble (Real.sin 0) = 0
  rw [Real.sin_zero, roundDouble_zero]

/-- `Math.cos(2 * Math.PI)` is 1: the exact cosine is within `2^-54` of 1. -/
theorem doubleMath_cos_turn : doubleMath.cos (doubleMath.PI * 2) = 1 := by
  obtain ⟨hP, hd1, hd2⟩ := doubleMath_turn_gap
  show roundDouble (Real.cos (doubleMath.PI * 2)) = 1
  rw [hP, Real.cos_two_pi_sub]
  set d := 2 * Real.pi - 884279719003555 / 281474976710656 * 2 with hd
  have hc1 : Real.cos d ≤ 1 := Real.cos_le_one d
  have hc2 : 1 - d ^ 2 / 2 ≤ Real.cos d := Real.one_sub_sq_div_two_le_cos
  have hd0 : 0 < d := lt_trans (by norm_num) hd1
  have hsq : d ^ 2 ≤ 1 / 10 ^ 30 := by
    have : d ^ 2 ≤ ((2450 : ℝ) / 10 ^ 19) ^ 2 := pow_le_pow_left₀ (le_of_lt hd0) (le_of_lt hd2) 2
    refine le_trans this ?_
    norm_num
  rcases eq_or_lt_of_le hc1 with h | h
  · rw [h, roundDouble_one]
  · have hr := roundDouble_eq (Real.cos d) (-1) (2 ^ 53) (by norm_num; linarith)
      (by norm_num; linarith) (by norm_num; linarith) (by norm_num; linarith)
    rw [hr]
    norm_num

/-- `Math.sin(2 * Math.PI)` is not 0 but a negative number between `-2^-51` and `-2^-52`
(it is `-2.4492935982947064e-16`). -/
theorem doubleMath_sin_turn :
    -(1 / 2 ^ 51) ≤ doubleMath.sin (doubleMath.PI * 2) ∧
      doubleMath.sin (doubleMath.PI * 2) ≤ -(1 / 2 ^ 52) := by
  obtain ⟨hP, hd1, hd2⟩ := doubleMath_turn_gap
  show -(1 / 2 ^ 51) ≤ roundDouble (Real.sin (doubleMath.PI * 2)) ∧
    roundDouble (Real.sin (doubleMath.PI * 2)) ≤ -(1 / 2 ^ 52)
  rw [hP, Real.sin_two_pi_sub, roundDouble_neg]
  set d := 2 * Real.pi - 884279719003555 / 281474976710656 * 2 with hd
  have hd0 : 0 < d := lt_trans (by norm_num) hd1
  have hs1 : Real.sin d < d := Real.sin_lt hd0
  have hs2 : d - d ^ 3 / 4 < Real.sin d :=
    Real.sin_gt_sub_cube hd0 (le_trans (le_of_lt hd2) (by norm_num))
  have hsq : d ^ 2 ≤ 1 / 10 ^ 30 := by
    have : d ^ 2 ≤ ((2450 : ℝ) / 10 ^ 19) ^ 2 := pow_le_pow_left₀ (le_of_lt hd0) (le_of_lt hd2) 2
    refine le_trans this ?_
    norm_num
  have hcube : d ^ 3 / 4 ≤ d * (1 / 10 ^ 30) := by
    have : d ^ 3 = d * d ^ 2 := by ring
    rw [this]
    have := mul_le_mul_of_nonneg_left hsq (le_of_lt hd0)
    linarith
  have hlow : (1 : ℝ) / 2 ^ 52 ≤ Real.sin d := by
    have : (1 : ℝ) / 2 ^ 52 ≤ d - d * (1 / 10 ^ 30) := by
      have : d - d * (1 / 10 ^ 30) = d * (1 - 1 / 10 ^ 30) := by ring
      rw [this]
      have h1 : (2449 : ℝ) / 10 ^ 19 * (1 - 1 / 10 ^ 30) ≤ d * (1 - 1 / 10 ^ 30) :=
        mul_le_mul_of_nonneg_right (le_of_lt hd1) (by norm_num)
      refine le_trans ?_ h1
      norm_num
    linarith
  have hup : Real.sin d < 1 / 2 ^ 51 := by
    have : (2450 : ℝ) / 10 ^ 19 < 1 / 2 ^ 51 := by norm_num
    exact lt_trans (lt_trans hs1 hd2) this
  have hb := roundDouble_binade (Real.sin d) (-52) (by norm_num; linarith) (by norm_num; linarith)
  norm_num at hb ⊢
  constructor <;> linarith [hb.1, hb.2]
theorem stepAngle_first {K : Type} [LinearOrderedField K] (M : JsMath K) (n : Nat) :
    stepAngle M n 0 = 0 := by
  simp [stepAngle, lerp]

theorem stepAngle_last {K : Type} [LinearOrderedField K] (M : JsMath K) (n : Nat)
    (hn : 1 ≤ n) : stepAngle M n n = M.PI * 2 := by
  have hn' : (n : K) ≠ 0 := by
    have : (0 : K) < n := by exact_mod_cast hn
    exact ne_of_gt this
  simp [stepAngle, lerp, div_self hn']

theorem stepAngle_lt {K : Type} [LinearOrderedField K] (M : JsMath K) (n : Nat)
    (hn : 1 ≤ n) (hPI : 0 < M.PI) (j k : Nat) (hjk : j < k) :
    stepAngle M n j < stepAngle M n k := by
  have hn' : (0 : K) < n := by exact_mod_cast hn
  have hjk' : (j : K) < k := by exact_mod_cast hjk
  have hpi : (0 : K) < M.PI * 2 - 0 := by linarith
  simp only [stepAngle, lerp]
  have := mul_lt_mul_of_pos_left (div_lt_div_of_pos_right hjk' hn') hpi
  linarith

/-- From a viewpoint outside the height map every ray stops on its first cell and
records nothing. -/
theorem raySample_of_outside {K : Type} [LinearOrderedField K] [FloorRing K]
    (M : JsMath K) (sc : Scene K) (angle : K)
    (hout : outOfBounds sc sc.xStart sc.yStart = true) :
    raySample M sc angle = (sc.xStart, sc.yStart, 0) := by
  have hhead := lineCells_head sc.xStart sc.yStart (rayEnd M sc angle).1 (rayEnd M sc angle).2
  have hpath : rayPath M sc angle = [(sc.xStart, sc.yStart)] := by
    unfold rayPath
    cases hl : lineCells sc.xStart sc.yStart (rayEnd M sc angle).1 (rayEnd M sc angle).2 with
    | nil => rw [hl] at hhead; simp at hhead
    | cons c rest =>
      rw [hl] at hhead
      simp only [List.head?_cons, Option.some.injEq] at hhead
      subst hhead
      simp [cutAfterFirst, hout]
  unfold raySample rayBest
  rw [hpath]
  simp [candidates, hout, Best.init]

theorem cutAfterFirst_cons (visit : Int → Int → Bool) (c : Int × Int)
    (rest : List (Int × Int)) :
    cutAfterFirst visit (c :: rest)
      = if visit c.1 c.2 then [c] else c :: cutAfterFirst visit rest := rfl

/-- The start of a line that runs `2*m` cells to the right and at most one cell up or
down: the first `m` moves are along the row, so when the visitor stops at the cell `m`
to the right, the visited cells are those of the row. -/
theorem linePath_flat_cut (visit : Int → Int → Bool) (m : Nat) (xs ys y1 sy b : Int)
    (hb0 : 0 ≤ b) (hb1 : b ≤ 1) (hstop : visit (xs + m) ys = true) :
    ∀ (j k fuel : Nat) (x0 err : Int) (p : List (Int × Int)), k + j = m →
      x0 = xs + k → err = 2 * m - b - b * k →
      linePath (xs + 2 * m) y1 (2 * m) (-b) 1 sy fuel x0 ys err = some p →
      cutAfterFirst visit p
        = cutAfterFirst visit
            ((List.range' k (j + 1)).map (fun i : Nat => (xs + (i : Int), ys))) := by
  intro j
  induction j with
  | zero =>
    intro k fuel x0 err p hk hx0 herr hp
    have hkm : k = m := by omega
    subst hkm hx0
    cases fuel with
    | zero => simp [linePath] at hp
    | succ f =>
      unfold linePath at hp
      split_ifs at hp with hend
      · simp only [Option.some.injEq] at hp
        subst hp
        simp [cutAfterFirst, hstop]
      · simp only [Option.map_eq_some'] at hp
        obtain ⟨q, -, rfl⟩ := hp
        simp [cutAfterFirst, hstop]
  | succ j ih =>
    intro k fuel x0 err p hk hx0 herr hp
    subst hx0 herr
    cases fuel with
    | zero => simp [linePath] at hp
    | succ f =>
      unfold linePath at hp
      have hne : ¬ (xs + (k : Int) = xs + 2 * (m : Int) ∧ ys = y1) := by
        intro h
        have := h.1
        omega
      rw [if_neg hne] at hp
      simp only at hp
      have hbk : b * (k : Int) ≤ k := by
        have := mul_le_mul_of_nonneg_right hb1 (by omega : (0 : Int) ≤ (k : Int))
        linarith
      have hbk0 : 0 ≤ b * (k : Int) := mul_nonneg hb0 (by omega)
      have hx : (2 * (m : Int) - b - b * k) * 2 > -b := by omega
      have hy : ¬ (2 * (m : Int) - b - b * k) * 2 < 2 * m := by omega
      rw [if_pos hx, if_pos hx, if_neg hy, if_neg hy] at hp
      simp only [Option.map_eq_some'] at hp
      obtain ⟨q, hq, rfl⟩ := hp
      have := ih (k + 1) f _ _ q (by omega) (by push_cast; ring) (by push_cast; ring) hq
      rw [List.range'_succ, List.map_cons, cutAfterFirst_cons, cutAfterFirst_cons, this]

theorem lineCells_flat_cut (visit : Int → Int → Bool) (m : Nat) (hm : 1 ≤ m) (xs ys b : Int)
    (hb0 : 0 ≤ b) (hb1 : b ≤ 1) (hstop : visit (xs + m) ys = true) :
    cutAfterFirst visit (lineCells xs ys (xs + 2 * m) (ys - b))
      = cutAfterFirst visit
          ((List.range' 0 (m + 1)).map (fun i : Nat => (xs + (i : Int), ys))) := by
  obtain ⟨L, -, -, -, hfuel⟩ := lineCells_spec xs ys (xs + 2 * m) (ys - b)
  have h := hfuel _ le_rfl
  have hdx : |xs + 2 * (m : Int) - xs| = 2 * m := by
    rw [show xs + 2 * (m : Int) - xs = 2 * m by ring]
    exact abs_of_nonneg (by omega)
  have hdy : |ys - b - ys| = b := by
    rw [show ys - b - ys = -b by ring, abs_neg]
    exact abs_of_nonneg hb0
  have hsx : stepSign xs (xs + 2 * (m : Int)) = 1 := by
    unfold stepSign
    rw [if_pos (by omega)]
  rw [hdx, hdy, hsx] at h
  exact linePath_flat_cut visit m xs ys (ys - b) _ b hb0 hb1 hstop m 0 _ _ _ _
    (Nat.zero_add m) (by push_cast; ring) (by push_cast; ring) h
/-- The value `x|0` of a fraction that lies less than one below a non-negative 32-bit
integer `k`: it is `k` or `k - 1`. -/
theorem toInt_near {K : Type} [LinearOrderedField K] [FloorRing K] (v : K) (k : Int)
    (hk0 : 0 ≤ k) (hk1 : k < 2 ^ 31) (h1 : (k : K) - 1 < v) (h2 : v ≤ k) :
    toInt v = k ∨ toInt v = k - 1 := by
  rcases lt_or_le v 0 with hneg | hpos
  · have hk : k = 0 := by
      by_contra hne
      have : (1 : K) ≤ k := by
        have : (1 : Int) ≤ k := by omega
        exact_mod_cast this
      linarith
    subst hk
    left
    rw [toInt_of_neg v hneg]
    have hc : ⌈v⌉ = 0 := by
      rw [Int.ceil_eq_iff]
      push_cast
      constructor
      · simpa using h1
      · linarith
    rw [hc]
    decide
  · rw [toInt_of_nonneg v hpos]
    rcases eq_or_lt_of_le h2 with heq | hlt
    · left
      rw [heq, Int.floor_intCast]
      omega
    · right
      have hf : ⌊v⌋ = k - 1 := by
        rw [Int.floor_eq_iff]
        push_cast
        exact ⟨le_of_lt h1, by linarith⟩
      have hf0 : 0 ≤ ⌊v⌋ := Int.floor_nonneg.mpr hpos
      rw [hf] at hf0 ⊢
      omega

/-- The rays for the angles 0 and `2*Math.PI`: the second may end one cell lower, but
both leave the height map along the row of the viewpoint before that shows, so they
record the same sample. -/
theorem raySample_turn {K : Type} [LinearOrderedField K] [FloorRing K] (M : JsMath K)
    (hM : ClosesTurn M) (sc : Scene K) (hgrid : 3 * max sc.width sc.height ≤ 2 ^ 31) :
    raySample M sc (M.PI * 2) = raySample M sc 0 ∧
      (rayEnd M sc (M.PI * 2)).1 = (rayEnd M sc 0).1 ∧
      (outOfBounds sc sc.xStart sc.yStart = false →
        rayEnd M sc 0 = (sc.xStart + 2 * max sc.width sc.height, sc.yStart) ∧
        ((rayEnd M sc (M.PI * 2)).2 = sc.yStart ∨
          (rayEnd M sc (M.PI * 2)).2 = sc.yStart - 1)) := by
  obtain ⟨-, hc0, hs0, hc2, hs2a, hs2b⟩ := hM
  have hx : (rayEnd M sc (M.PI * 2)).1 = (rayEnd M sc 0).1 := by
    unfold rayEnd
    simp only [hc0, hc2]
  have hin_end : outOfBounds sc sc.xStart sc.yStart = false →
      rayEnd M sc 0 = (sc.xStart + 2 * max sc.width sc.height, sc.yStart) ∧
      ((rayEnd M sc (M.PI * 2)).2 = sc.yStart ∨
        (rayEnd M sc (M.PI * 2)).2 = sc.yStart - 1) := by
    intro hin
    simp only [outOfBounds, decide_eq_false_iff_not, not_or, not_lt, ge_iff_le, not_le] at hin
    obtain ⟨hx0, hx1, hy0, hy1⟩ := hin
    have hmw : sc.width ≤ max sc.width sc.height := le_max_left _ _
    have hmh : sc.height ≤ max sc.width sc.height := le_max_right _ _
    constructor
    · unfold rayEnd
      simp only [hc0, hs0, one_mul, zero_mul, zero_add]
      rw [← Int.cast_add, toInt_intCast _ (by omega) (by omega),
        toInt_intCast _ (by omega) (by omega)]
      rw [add_comm]
    · unfold rayEnd
      simp only
      have hd0 : (0 : K) ≤ ((2 * max sc.width sc.height : Int) : K) := by
        have : (0 : Int) ≤ 2 * max sc.width sc.height := by omega
        exact_mod_cast this
      have hd1 : ((2 * max sc.width sc.height : Int) : K) ≤ 2 ^ 31 := by
        have : 2 * max sc.width sc.height ≤ (2 : Int) ^ 31 := by omega
        exact_mod_cast this
      have hprod1 : M.sin (M.PI * 2) * ((2 * max sc.width sc.height : Int) : K) ≤ 0 :=
        mul_nonpos_of_nonpos_of_nonneg hs2b hd0
      have hprod2 : -1 < M.sin (M.PI * 2) * ((2 * max sc.width sc.height : Int) : K) := by
        have a1 : -(1 / 2 ^ 51) * ((2 * max sc.width sc.height : Int) : K)
            ≤ M.sin (M.PI * 2) * ((2 * max sc.width sc.height : Int) : K) :=
          mul_le_mul_of_nonneg_right hs2a hd0
        have a2 : -(1 / 2 ^ 51 : K) * (2 ^ 31) ≤ -(1 / 2 ^ 51) * ((2 * max sc.width sc.height : Int) : K) := by
          apply mul_le_mul_of_nonpos_left hd1
          norm_num
        have a3 : (-1 : K) < -(1 / 2 ^ 51 : K) * (2 ^ 31) := by norm_num
        linarith
      exact toInt_near _ sc.yStart hy0 (by omega) (by linarith) (by linarith)
  refine ⟨?_, hx, hin_end⟩
  cases hout : outOfBounds sc sc.xStart sc.yStart with
  | true =>
    rw [raySample_of_outside M sc _ hout, raySample_of_outside M sc _ hout]
  | false =>
    obtain ⟨h0, hn⟩ := hin_end hout
    simp only [outOfBounds, decide_eq_false_iff_not, not_or, not_lt, ge_iff_le, not_le] at hout
    obtain ⟨hx0, hx1, hy0, hy1⟩ := hout
    have hmw : sc.width ≤ max sc.width sc.height := le_max_left _ _
    have hm1 : 1 ≤ (max sc.width sc.height).toNat := by omega
    have hmz : (((max sc.width sc.height).toNat : Nat) : Int) = max sc.width sc.height :=
      Int.toNat_of_nonneg (by omega)
    have hstop : outOfBounds sc (sc.xStart + ((max sc.width sc.height).toNat : Nat)) sc.yStart
        = true := by
      simp only [outOfBounds, decide_eq_true_eq]
      right; left
      omega
    have hxe : (rayEnd M sc (M.PI * 2)).1
        = sc.xStart + 2 * (((max sc.width sc.height).toNat : Nat) : Int) := by
      rw [hx, h0, hmz]
    have h0' : rayEnd M sc 0
        = (sc.xStart + 2 * (((max sc.width sc.height).toNat : Nat) : Int), sc.yStart) := by
      rw [h0, hmz]
    have hpath : rayPath M sc (M.PI * 2) = rayPath M sc 0 := by
      unfold rayPath
      rw [hxe, h0']
      simp only
      have e0 := lineCells_flat_cut (outOfBounds sc) _ hm1 sc.xStart sc.yStart 0 le_rfl
        (by decide) hstop
      rw [sub_zero] at e0
      rcases hn with hn | hn
      · rw [hn]
      · rw [hn, e0]
        exact lineCells_flat_cut (outOfBounds sc) _ hm1 sc.xStart sc.yStart 1 (by decide) le_rfl
          hstop
    unfold raySample rayBest
    rw [hpath]
theorem closesTurn_doubleMath : ClosesTurn doubleMath := by
  refine ⟨?_, doubleMath_cos_zero, doubleMath_sin_zero, doubleMath_cos_turn,
    doubleMath_sin_turn.1, ?_⟩
  · rw [doubleMath_PI]; norm_num
  · have := doubleMath_sin_turn.2
    have h : (0 : ℝ) < 1 / 2 ^ 52 := by norm_num
    linarith

/-- The end of the last ray in doubles, for a viewpoint row `yStart ≥ 1`: the column is
that of the first ray and the row is one lower. -/
theorem rayEnd_doubleMath_turn (sc : Scene ℝ) (hd0 : 1 ≤ max sc.width sc.height)
    (hd1 : max sc.width sc.height ≤ 2 ^ 31) (hy0 : 1 ≤ sc.yStart) (hy1 : sc.yStart < 2 ^ 31) :
    rayEnd doubleMath sc (doubleMath.PI * 2)
      = (toInt (((2 * max sc.width sc.height + sc.xStart : Int) : ℝ)), sc.yStart - 1) := by
  obtain ⟨hs1, hs2⟩ := doubleMath_sin_turn
  unfold rayEnd
  simp only
  rw [doubleMath_cos_turn, one_mul, ← Int.cast_add]
  congr 1
  have hdr0 : (2 : ℝ) ≤ ((2 * max sc.width sc.height : Int) : ℝ) := by
    have : (2 : Int) ≤ 2 * max sc.width sc.height := by omega
    exact_mod_cast this
  have hdr1 : ((2 * max sc.width sc.height : Int) : ℝ) ≤ 2 ^ 32 := by
    have : 2 * max sc.width sc.height ≤ (2 : Int) ^ 32 := by omega
    exact_mod_cast this
  have hp1 : doubleMath.sin (doubleMath.PI * 2) * ((2 * max sc.width sc.height : Int) : ℝ)
      ≤ -(1 / 2 ^ 52) * 2 := by
    have a1 := mul_le_mul_of_nonneg_right hs2 (by linarith :
      (0 : ℝ) ≤ ((2 * max sc.width sc.height : Int) : ℝ))
    have a2 : -(1 / 2 ^ 52 : ℝ) * ((2 * max sc.width sc.height : Int) : ℝ)
        ≤ -(1 / 2 ^ 52) * 2 := mul_le_mul_of_nonpos_left hdr0 (by norm_num)
    linarith
  have hp2 : -(1 / 2 ^ 51 : ℝ) * 2 ^ 32
      ≤ doubleMath.sin (doubleMath.PI * 2) * ((2 * max sc.width sc.height : Int) : ℝ) := by
    have a1 := mul_le_mul_of_nonneg_right hs1 (by linarith :
      (0 : ℝ) ≤ ((2 * max sc.width sc.height : Int) : ℝ))
    have a2 : -(1 / 2 ^ 51 : ℝ) * 2 ^ 32
        ≤ -(1 / 2 ^ 51) * ((2 * max sc.width sc.height : Int) : ℝ) :=
      mul_le_mul_of_nonpos_left hdr1 (by norm_num)
    linarith
  have hp1' : -(1 / 2 ^ 52 : ℝ) * 2 < 0 := by norm_num
  have hp2' : (-1 : ℝ) < -(1 / 2 ^ 51 : ℝ) * 2 ^ 32 := by norm_num
  have hyr : (1 : ℝ) ≤ (sc.yStart : ℝ) := by exact_mod_cast hy0
  have hv0 : 0 ≤ doubleMath.sin (doubleMath.PI * 2) * ((2 * max sc.width sc.height : Int) : ℝ)
      + (sc.yStart : ℝ) := by linarith
  rw [toInt_of_nonneg _ hv0]
  have hf : ⌊doubleMath.sin (doubleMath.PI * 2) * ((2 * max sc.width sc.height : Int) : ℝ)
      + (sc.yStart : ℝ)⌋ = sc.yStart - 1 := by
    rw [Int.floor_eq_iff, Int.cast_sub, Int.cast_one]
    constructor <;> linarith
  rw [hf]
  omega

theorem rayEnd_doubleMath_zero (sc : Scene ℝ) (hy0 : -2 ^ 31 ≤ sc.yStart)
    (hy1 : sc.yStart < 2 ^ 31) :
    rayEnd doubleMath sc 0
      = (toInt (((2 * max sc.width sc.height + sc.xStart : Int) : ℝ)), sc.yStart) := by
  unfold rayEnd
  simp only
  rw [doubleMath_cos_zero, doubleMath_sin_zero, one_mul, zero_mul, zero_add, ← Int.cast_add,
    toInt_intCast _ hy0 hy1]

theorem doubleMath_sqrt_pos (k : Int) (hk : 1 ≤ k) : 0 < doubleMath.sqrt (k : ℝ) := by
  show 0 < roundDouble (Real.sqrt (k : ℝ))
  have hk' : (1 : ℝ) ≤ (k : ℝ) := by exact_mod_cast hk
  have h1 : (1 : ℝ) ≤ Real.sqrt (k : ℝ) := by
    rw [Real.one_le_sqrt]; exact hk'
  have hlog := Int.zpow_log_le_self (b := 2) (by norm_num) (lt_of_lt_of_le one_pos h1)
  have hlog2 := Int.lt_zpow_succ_log_self (b := 2) (by norm_num) (Real.sqrt (k : ℝ))
  have := (roundDouble_binade (Real.sqrt (k : ℝ)) _ (by simpa using hlog) (by simpa using hlog2)).1
  exact lt_of_lt_of_le (zpow_pos (by norm_num) _) this

theorem rayVisitorIn_exact {K : Type} [LinearOrderedField K] (M : JsMath K) (sc : Scene K) :
    rayVisitorIn (exactArith M) sc = rayVisitor M sc := rfl

theorem runVisitor_rayVisitorIn {K : Type} [LinearOrderedField K] (A : JsArith K)
    (sc : Scene K) :
    ∀ (cells : List (Int × Int)) (s : Best K),
      runVisitor (rayVisitorIn A sc) s cells
        = (candidates sc (cutAfterFirst (outOfBounds sc) cells)).foldl (betterIn A sc) s := by
  intro cells
  induction cells with
  | nil => intro s; simp [runVisitor, cutAfterFirst, candidates]
  | cons c rest ih =>
    intro s
    by_cases hout : c.1 < 0 ∨ c.1 ≥ sc.width ∨ c.2 < 0 ∨ c.2 ≥ sc.height
    · have ho : outOfBounds sc c.1 c.2 = true := by simp [outOfBounds, hout]
      simp [runVisitor, rayVisitorIn, cutAfterFirst, candidates, hout, ho]
    · have ho : outOfBounds sc c.1 c.2 = false := by simp [outOfBounds, hout]
      by_cases hvp : c.1 - sc.xStart = 0 ∧ c.2 - sc.yStart = 0
      · have hc : c = (sc.xStart, sc.yStart) := Prod.ext (by simp; omega) (by simp; omega)
        have hstep : rayVisitorIn A sc s c.1 c.2 = (false, s) := by
          simp only [rayVisitorIn, hout, hvp, and_self, if_false, if_true]
        have := ih s
        simp only [candidates] at this
        have hdec : decide (c = (sc.xStart, sc.yStart)) = true := by simp [hc]
        simp [runVisitor, hstep, cutAfterFirst, candidates, ho, hdec, this]
      · have hc : ¬ c = (sc.xStart, sc.yStart) := by
          intro h; apply hvp; rw [h]; simp
        have hstep : rayVisitorIn A sc s c.1 c.2 = (false, betterIn A sc s c) := by
          simp only [rayVisitorIn, hout, hvp, if_false, betterIn, slopeIn, squaredDistance]
          split_ifs <;> rfl
        have := ih (betterIn A sc s c)
        simp only [candidates] at this
        simp [runVisitor, hstep, cutAfterFirst, candidates, ho, hc, this]

/-- What the running best is after a list of competing cells, in any arithmetic: its
quotient never falls, it bounds the computed quotient of every cell, and either nothing
was recorded or the record is a cell of the list whose quotient beat the start and that
of every cell before it. -/
theorem foldl_betterIn_spec {K : Type} [LinearOrderedField K] (A : JsArith K) (sc : Scene K) :
    ∀ (cand : List (Int × Int)) (s : Best K),
      A.div s.bestHeight s.bestDistance
        ≤ A.div (cand.foldl (betterIn A sc) s).bestHeight
            (cand.foldl (betterIn A sc) s).bestDistance ∧
      (∀ c ∈ cand, slopeIn A sc c
        ≤ A.div (cand.foldl (betterIn A sc) s).bestHeight
            (cand.foldl (betterIn A sc) s).bestDistance) ∧
      (cand.foldl (betterIn A sc) s = s ∨
        ∃ pre b post, cand = pre ++ b :: post ∧
          cand.foldl (betterIn A sc) s
            = ⟨A.sub (sc.heightMap (b.1 + b.2 * sc.width)) sc.viewerHeight,
                A.sqrt ((squaredDistance sc b : Int) : K), b.1, b.2⟩ ∧
          A.div s.bestHeight s.bestDistance < slopeIn A sc b ∧
          ∀ c ∈ pre, slopeIn A sc c < slopeIn A sc b) := by
  intro cand
  induction cand with
  | nil => intro s; simp
  | cons c rest ih =>
    intro s
    obtain ⟨h1, h2, h3⟩ := ih (betterIn A sc s c)
    simp only [List.foldl_cons]
    have hc : A.div s.bestHeight s.bestDistance
          ≤ A.div (betterIn A sc s c).bestHeight (betterIn A sc s c).bestDistance ∧
        slopeIn A sc c
          ≤ A.div (betterIn A sc s c).bestHeight (betterIn A sc s c).bestDistance ∧
        (betterIn A sc s c = s ∨
          (betterIn A sc s c = ⟨A.sub (sc.heightMap (c.1 + c.2 * sc.width)) sc.viewerHeight,
              A.sqrt ((squaredDistance sc c : Int) : K), c.1, c.2⟩ ∧
            A.div s.bestHeight s.bestDistance < slopeIn A sc c)) := by
      unfold betterIn
      split_ifs with h
      · exact ⟨le_of_lt h, le_refl _, Or.inr ⟨rfl, h⟩⟩
      · exact ⟨le_refl _, not_lt.mp h, Or.inl rfl⟩
    obtain ⟨c1, c2, c3⟩ := hc
    refine ⟨le_trans c1 h1, ?_, ?_⟩
    · intro d hd
      rcases List.mem_cons.mp hd with rfl | hd'
      · exact le_trans c2 h1
      · exact h2 d hd'
    · rcases h3 with h3 | ⟨pre, b, post, hsplit, hrec, hlt, hpre⟩
      · rcases c3 with c3 | ⟨c3, c4⟩
        · left; rw [h3, c3]
        · right
          exact ⟨[], c, rest, rfl, by rw [h3, c3], c4, by simp⟩
      · right
        refine ⟨c :: pre, b, post, by rw [hsplit]; rfl, hrec, lt_of_le_of_lt c1 hlt, ?_⟩
        intro d hd
        rcases List.mem_cons.mp hd with rfl | hd'
        · exact lt_of_le_of_lt c2 hlt
        · exact hpre d hd'

/-- With enough fuel for the line to the ray end, the ray returns in any arithmetic: its
visited cells are `rayPath` and its sample is `raySampleIn`. -/
theorem castRayIn_eq {K : Type} [LinearOrderedField K] [FloorRing K] (A : JsArith K)
    (M : JsMath K) (fuel : Nat) (sc : Scene K) (angle : K)
    (hfuel : lineFuel sc.xStart sc.yStart (rayEnd M sc angle).1 (rayEnd M sc angle).2 ≤ fuel) :
    rayCells M fuel sc angle = some (rayPath M sc angle) ∧
      castRayIn A M fuel sc angle = some (raySampleIn A M sc angle) := by
  refine ⟨visitedCells_eq fuel _ _ _ _ _ hfuel, ?_⟩
  unfold castRayIn
  simp only
  rw [bresenhamLine_eq_runVisitor fuel _ _ _ _ _ _ hfuel, runVisitor_rayVisitorIn]
  rfl

theorem castRayIn_eq_of_rayFuel {K : Type} [LinearOrderedField K] [FloorRing K]
    (A : JsArith K) (M : JsMath K) (fuel : Nat) (sc : Scene K) (angle : K)
    (hfuel : rayFuel sc.xStart sc.yStart ≤ fuel) :
    rayCells M fuel sc angle = some (rayPath M sc angle) ∧
      castRayIn A M fuel sc angle = some (raySampleIn A M sc angle) :=
  castRayIn_eq A M fuel sc angle (le_trans (lineFuel_le_rayFuel M sc angle) hfuel)

/-- The two outcomes of a ray in an arithmetic whose quotient `0/1` is 0: nothing
recorded, the sample is the start values and no competing cell has a positive computed
quotient; or a competing cell is recorded, its computed quotient is positive, larger
than that of every competing cell before it and not smaller than that of any competing
cell. -/
theorem raySampleIn_spec {K : Type} [LinearOrderedField K] [FloorRing K] (A : JsArith K)
    (hdiv : A.div 0 1 = 0) (M : JsMath K) (sc : Scene K) (angle : K) :
    (raySampleIn A M sc angle = (sc.xStart, sc.yStart, 0) ∧
        ∀ c ∈ candidates sc (rayPath M sc angle), slopeIn A sc c ≤ 0) ∨
    (∃ pre b post, candidates sc (rayPath M sc angle) = pre ++ b :: post ∧
        raySampleIn A M sc angle
          = (b.1, b.2, A.sub (sc.heightMap (b.1 + b.2 * sc.width)) sc.viewerHeight) ∧
        0 < slopeIn A sc b ∧
        (∀ c ∈ pre, slopeIn A sc c < slopeIn A sc b) ∧
        ∀ c ∈ candidates sc (rayPath M sc angle), slopeIn A sc c ≤ slopeIn A sc b) := by
  obtain ⟨-, h2, h3⟩ :=
    foldl_betterIn_spec A sc (candidates sc (rayPath M sc angle)) (Best.init sc)
  have h0 : A.div (Best.init sc).bestHeight (Best.init sc).bestDistance = 0 := by
    simp only [Best.init]
    exact hdiv
  rcases h3 with h3 | ⟨pre, b, post, hsplit, hrec, hlt, hpre⟩
  · left
    refine ⟨?_, ?_⟩
    · simp only [raySampleIn]
      rw [h3]
      rfl
    · intro c hc
      have := h2 c hc
      rwa [h3, h0] at this
  · right
    refine ⟨pre, b, post, hsplit, ?_, ?_, hpre, ?_⟩
    · simp only [raySampleIn]
      rw [hrec]
    · rwa [h0] at hlt
    · intro c hc
      have := h2 c hc
      rw [hrec] at this
      exact this

/-- Among the competing cells of a ray, a later one is strictly farther from the
viewpoint. -/
theorem candidates_pairwise_squaredDistance {K : Type} [LinearOrderedField K] [FloorRing K]
    (M : JsMath K) (sc : Scene K) (angle : K) :
    List.Pairwise (fun p q => squaredDistance sc p < squaredDistance sc q)
      (candidates sc (rayPath M sc angle)) :=
  (lineCells_pairwise_dist sc.xStart sc.yStart (rayEnd M sc angle).1
    (rayEnd M sc angle).2).sublist (candidates_sublist M sc angle)
theorem roundHalfEven_near {K : Type} [LinearOrderedField K] [FloorRing K] (s : K) :
    s - 1 / 2 ≤ (roundHalfEven s : K) ∧ (roundHalfEven s : K) ≤ s + 1 / 2 := by
  have h1 : (⌊s⌋ : K) ≤ s := Int.floor_le s
  have h2 : s < (⌊s⌋ : K) + 1 := Int.lt_floor_add_one s
  unfold roundHalfEven
  simp only
  split_ifs with a b c
  · constructor <;> linarith
  · push_cast; constructor <;> linarith
  · have : s - (⌊s⌋ : K) = 1 / 2 := le_antisymm (not_lt.mp b) (not_lt.mp a)
    constructor <;> linarith
  · have : s - (⌊s⌋ : K) = 1 / 2 := le_antisymm (not_lt.mp b) (not_lt.mp a)
    push_cast
    constructor <;> linarith

/-- Rounding moves a positive value of the binade `[2^e, 2^(e+1))` by at most half a unit
in the last place, `2^(e-53)`. -/
theorem roundDouble_near {K : Type} [LinearOrderedField K] [FloorRing K] (x : K) (e : Int)
    (h1 : (2 : K) ^ e ≤ x) (h2 : x < (2 : K) ^ (e + 1)) :
    x - (2 : K) ^ (e - 53) ≤ roundDouble x ∧ roundDouble x ≤ x + (2 : K) ^ (e - 53) := by
  have hx : 0 < x := lt_of_lt_of_le (zpow_pos (by norm_num) e) h1
  have hu : (0 : K) < (2 : K) ^ (e - 52) := zpow_pos (by norm_num) _
  have hhalf : (2 : K) ^ (e - 53) = 1 / 2 * (2 : K) ^ (e - 52) := by
    have : e - 52 = (e - 53) + 1 := by ring
    rw [this, zpow_add_one₀ (by norm_num : (2 : K) ≠ 0)]
    ring
  obtain ⟨b1, b2⟩ := roundHalfEven_near (x / (2 : K) ^ (e - 52))
  have hxu : x / (2 : K) ^ (e - 52) * (2 : K) ^ (e - 52) = x := div_mul_cancel₀ x (ne_of_gt hu)
  unfold roundDouble
  rw [if_neg (ne_of_gt hx)]
  simp only
  rw [abs_of_pos hx, log_two_eq x e h1 h2, if_pos hx, hhalf]
  constructor
  · have := mul_le_mul_of_nonneg_right b1 (le_of_lt hu)
    rw [sub_mul, hxu] at this
    linarith
  · have := mul_le_mul_of_nonneg_right b2 (le_of_lt hu)
    rw [add_mul, hxu] at this
    linarith

theorem doubleArith_div_zero_one : doubleArith.div 0 1 = 0 := by
  show roundDouble ((0 : ℝ) / 1) = 0
  rw [zero_div, roundDouble_zero]

/-- In doubles the quotient computed for a cell that is not above the viewer is not
positive. -/
theorem slopeIn_doubleArith_low (sc : Scene ℝ) (c : Int × Int)
    (h : sc.heightMap (c.1 + c.2 * sc.width) ≤ sc.viewerHeight) :
    slopeIn doubleArith sc c ≤ 0 := by
  show roundDouble (roundDouble (sc.heightMap (c.1 + c.2 * sc.width) - sc.viewerHeight)
    / roundDouble (Real.sqrt ((squaredDistance sc c : Int) : ℝ))) ≤ 0
  apply roundDouble_nonpos
  apply div_nonpos_of_nonpos_of_nonneg
  · exact roundDouble_nonpos _ (by linarith)
  · exact roundDouble_nonneg _ (Real.sqrt_nonneg _)

/-- A run of competing cells none of which beats the running best leaves it as it is. -/
theorem foldl_betterIn_keep {K : Type} [LinearOrderedField K] (A : JsArith K) (sc : Scene K) :
    ∀ (cand : List (Int × Int)) (s : Best K),
      (∀ c ∈ cand, slopeIn A sc c ≤ A.div s.bestHeight s.bestDistance) →
      cand.foldl (betterIn A sc) s = s := by
  intro cand
  induction cand with
  | nil => intro s _; rfl
  | cons c rest ih =>
    intro s h
    have hc : betterIn A sc s c = s := by
      unfold betterIn
      rw [if_neg (not_lt.mpr (h c (List.mem_cons_self c rest)))]
    rw [List.foldl_cons, hc]
    exact ih s (fun d hd => h d (List.mem_cons_of_mem c hd))

/-- The first competing cell whose computed quotient beats the start is recorded when no
later cell has a larger computed quotient. -/
theorem foldl_betterIn_first {K : Type} [LinearOrderedField K] (A : JsArith K) (sc : Scene K)
    (pre post : List (Int × Int)) (a : Int × Int) (s : Best K)
    (hpre : ∀ c ∈ pre, slopeIn A sc c ≤ A.div s.bestHeight s.bestDistance)
    (ha : A.div s.bestHeight s.bestDistance < slopeIn A sc a)
    (hpost : ∀ c ∈ post, slopeIn A sc c ≤ slopeIn A sc a) :
    (pre ++ a :: post).foldl (betterIn A sc) s
      = ⟨A.sub (sc.heightMap (a.1 + a.2 * sc.width)) sc.viewerHeight,
          A.sqrt ((squaredDistance sc a : Int) : K), a.1, a.2⟩ := by
  rw [List.foldl_append, foldl_betterIn_keep A sc pre s hpre, List.foldl_cons]
  have hstep : betterIn A sc s a
      = ⟨A.sub (sc.heightMap (a.1 + a.2 * sc.width)) sc.viewerHeight,
          A.sqrt ((squaredDistance sc a : Int) : K), a.1, a.2⟩ := by
    unfold betterIn
    rw [if_pos ha]
  rw [hstep]
  exact foldl_betterIn_keep A sc post _ hpost
/-- The double nearest to the square root of `k`, from bounds on `k` by squares. -/
theorem roundDouble_sqrt_eq (k : ℝ) (e n : Int) (h0 : (0 : ℝ) ≤ (n : ℝ) - 1 / 2)
    (h1 : ((2 : ℝ) ^ e) ^ 2 ≤ k) (h2 : k < ((2 : ℝ) ^ (e + 1)) ^ 2)
    (h3 : (((n : ℝ) - 1 / 2) * (2 : ℝ) ^ (e - 52)) ^ 2 < k)
    (h4 : k < (((n : ℝ) + 1 / 2) * (2 : ℝ) ^ (e - 52)) ^ 2) :
    roundDouble (Real.sqrt k) = (n : ℝ) * (2 : ℝ) ^ (e - 52) := by
  have hu : (0 : ℝ) < (2 : ℝ) ^ (e - 52) := zpow_pos (by norm_num) _
  apply roundDouble_eq
  · exact Real.le_sqrt_of_sq_le h1
  · rw [Real.sqrt_lt' (zpow_pos (by norm_num) _)]
    exact h2
  · rw [Real.lt_sqrt (mul_nonneg h0 (le_of_lt hu))]
    exact h3
  · rw [Real.sqrt_lt' (mul_pos (by linarith) hu)]
    exact h4

theorem stepAngle_doubleMath_three :
    stepAngle doubleMath 100 3 = 530567831402133 / 2814749767106560 := by
  simp only [stepAngle, lerp, doubleMath_PI]
  norm_num

theorem stepAngle_doubleMath_eighth :
    stepAngle doubleMath 8 1 = 884279719003555 / 1125899906842624 := by
  simp only [stepAngle, lerp, doubleMath_PI]
  norm_num

/-- Bounds on the cosine by its Taylor polynomial of degree 2. -/
theorem cos_taylor_bounds (a : ℝ) (ha : |a| ≤ 1) :
    1 - a ^ 2 / 2 ≤ Real.cos a ∧ Real.cos a ≤ 1 - a ^ 2 / 2 + |a| ^ 4 * (5 / 96) := by
  have h := abs_le.mp (Real.cos_bound ha)
  exact ⟨Real.one_sub_sq_div_two_le_cos, by linarith [h.2]⟩

/-- The ray of step 3 of 100 on the 27×6 map ends at `(53, 10)`. -/
theorem rayEnd_nearTieScene :
    rayEnd doubleMath (nearTieScene ℝ) (stepAngle doubleMath 100 3) = (53, 10) := by
  rw [stepAngle_doubleMath_three]
  set a : ℝ := 530567831402133 / 2814749767106560 with ha
  have ha0 : 0 < a := by rw [ha]; norm_num
  have ha1 : a ≤ 1 := by rw [ha]; norm_num
  have habs : |a| = a := abs_of_pos ha0
  obtain ⟨c1, c2⟩ := cos_taylor_bounds a (by rw [habs]; exact ha1)
  rw [habs] at c2
  have s1 : Real.sin a < a := Real.sin_lt ha0
  have s2 : a - a ^ 3 / 4 < Real.sin a := Real.sin_gt_sub_cube ha0 ha1
  have cl : (9822 : ℝ) / 10000 ≤ Real.cos a := by
    refine le_trans ?_ c1
    rw [ha]; norm_num
  have cu : Real.cos a ≤ (9824 : ℝ) / 10000 := by
    refine le_trans c2 ?_
    rw [ha]; norm_num
  have sl : (1867 : ℝ) / 10000 ≤ Real.sin a := by
    refine le_trans ?_ (le_of_lt s2)
    rw [ha]; norm_num
  have su : Real.sin a ≤ (1885 : ℝ) / 10000 := by
    refine le_trans (le_of_lt s1) ?_
    rw [ha]; norm_num
  obtain ⟨rc1, rc2⟩ := roundDouble_near (Real.cos a) (-1) (by norm_num; linarith)
    (by norm_num; linarith)
  obtain ⟨rs1, rs2⟩ := roundDouble_near (Real.sin a) (-3) (by norm_num; linarith)
    (by norm_num; linarith)
  norm_num at rc1 rc2 rs1 rs2
  have hx : toInt (roundDouble (Real.cos a) * ((54 : Int) : ℝ) + ((0 : Int) : ℝ)) = 53 := by
    have hv0 : 0 ≤ roundDouble (Real.cos a) * ((54 : Int) : ℝ) + ((0 : Int) : ℝ) := by
      push_cast; linarith
    rw [toInt_eq_floor _ hv0 (by push_cast; linarith), Int.floor_eq_iff]
    push_cast
    constructor <;> linarith
  have hy : toInt (roundDouble (Real.sin a) * ((54 : Int) : ℝ) + ((0 : Int) : ℝ)) = 10 := by
    have hv0 : 0 ≤ roundDouble (Real.sin a) * ((54 : Int) : ℝ) + ((0 : Int) : ℝ) := by
      push_cast; linarith
    rw [toInt_eq_floor _ hv0 (by push_cast; linarith), Int.floor_eq_iff]
    push_cast
    constructor <;> linarith
  have hd : (2 * max (nearTieScene ℝ).width (nearTieScene ℝ).height : Int) = 54 := by decide
  unfold rayEnd
  simp only
  rw [hd]
  exact Prod.ext hx hy
theorem candidates_nearTieScene :
    candidates (nearTieScene ℝ)
        (rayPath doubleMath (nearTieScene ℝ) (stepAngle doubleMath 100 3))
      = [(1, 0), (2, 0), (3, 1), (4, 1), (5, 1), (6, 1), (7, 1), (8, 2), (9, 2), (10, 2),
          (11, 2), (12, 2), (13, 2), (14, 3), (15, 3), (16, 3), (17, 3), (18, 3), (19, 4),
          (20, 4), (21, 4), (22, 4), (23, 4)] ++ (24, 5) :: [(25, 5), (26, 5)] := by
  unfold rayPath
  rw [rayEnd_nearTieScene]
  decide

/-- In doubles the quotients computed for the cells `(24, 5)` and `(26, 5)` of the 27×6
map are the same number, `0x1.b4519638fb6dbp-7`. -/
theorem slopeIn_nearTieScene :
    slopeIn doubleArith (nearTieScene ℝ) (24, 5) = 7675799718049499 / 2 ^ 59 ∧
      slopeIn doubleArith (nearTieScene ℝ) (26, 5) = 7675799718049499 / 2 ^ 59 := by
  have ha : roundDouble ((1 : ℝ) / 2 + 5476600 / 16777216 - 1 / 2) = 5476600 / 16777216 := by
    rw [roundDouble_eq _ (-2) 5880454473318400 (by norm_num) (by norm_num) (by norm_num)
      (by norm_num)]
    norm_num
  have hb : roundDouble ((1 : ℝ) / 2 + 5914701 / 16777216 - 1 / 2) = 5914701 / 16777216 := by
    rw [roundDouble_eq _ (-2) 6350861840154624 (by norm_num) (by norm_num) (by norm_num)
      (by norm_num)]
    norm_num
  have sa : roundDouble (Real.sqrt (((601 : Int) : ℝ))) = 6900443874931008 / 2 ^ 48 := by
    rw [roundDouble_sqrt_eq _ 4 6900443874931008 (by norm_num) (by norm_num) (by norm_num)
      (by norm_num) (by norm_num)]
    norm_num
  have sb : roundDouble (Real.sqrt (((701 : Int) : ℝ))) = 7452445365281070 / 2 ^ 48 := by
    rw [roundDouble_sqrt_eq _ 4 7452445365281070 (by norm_num) (by norm_num) (by norm_num)
      (by norm_num) (by norm_num)]
    norm_num
  have qa : roundDouble ((5476600 / 16777216 : ℝ) / (6900443874931008 / 2 ^ 48))
      = 7675799718049499 / 2 ^ 59 := by
    rw [roundDouble_eq _ (-7) 7675799718049499 (by norm_num) (by norm_num) (by norm_num)
      (by norm_num)]
    norm_num
  have qb : roundDouble ((5914701 / 16777216 : ℝ) / (7452445365281070 / 2 ^ 48))
      = 7675799718049499 / 2 ^ 59 := by
    rw [roundDouble_eq _ (-7) 7675799718049499 (by norm_num) (by norm_num) (by norm_num)
      (by norm_num)]
    norm_num
  constructor
  · show roundDouble (roundDouble ((nearTieScene ℝ).heightMap (24 + 5 * 27) - 1 / 2)
      / roundDouble (Real.sqrt (((601 : Int) : ℝ)))) = _
    have hh : (nearTieScene ℝ).heightMap (24 + 5 * 27) = 1 / 2 + 5476600 / 16777216 := by
      simp [nearTieScene]
    rw [hh, ha, sa, qa]
  · show roundDouble (roundDouble ((nearTieScene ℝ).heightMap (26 + 5 * 27) - 1 / 2)
      / roundDouble (Real.sqrt (((701 : Int) : ℝ)))) = _
    have hh : (nearTieScene ℝ).heightMap (26 + 5 * 27) = 1 / 2 + 5914701 / 16777216 := by
      simp [nearTieScene]
    rw [hh, hb, sb, qb]

/-- The exact slopes of the two cells: that of `(24, 5)` is positive and strictly below
that of `(26, 5)` (`5476600²·701 = 5914701²·601 - 1`). -/
theorem slopeAt_nearTieScene :
    0 < slopeAt realMath (nearTieScene ℝ) (24, 5) ∧
      slopeAt realMath (nearTieScene ℝ) (24, 5) < slopeAt realMath (nearTieScene ℝ) (26, 5) := by
  have ea : slopeAt realMath (nearTieScene ℝ) (24, 5)
      = (5476600 / 16777216) / Real.sqrt 601 := by
    simp [slopeAt, planarDistance, realMath, nearTieScene]
  have eb : slopeAt realMath (nearTieScene ℝ) (26, 5)
      = (5914701 / 16777216) / Real.sqrt 701 := by
    simp [slopeAt, planarDistance, realMath, nearTieScene]
  have p1 : (0 : ℝ) < Real.sqrt 601 := Real.sqrt_pos.mpr (by norm_num)
  have p2 : (0 : ℝ) < Real.sqrt 701 := Real.sqrt_pos.mpr (by norm_num)
  rw [ea, eb]
  refine ⟨div_pos (by norm_num) p1, ?_⟩
  rw [div_lt_div_iff₀ p1 p2]
  have k1 : (5476600 / 16777216 : ℝ) * Real.sqrt 701
      = Real.sqrt ((5476600 / 16777216) ^ 2 * 701) := by
    rw [Real.sqrt_mul (by positivity), Real.sqrt_sq (by norm_num)]
  have k2 : (5914701 / 16777216 : ℝ) * Real.sqrt 601
      = Real.sqrt ((5914701 / 16777216) ^ 2 * 601) := by
    rw [Real.sqrt_mul (by positivity), Real.sqrt_sq (by norm_num)]
  rw [k1, k2]
  apply Real.sqrt_lt_sqrt (by positivity)
  norm_num

/-- The sample of the ray of step 3 of 100 on the 27×6 map, in doubles: the cell
`(24, 5)`. -/
theorem raySampleIn_nearTieScene :
    raySampleIn doubleArith doubleMath (nearTieScene ℝ) (stepAngle doubleMath 100 3)
      = (24, 5, 5476600 / 16777216) := by
  obtain ⟨qa, qb⟩ := slopeIn_nearTieScene
  have low : ∀ c : Int × Int, c.1 + c.2 * 27 ≠ 159 → c.1 + c.2 * 27 ≠ 161 →
      slopeIn doubleArith (nearTieScene ℝ) c ≤ 0 := by
    intro c h1 h2
    apply slopeIn_doubleArith_low
    show (nearTieScene ℝ).heightMap (c.1 + c.2 * 27) ≤ 1 / 2
    simp only [nearTieScene, if_neg h1, if_neg h2]
    norm_num
  have hpos : (0 : ℝ) < 7675799718049499 / 2 ^ 59 := by norm_num
  have hinit : doubleArith.div (Best.init (nearTieScene ℝ)).bestHeight
      (Best.init (nearTieScene ℝ)).bestDistance = 0 := doubleArith_div_zero_one
  have hfold := foldl_betterIn_first doubleArith (nearTieScene ℝ)
    [(1, 0), (2, 0), (3, 1), (4, 1), (5, 1), (6, 1), (7, 1), (8, 2), (9, 2), (10, 2),
      (11, 2), (12, 2), (13, 2), (14, 3), (15, 3), (16, 3), (17, 3), (18, 3), (19, 4),
      (20, 4), (21, 4), (22, 4), (23, 4)] [(25, 5), (26, 5)] (24, 5)
    (Best.init (nearTieScene ℝ))
    (by
      intro c hc
      rw [hinit]
      have hall : ([(1, 0), (2, 0), (3, 1), (4, 1), (5, 1), (6, 1), (7, 1), (8, 2), (9, 2),
          (10, 2), (11, 2), (12, 2), (13, 2), (14, 3), (15, 3), (16, 3), (17, 3), (18, 3),
          (19, 4), (20, 4), (21, 4), (22, 4), (23, 4)] : List (Int × Int)).all
          (fun c => decide (c.1 + c.2 * 27 ≠ 159 ∧ c.1 + c.2 * 27 ≠ 161)) = true := by decide
      have := List.all_eq_true.mp hall c hc
      simp only [decide_eq_true_eq] at this
      exact low c this.1 this.2)
    (by rw [hinit, qa]; exact hpos)
    (by
      intro c hc
      simp only [List.mem_cons, List.mem_singleton, List.not_mem_nil, or_false] at hc
      rcases hc with rfl | rfl
      · rw [qa]
        exact le_trans (low (25, 5) (by decide) (by decide)) (le_of_lt hpos)
      · rw [qa, qb])
  unfold raySampleIn
  simp only
  rw [candidates_nearTieScene, hfold]
  have ha : roundDouble ((1 : ℝ) / 2 + 5476600 / 16777216 - 1 / 2) = 5476600 / 16777216 := by
    rw [roundDouble_eq _ (-2) 5880454473318400 (by norm_num) (by norm_num) (by norm_num)
      (by norm_num)]
    norm_num
  have hh : (nearTieScene ℝ).heightMap (24 + 5 * 27) = 1 / 2 + 5476600 / 16777216 := by
    simp [nearTieScene]
  show ((24 : Int), (5 : Int),
    roundDouble ((nearTieScene ℝ).heightMap (24 + 5 * 27) - 1 / 2)) = _
  rw [hh, ha]
/-- The ray of step 1 of 8 (angle `Math.PI/4`) on the 4×4 map ends at `(5, 5)`. -/
theorem rayEnd_diagonalScene :
    rayEnd doubleMath (diagonalScene ℝ) (stepAngle doubleMath 8 1) = (5, 5) := by
  rw [stepAngle_doubleMath_eighth]
  set a : ℝ := 884279719003555 / 1125899906842624 with ha
  have ha0 : 0 < a := by rw [ha]; norm_num
  have ha1 : a ≤ 1 := by rw [ha]; norm_num
  have habs : |a| = a := abs_of_pos ha0
  obtain ⟨c1, c2⟩ := cos_taylor_bounds a (by rw [habs]; exact ha1)
  rw [habs] at c2
  have s2 : a - a ^ 3 / 4 < Real.sin a := Real.sin_gt_sub_cube ha0 ha1
  have s3 := (abs_le.mp (Real.sin_bound (by rw [habs]; exact ha1 : |a| ≤ 1))).2
  rw [habs] at s3
  have cl : (69 : ℝ) / 100 ≤ Real.cos a := by
    refine le_trans ?_ c1
    rw [ha]; norm_num
  have cu : Real.cos a ≤ (72 : ℝ) / 100 := by
    refine le_trans c2 ?_
    rw [ha]; norm_num
  have sl : (66 : ℝ) / 100 ≤ Real.sin a := by
    refine le_trans ?_ (le_of_lt s2)
    rw [ha]; norm_num
  have su : Real.sin a ≤ (73 : ℝ) / 100 := by
    have : Real.sin a ≤ a - a ^ 3 / 6 + a ^ 4 * (5 / 96) := by linarith
    refine le_trans this ?_
    rw [ha]; norm_num
  obtain ⟨rc1, rc2⟩ := roundDouble_near (Real.cos a) (-1) (by norm_num; linarith)
    (by norm_num; linarith)
  obtain ⟨rs1, rs2⟩ := roundDouble_near (Real.sin a) (-1) (by norm_num; linarith)
    (by norm_num; linarith)
  norm_num at rc1 rc2 rs1 rs2
  have hx : toInt (roundDouble (Real.cos a) * ((8 : Int) : ℝ) + ((0 : Int) : ℝ)) = 5 := by
    have hv0 : 0 ≤ roundDouble (Real.cos a) * ((8 : Int) : ℝ) + ((0 : Int) : ℝ) := by
      push_cast; linarith
    rw [toInt_eq_floor _ hv0 (by push_cast; linarith), Int.floor_eq_iff]
    push_cast
    constructor <;> linarith
  have hy : toInt (roundDouble (Real.sin a) * ((8 : Int) : ℝ) + ((0 : Int) : ℝ)) = 5 := by
    have hv0 : 0 ≤ roundDouble (Real.sin a) * ((8 : Int) : ℝ) + ((0 : Int) : ℝ) := by
      push_cast; linarith
    rw [toInt_eq_floor _ hv0 (by push_cast; linarith), Int.floor_eq_iff]
    push_cast
    constructor <;> linarith
  have hd : (2 * max (diagonalScene ℝ).width (diagonalScene ℝ).height : Int) = 8 := by decide
  unfold rayEnd
  simp only
  rw [hd]
  exact Prod.ext hx hy

theorem candidates_diagonalScene :
    candidates (diagonalScene ℝ)
        (rayPath doubleMath (diagonalScene ℝ) (stepAngle doubleMath 8 1))
      = [(1, 1), (2, 2), (3, 3)] := by
  unfold rayPath
  rw [rayEnd_diagonalScene]
  decide

/-- In doubles the quotients computed for the three diagonal cells of the 4×4 map: the
first two are `0x1.6a09e667f3bccp-4`, the third is one unit in the last place larger. -/
theorem slopeIn_diagonalScene :
    slopeIn doubleArith (diagonalScene ℝ) (1, 1) = 6369051672525772 / 2 ^ 56 ∧
      slopeIn doubleArith (diagonalScene ℝ) (2, 2) = 6369051672525772 / 2 ^ 56 ∧
      slopeIn doubleArith (diagonalScene ℝ) (3, 3) = 6369051672525773 / 2 ^ 56 := by
  have h1 : roundDouble ((5 : ℝ) / 8 - 1 / 2) = 1 / 8 := by
    rw [roundDouble_eq _ (-3) (2 ^ 52) (by norm_num) (by norm_num) (by norm_num)
      (by norm_num)]
    norm_num
  have h2 : roundDouble ((3 : ℝ) / 4 - 1 / 2) = 1 / 4 := by
    rw [roundDouble_eq _ (-2) (2 ^ 52) (by norm_num) (by norm_num) (by norm_num)
      (by norm_num)]
    norm_num
  have h3 : roundDouble ((7 : ℝ) / 8 - 1 / 2) = 3 / 8 := by
    rw [roundDouble_eq _ (-2) 6755399441055744 (by norm_num) (by norm_num) (by norm_num)
      (by norm_num)]
    norm_num
  have s1 : roundDouble (Real.sqrt (((2 : Int) : ℝ))) = 6369051672525773 / 2 ^ 52 := by
    rw [roundDouble_sqrt_eq _ 0 6369051672525773 (by norm_num) (by norm_num) (by norm_num)
      (by norm_num) (by norm_num)]
    norm_num
  have s2 : roundDouble (Real.sqrt (((8 : Int) : ℝ))) = 6369051672525773 / 2 ^ 51 := by
    rw [roundDouble_sqrt_eq _ 1 6369051672525773 (by norm_num) (by norm_num) (by norm_num)
      (by norm_num) (by norm_num)]
    norm_num
  have s3 : roundDouble (Real.sqrt (((18 : Int) : ℝ))) = 4776788754394329 / 2 ^ 50 := by
    rw [roundDouble_sqrt_eq _ 2 4776788754394329 (by norm_num) (by norm_num) (by norm_num)
      (by norm_num) (by norm_num)]
    norm_num
  have q1 : roundDouble ((1 / 8 : ℝ) / (6369051672525773 / 2 ^ 52))
      = 6369051672525772 / 2 ^ 56 := by
    rw [roundDouble_eq _ (-4) 6369051672525772 (by norm_num) (by norm_num) (by norm_num)
      (by norm_num)]
    norm_num
  have q2 : roundDouble ((1 / 4 : ℝ) / (6369051672525773 / 2 ^ 51))
      = 6369051672525772 / 2 ^ 56 := by
    rw [roundDouble_eq _ (-4) 6369051672525772 (by norm_num) (by norm_num) (by norm_num)
      (by norm_num)]
    norm_num
  have q3 : roundDouble ((3 / 8 : ℝ) / (4776788754394329 / 2 ^ 50))
      = 6369051672525773 / 2 ^ 56 := by
    rw [roundDouble_eq _ (-4) 6369051672525773 (by norm_num) (by norm_num) (by norm_num)
      (by norm_num)]
    norm_num
  refine ⟨?_, ?_, ?_⟩
  · show roundDouble (roundDouble ((diagonalScene ℝ).heightMap (1 + 1 * 4) - 1 / 2)
      / roundDouble (Real.sqrt (((2 : Int) : ℝ)))) = _
    have hh : (diagonalScene ℝ).heightMap (1 + 1 * 4) = 5 / 8 := by simp [diagonalScene]
    rw [hh, h1, s1, q1]
  · show roundDouble (roundDouble ((diagonalScene ℝ).heightMap (2 + 2 * 4) - 1 / 2)
      / roundDouble (Real.sqrt (((8 : Int) : ℝ)))) = _
    have hh : (diagonalScene ℝ).heightMap (2 + 2 * 4) = 3 / 4 := by simp [diagonalScene]
    rw [hh, h2, s2, q2]
  · show roundDouble (roundDouble ((diagonalScene ℝ).heightMap (3 + 3 * 4) - 1 / 2)
      / roundDouble (Real.sqrt (((18 : Int) : ℝ)))) = _
    have hh : (diagonalScene ℝ).heightMap (3 + 3 * 4) = 7 / 8 := by simp [diagonalScene]
    rw [hh, h3, s3, q3]

/-- The exact slopes of the three diagonal cells are equal and positive. -/
theorem slopeAt_diagonalScene :
    slopeAt realMath (diagonalScene ℝ) (1, 1) = 1 / 8 / Real.sqrt 2 ∧
      slopeAt realMath (diagonalScene ℝ) (2, 2) = 1 / 8 / Real.sqrt 2 ∧
      slopeAt realMath (diagonalScene ℝ) (3, 3) = 1 / 8 / Real.sqrt 2 ∧
      (0 : ℝ) < 1 / 8 / Real.sqrt 2 := by
  have p2 : (0 : ℝ) < Real.sqrt 2 := Real.sqrt_pos.mpr (by norm_num)
  have r8 : Real.sqrt 8 = 2 * Real.sqrt 2 := by
    rw [show (8 : ℝ) = 2 ^ 2 * 2 by norm_num, Real.sqrt_mul (by positivity),
      Real.sqrt_sq (by norm_num)]
  have r18 : Real.sqrt 18 = 3 * Real.sqrt 2 := by
    rw [show (18 : ℝ) = 3 ^ 2 * 2 by norm_num, Real.sqrt_mul (by positivity),
      Real.sqrt_sq (by norm_num)]
  refine ⟨?_, ?_, ?_, div_pos (by norm_num) p2⟩
  · simp [slopeAt, planarDistance, realMath, diagonalScene]
    norm_num
  · simp [slopeAt, planarDistance, realMath, diagonalScene]
    norm_num
    rw [r8]
    field_simp
    ring
  · simp [slopeAt, planarDistance, realMath, diagonalScene]
    norm_num
    rw [r18]
    field_simp
    ring

/-- The sample of the diagonal ray on the 4×4 map, in doubles: the farthest of the three
cells, `(3, 3)`. -/
theorem raySampleIn_diagonalScene :
    raySampleIn doubleArith doubleMath (diagonalScene ℝ) (stepAngle doubleMath 8 1)
      = (3, 3, 3 / 8) := by
  obtain ⟨q1, q2, q3⟩ := slopeIn_diagonalScene
  have hinit : doubleArith.div (Best.init (diagonalScene ℝ)).bestHeight
      (Best.init (diagonalScene ℝ)).bestDistance = 0 := doubleArith_div_zero_one
  have hstep1 : betterIn doubleArith (diagonalScene ℝ) (Best.init (diagonalScene ℝ)) (1, 1)
      = ⟨doubleArith.sub ((diagonalScene ℝ).heightMap (1 + 1 * 4)) (1 / 2),
          doubleArith.sqrt ((squaredDistance (diagonalScene ℝ) (1, 1) : Int) : ℝ), 1, 1⟩ := by
    unfold betterIn
    rw [if_pos (by rw [hinit, q1]; norm_num)]
    rfl
  have hquot1 : doubleArith.div
      (doubleArith.sub ((diagonalScene ℝ).heightMap (1 + 1 * 4)) (1 / 2))
      (doubleArith.sqrt ((squaredDistance (diagonalScene ℝ) (1, 1) : Int) : ℝ))
      = 6369051672525772 / 2 ^ 56 := q1
  have hstep2 : betterIn doubleArith (diagonalScene ℝ)
      ⟨doubleArith.sub ((diagonalScene ℝ).heightMap (1 + 1 * 4)) (1 / 2),
        doubleArith.sqrt ((squaredDistance (diagonalScene ℝ) (1, 1) : Int) : ℝ), 1, 1⟩ (2, 2)
      = ⟨doubleArith.sub ((diagonalScene ℝ).heightMap (1 + 1 * 4)) (1 / 2),
          doubleArith.sqrt ((squaredDistance (diagonalScene ℝ) (1, 1) : Int) : ℝ), 1, 1⟩ := by
    unfold betterIn
    rw [if_neg]
    simp only
    rw [hquot1, q2]
    exact lt_irrefl _
  have hstep3 : betterIn doubleArith (diagonalScene ℝ)
      ⟨doubleArith.sub ((diagonalScene ℝ).heightMap (1 + 1 * 4)) (1 / 2),
        doubleArith.sqrt ((squaredDistance (diagonalScene ℝ) (1, 1) : Int) : ℝ), 1, 1⟩ (3, 3)
      = ⟨doubleArith.sub ((diagonalScene ℝ).heightMap (3 + 3 * 4)) (1 / 2),
          doubleArith.sqrt ((squaredDistance (diagonalScene ℝ) (3, 3) : Int) : ℝ), 3, 3⟩ := by
    unfold betterIn
    rw [if_pos]
    · rfl
    · simp only
      rw [hquot1, q3]
      norm_num
  have h3 : roundDouble ((7 : ℝ) / 8 - 1 / 2) = 3 / 8 := by
    rw [roundDouble_eq _ (-2) 6755399441055744 (by norm_num) (by norm_num) (by norm_num)
      (by norm_num)]
    norm_num
  have hh : (diagonalScene ℝ).heightMap (3 + 3 * 4) = 7 / 8 := by simp [diagonalScene]
  unfold raySampleIn
  simp only
  rw [candidates_diagonalScene]
  simp only [List.foldl_cons, List.foldl_nil]
  rw [hstep1, hstep2, hstep3]
  show ((3 : Int), (3 : Int), roundDouble ((diagonalScene ℝ).heightMap (3 + 3 * 4) - 1 / 2)) = _
  rw [hh, h3]
theorem rayEnd_evenScene : rayEnd doubleMath (evenScene ℝ) 0 = (6, 0) := by
  rw [rayEnd_doubleMath_zero _ (by decide) (by decide), toInt_intCast_wrap]
  decide

/-- On the 3×1 map with the heights 0.75 and 1 the two competing cells have the same
computed quotient 0.25 in doubles, and the ray for angle 0 records the first, `(1, 0)`. -/
theorem raySampleIn_evenScene :
    candidates (evenScene ℝ) (rayPath doubleMath (evenScene ℝ) 0) = [(1, 0), (2, 0)] ∧
      slopeIn doubleArith (evenScene ℝ) (1, 0) = 1 / 4 ∧
      slopeIn doubleArith (evenScene ℝ) (2, 0) = 1 / 4 ∧
      raySampleIn doubleArith doubleMath (evenScene ℝ) 0 = (1, 0, 1 / 4) := by
  have hc : candidates (evenScene ℝ) (rayPath doubleMath (evenScene ℝ) 0)
      = [] ++ (1, 0) :: [(2, 0)] := by
    unfold rayPath
    rw [rayEnd_evenScene]
    decide
  have h1 : roundDouble ((3 : ℝ) / 4 - 1 / 2) = 1 / 4 := by
    rw [roundDouble_eq _ (-2) (2 ^ 52) (by norm_num) (by norm_num) (by norm_num)
      (by norm_num)]
    norm_num
  have h2 : roundDouble ((1 : ℝ) - 1 / 2) = 1 / 2 := by
    rw [roundDouble_eq _ (-1) (2 ^ 52) (by norm_num) (by norm_num) (by norm_num)
      (by norm_num)]
    norm_num
  have s1 : roundDouble (Real.sqrt (((1 : Int) : ℝ))) = 1 := by
    rw [Int.cast_one, Real.sqrt_one, roundDouble_one]
  have s2 : roundDouble (Real.sqrt (((4 : Int) : ℝ))) = 2 := by
    have : ((4 : Int) : ℝ) = 4 := by norm_num
    rw [this, sqrt_four,
      roundDouble_eq _ 1 (2 ^ 52) (by norm_num) (by norm_num) (by norm_num) (by norm_num)]
    norm_num
  have q1 : roundDouble ((1 / 4 : ℝ) / 1) = 1 / 4 := by
    rw [roundDouble_eq _ (-2) (2 ^ 52) (by norm_num) (by norm_num) (by norm_num)
      (by norm_num)]
    norm_num
  have q2 : roundDouble ((1 / 2 : ℝ) / 2) = 1 / 4 := by
    rw [roundDouble_eq _ (-2) (2 ^ 52) (by norm_num) (by norm_num) (by norm_num)
      (by norm_num)]
    norm_num
  have e1 : slopeIn doubleArith (evenScene ℝ) (1, 0) = 1 / 4 := by
    show roundDouble (roundDouble ((evenScene ℝ).heightMap (1 + 0 * 3) - 1 / 2)
      / roundDouble (Real.sqrt (((1 : Int) : ℝ)))) = _
    have hh : (evenScene ℝ).heightMap (1 + 0 * 3) = 3 / 4 := by simp [evenScene]
    rw [hh, h1, s1, q1]
  have e2 : slopeIn doubleArith (evenScene ℝ) (2, 0) = 1 / 4 := by
    show roundDouble (roundDouble ((evenScene ℝ).heightMap (2 + 0 * 3) - 1 / 2)
      / roundDouble (Real.sqrt (((4 : Int) : ℝ)))) = _
    have hh : (evenScene ℝ).heightMap (2 + 0 * 3) = 1 := by simp [evenScene]
    rw [hh, h2, s2, q2]
  have hinit : doubleArith.div (Best.init (evenScene ℝ)).bestHeight
      (Best.init (evenScene ℝ)).bestDistance = 0 := doubleArith_div_zero_one
  have hfold := foldl_betterIn_first doubleArith (evenScene ℝ) [] [(2, 0)] (1, 0)
    (Best.init (evenScene ℝ)) (by simp) (by rw [hinit, e1]; norm_num)
    (by
      intro c hc
      simp only [List.mem_singleton] at hc
      subst hc
      rw [e1, e2])
  refine ⟨by rw [hc]; rfl, e1, e2, ?_⟩
  unfold raySampleIn
  simp only
  rw [hc, hfold]
  show ((1 : Int), (0 : Int), roundDouble ((evenScene ℝ).heightMap (1 + 0 * 3) - 1 / 2)) = _
  have hh : (evenScene ℝ).heightMap (1 + 0 * 3) = 3 / 4 := by simp [evenScene]
  rw [hh, h1]

theorem castRayIn_evenScene :
    candidates (evenScene ℝ) (rayPath doubleMath (evenScene ℝ) 0) = [(1, 0), (2, 0)] ∧
      slopeIn doubleArith (evenScene ℝ) (1, 0) = 1 / 4 ∧
      slopeIn doubleArith (evenScene ℝ) (2, 0) = 1 / 4 ∧
      castRayIn doubleArith doubleMath (2 ^ 32 + 1) (evenScene ℝ) 0 = some (1, 0, 1 / 4) := by
  obtain ⟨h1, h2, h3, h4⟩ := raySampleIn_evenScene
  refine ⟨h1, h2, h3, ?_⟩
  rw [(castRayIn_eq_of_rayFuel doubleArith doubleMath (2 ^ 32 + 1) (evenScene ℝ) 0
    (by decide)).2, h4]

/-! ## Claims -/

/-- C1: for all integer endpoints and a visitor that never requests a stop,
`bresenhamLine` returns (any fuel from the two axis lengths plus one on suffices), the
first cell it visits is `(x0, y0)` and the last cell it visits is `(x1, y1)`. -/
theorem bresenhamLine_first_and_last (x0 y0 x1 y1 : Int) (fuel : Nat)
    (hfuel : (x1 - x0).natAbs + (y1 - y0).natAbs + 1 ≤ fuel) :
    ∃ cells, visitedCells fuel x0 y0 x1 y1 neverStop = some cells ∧
      cells.head? = some (x0, y0) ∧ cells.getLast? = some (x1, y1) := by
  refine ⟨lineCells x0 y0 x1 y1, ?_, lineCells_head x0 y0 x1 y1, lineCells_getLast x0 y0 x1 y1⟩
  rw [visitedCells_eq fuel x0 y0 x1 y1 neverStop hfuel, cutAfterFirst_neverStop]

theorem bresenhamLine_first_and_last_witness :
    ∃ cells, visitedCells 8 0 0 3 4 neverStop = some cells ∧
      cells.head? = some (0, 0) ∧ cells.getLast? = some (3, 4) :=
  bresenhamLine_first_and_last 0 0 3 4 8 (by decide)

/-- C2: for all integer endpoints (and every visitor), in the sequence of cells
`bresenhamLine` visits each cell differs from the previous one by at most 1 in x and at
most 1 in y and is on neither axis farther from `(x1, y1)`, and no cell occurs twice; and
the line from `(0, 0)` to `(5, 0)` visits `(0,0), (1,0), (2,0), (3,0), (4,0), (5,0)` in
that order. -/
theorem bresenhamLine_steps_monotone_nodup :
    (∀ (x0 y0 x1 y1 : Int) (visit : Int → Int → Bool) (fuel : Nat),
      (x1 - x0).natAbs + (y1 - y0).natAbs + 1 ≤ fuel →
      ∃ cells, visitedCells fuel x0 y0 x1 y1 visit = some cells ∧
        List.Chain' (fun p q => |q.1 - p.1| ≤ 1 ∧ |q.2 - p.2| ≤ 1 ∧
          |x1 - q.1| ≤ |x1 - p.1| ∧ |y1 - q.2| ≤ |y1 - p.2|) cells ∧
        cells.Nodup) ∧
    (∀ fuel : Nat, 6 ≤ fuel →
      visitedCells fuel 0 0 5 0 neverStop
        = some [(0, 0), (1, 0), (2, 0), (3, 0), (4, 0), (5, 0)]) := by
  constructor
  · intro x0 y0 x1 y1 visit fuel hfuel
    refine ⟨_, visitedCells_eq fuel x0 y0 x1 y1 visit hfuel, ?_, ?_⟩
    · exact List.Chain'.prefix (lineCells_chain x0 y0 x1 y1) (cutAfterFirst_initial visit _)
    · exact (lineCells_nodup x0 y0 x1 y1).sublist (cutAfterFirst_initial visit _).sublist
  · intro fuel hfuel
    rw [visitedCells_eq fuel 0 0 5 0 neverStop hfuel, cutAfterFirst_neverStop]
    decide

theorem bresenhamLine_steps_monotone_nodup_witness :
    (∃ cells, visitedCells 8 0 0 3 4 neverStop = some cells ∧
        List.Chain' (fun p q => |q.1 - p.1| ≤ 1 ∧ |q.2 - p.2| ≤ 1 ∧
          |(3 : Int) - q.1| ≤ |3 - p.1| ∧ |(4 : Int) - q.2| ≤ |4 - p.2|) cells ∧
        cells.Nodup) ∧
    visitedCells 6 0 0 5 0 neverStop
        = some [(0, 0), (1, 0), (2, 0), (3, 0), (4, 0), (5, 0)] :=
  ⟨bresenhamLine_steps_monotone_nodup.1 0 0 3 4 neverStop 8 (by decide),
   bresenhamLine_steps_monotone_nodup.2 6 (by decide)⟩

/-- C3: for all integer endpoints and every visitor predicate, the sequence of cells
`bresenhamLine` visits is the sequence visited with a never-stopping visitor cut
immediately after the first cell at which the visitor returns true: it is a prefix of
that sequence, the visitor returns false on every cell but the last, and it is either the
whole sequence or ends with a cell on which the visitor returns true. -/
theorem bresenhamLine_stops_at_first_request (x0 y0 x1 y1 : Int)
    (visit : Int → Int → Bool) (fuel : Nat)
    (hfuel : (x1 - x0).natAbs + (y1 - y0).natAbs + 1 ≤ fuel) :
    ∃ full cells, visitedCells fuel x0 y0 x1 y1 neverStop = some full ∧
      visitedCells fuel x0 y0 x1 y1 visit = some cells ∧
      cells = cutAfterFirst visit full ∧
      cells <+: full ∧
      (∀ c ∈ cells.dropLast, visit c.1 c.2 = false) ∧
      (cells = full ∨ ∃ c, cells.getLast? = some c ∧ visit c.1 c.2 = true) := by
  refine ⟨lineCells x0 y0 x1 y1, cutAfterFirst visit (lineCells x0 y0 x1 y1), ?_,
    visitedCells_eq fuel x0 y0 x1 y1 visit hfuel, rfl, cutAfterFirst_initial _ _,
    cutAfterFirst_dropLast _ _, cutAfterFirst_last _ _⟩
  rw [visitedCells_eq fuel x0 y0 x1 y1 neverStop hfuel, cutAfterFirst_neverStop]

theorem bresenhamLine_stops_at_first_request_witness :
    ∃ full cells, visitedCells 8 0 0 3 4 neverStop = some full ∧
      visitedCells 8 0 0 3 4 (fun x _ => decide (x = 1)) = some cells ∧
      cells = cutAfterFirst (fun x _ => decide (x = 1)) full ∧
      cells <+: full ∧
      (∀ c ∈ cells.dropLast, (fun x (_ : Int) => decide (x = 1)) c.1 c.2 = false) ∧
      (cells = full ∨
        ∃ c, cells.getLast? = some c ∧ (fun x (_ : Int) => decide (x = 1)) c.1 c.2 = true) :=
  bresenhamLine_stops_at_first_request 0 0 3 4 (fun x _ => decide (x = 1)) 8 (by decide)

/-- C4, as the claim states it, fails: the visitor compares quotients computed in
doubles. On the 27×6 map whose cells `(24, 5)` and `(26, 5)` hold `0.5 + 5476600/2^24`
and `0.5 + 5914701/2^24`, seen from `(0, 0)` at eye height 0.5, the ray of step 3 of 100
ends at `(53, 10)` and visits both cells. The slope `(heightAt − eyeHeight)/distance` of
`(26, 5)` is the larger one, but in doubles both quotients are the same number, so the
strict comparison keeps `(24, 5)`: the recorded cell does not attain the maximum. -/
theorem recorded_cell_below_exact_maximum :
    rayEnd doubleMath (nearTieScene ℝ) (stepAngle doubleMath 100 3) = (53, 10) ∧
    ∃ cells, rayCells doubleMath 64 (nearTieScene ℝ) (stepAngle doubleMath 100 3) = some cells ∧
      castRayIn doubleArith doubleMath 64 (nearTieScene ℝ) (stepAngle doubleMath 100 3)
        = some (24, 5, 5476600 / 16777216) ∧
      (24, 5) ∈ candidates (nearTieScene ℝ) cells ∧
      (26, 5) ∈ candidates (nearTieScene ℝ) cells ∧
      slopeIn doubleArith (nearTieScene ℝ) (24, 5) = slopeIn doubleArith (nearTieScene ℝ) (26, 5) ∧
      0 < slopeAt realMath (nearTieScene ℝ) (24, 5) ∧
      slopeAt realMath (nearTieScene ℝ) (24, 5) < slopeAt realMath (nearTieScene ℝ) (26, 5) := by
  obtain ⟨hcells, hsample⟩ := castRayIn_eq doubleArith doubleMath 64 (nearTieScene ℝ)
    (stepAngle doubleMath 100 3) (by rw [rayEnd_nearTieScene]; decide)
  refine ⟨rayEnd_nearTieScene, _, hcells, ?_, ?_, ?_, ?_, slopeAt_nearTieScene.1,
    slopeAt_nearTieScene.2⟩
  · rw [hsample, raySampleIn_nearTieScene]
  · rw [candidates_nearTieScene]; simp
  · rw [candidates_nearTieScene]; simp
  · rw [slopeIn_nearTieScene.1, slopeIn_nearTieScene.2]

/-- C4, amended: for every height map, viewpoint, eye height and angle, and in every
arithmetic whose quotient `0/1` is 0 (that of the doubles, and the exact one), the ray
returns (any fuel from `2^32 + |xStart| + |yStart| + 1` on), and among the competing cells
(the visited cells inside the height map other than the viewpoint; the traversal stops
at the first cell outside) the recorded cell attains the maximum of the quotient
`currentHeight/currentDistance` as the visitor computes it whenever some competing cell
has a positive computed quotient; when none has, the sample stays at the start values
`(xStart, yStart, 0)`. -/
theorem castRayIn_records_maximal_computed_slope {K : Type} [LinearOrderedField K]
    [FloorRing K] (A : JsArith K) (hdiv : A.div 0 1 = 0) (M : JsMath K) (sc : Scene K)
    (angle : K) (fuel : Nat)
    (hfuel : 2 ^ 32 + sc.xStart.natAbs + sc.yStart.natAbs + 1 ≤ fuel) :
    ∃ cells sample, rayCells M fuel sc angle = some cells ∧
      castRayIn A M fuel sc angle = some sample ∧
      ((∃ c ∈ candidates sc cells, 0 < slopeIn A sc c) →
        (sample.1, sample.2.1) ∈ candidates sc cells ∧
        ∀ c ∈ candidates sc cells,
          slopeIn A sc c ≤ slopeIn A sc (sample.1, sample.2.1)) ∧
      ((∀ c ∈ candidates sc cells, slopeIn A sc c ≤ 0) →
        sample = (sc.xStart, sc.yStart, 0)) := by
  obtain ⟨hcells, hsample⟩ := castRayIn_eq_of_rayFuel A M fuel sc angle hfuel
  refine ⟨_, _, hcells, hsample, ?_, ?_⟩
  · rintro ⟨c, hc, hpos⟩
    rcases raySampleIn_spec A hdiv M sc angle with
      ⟨-, hle⟩ | ⟨pre, b, post, hsplit, hs, -, -, hmax⟩
    · exact absurd hpos (not_lt.mpr (hle c hc))
    · rw [hs]
      exact ⟨by rw [hsplit]; simp, hmax⟩
  · intro hle
    rcases raySampleIn_spec A hdiv M sc angle with
      ⟨hs, -⟩ | ⟨pre, b, post, hsplit, -, hpos, -, -⟩
    · exact hs
    · exact absurd hpos (not_lt.mpr (hle b (by rw [hsplit]; simp)))

theorem castRayIn_records_maximal_computed_slope_witness :
    ∃ cells sample,
      rayCells doubleMath (2 ^ 32 + 1) (nearTieScene ℝ) (stepAngle doubleMath 100 3)
        = some cells ∧
      castRayIn doubleArith doubleMath (2 ^ 32 + 1) (nearTieScene ℝ)
        (stepAngle doubleMath 100 3) = some sample ∧
      ((∃ c ∈ candidates (nearTieScene ℝ) cells, 0 < slopeIn doubleArith (nearTieScene ℝ) c) →
        (sample.1, sample.2.1) ∈ candidates (nearTieScene ℝ) cells ∧
        ∀ c ∈ candidates (nearTieScene ℝ) cells,
          slopeIn doubleArith (nearTieScene ℝ) c
            ≤ slopeIn doubleArith (nearTieScene ℝ) (sample.1, sample.2.1)) ∧
      ((∀ c ∈ candidates (nearTieScene ℝ) cells, slopeIn doubleArith (nearTieScene ℝ) c ≤ 0) →
        sample = ((nearTieScene ℝ).xStart, (nearTieScene ℝ).yStart, 0)) :=
  castRayIn_records_maximal_computed_slope doubleArith doubleArith_div_zero_one doubleMath
    (nearTieScene ℝ) (stepAngle doubleMath 100 3) (2 ^ 32 + 1) (by decide)

/-- C5, as the claim states it, fails: on the 3×1 map with one raised cell the ray for
angle 0 records the cell `(2, 0)`, which is not the viewpoint, with third component 1,
while the slope of that cell is 1/2. -/
theorem sample_third_component_not_slope :
    castRay realMath 7 (spikeScene ℝ) 0 = some (2, 0, 1) ∧
      ((2 : Int), (0 : Int)) ≠ ((spikeScene ℝ).xStart, (spikeScene ℝ).yStart) ∧
      slopeAt realMath (spikeScene ℝ) (2, 0) = 1 / 2 ∧
      (1 : ℝ) ≠ slopeAt realMath (spikeScene ℝ) (2, 0) := by
  have hs : slopeAt realMath (spikeScene ℝ) (2, 0) = 1 / 2 := by
    simp [slopeAt, planarDistance, realMath, spikeScene]
    norm_num [sqrt_four]
  refine ⟨?_, by decide, hs, by rw [hs]; norm_num⟩
  have h := (castRay_eq realMath 7 (spikeScene ℝ) 0 (by rw [rayEnd_spikeScene]; decide)).2
  rw [h, raySample_spikeScene]

/-- C5, amended: for every ray whose recorded cell differs from the viewpoint, the third
component of the sample is the height difference `heightAt(cell) − eyeHeight` of the
recorded cell (its slope times its distance, not its slope). -/
theorem sample_third_component_is_height (sc : Scene ℝ) (angle : ℝ) (fuel : Nat)
    (hfuel : 2 ^ 32 + sc.xStart.natAbs + sc.yStart.natAbs + 1 ≤ fuel) :
    ∃ sample, castRay realMath fuel sc angle = some sample ∧
      ((sample.1, sample.2.1) ≠ (sc.xStart, sc.yStart) →
        sample.2.2 = sc.heightMap (sample.1 + sample.2.1 * sc.width) - sc.viewerHeight ∧
        sample.2.2 = slopeAt realMath sc (sample.1, sample.2.1)
          * planarDistance realMath sc (sample.1, sample.2.1)) := by
  refine ⟨_, (castRay_eq_of_rayFuel realMath fuel sc angle hfuel).2, ?_⟩
  intro hne
  rcases raySample_spec realMath sc angle with ⟨hs, -⟩ | ⟨pre, b, post, -, hs, hpos, -, -⟩
  · rw [hs] at hne
    exact absurd rfl hne
  · rw [hs]
    refine ⟨rfl, ?_⟩
    have hd : planarDistance realMath sc b ≠ 0 := by
      intro h0
      rw [slopeAt, h0, div_zero] at hpos
      exact lt_irrefl _ hpos
    simp only [slopeAt]
    rw [div_mul_cancel₀ _ hd]

theorem sample_third_component_is_height_witness :
    ∃ sample, castRay realMath (2 ^ 32 + 1) (spikeScene ℝ) 0 = some sample ∧
      ((sample.1, sample.2.1) ≠ ((spikeScene ℝ).xStart, (spikeScene ℝ).yStart) →
        sample.2.2
          = (spikeScene ℝ).heightMap (sample.1 + sample.2.1 * (spikeScene ℝ).width)
            - (spikeScene ℝ).viewerHeight ∧
        sample.2.2 = slopeAt realMath (spikeScene ℝ) (sample.1, sample.2.1)
          * planarDistance realMath (spikeScene ℝ) (sample.1, sample.2.1)) :=
  sample_third_component_is_height (spikeScene ℝ) 0 (2 ^ 32 + 1) (by decide)

/-- C6, as the claim states it, fails: on the 4×4 map whose diagonal cells `(1, 1)`,
`(2, 2)`, `(3, 3)` hold 0.625, 0.75 and 0.875, seen from `(0, 0)` at eye height 0.5, the
ray of step 1 of 8 (angle `Math.PI/4`) visits the three cells, whose slopes are all
equal to the maximal slope `0.125/√2`. The nearest of them, also the first visited, is
`(1, 1)`, but in doubles the quotient computed for `(3, 3)` is one unit in the last place
larger than the other two, and the recorded cell is `(3, 3)`. -/
theorem exact_tie_goes_to_farther_cell :
    rayEnd doubleMath (diagonalScene ℝ) (stepAngle doubleMath 8 1) = (5, 5) ∧
    ∃ cells, rayCells doubleMath 11 (diagonalScene ℝ) (stepAngle doubleMath 8 1) = some cells ∧
      candidates (diagonalScene ℝ) cells = [(1, 1), (2, 2), (3, 3)] ∧
      castRayIn doubleArith doubleMath 11 (diagonalScene ℝ) (stepAngle doubleMath 8 1)
        = some (3, 3, 3 / 8) ∧
      (∀ c ∈ candidates (diagonalScene ℝ) cells,
        slopeAt realMath (diagonalScene ℝ) c = slopeAt realMath (diagonalScene ℝ) (1, 1)) ∧
      0 < slopeAt realMath (diagonalScene ℝ) (1, 1) ∧
      planarDistance realMath (diagonalScene ℝ) (1, 1)
        < planarDistance realMath (diagonalScene ℝ) (3, 3) ∧
      slopeIn doubleArith (diagonalScene ℝ) (1, 1) < slopeIn doubleArith (diagonalScene ℝ) (3, 3) := by
  obtain ⟨hcells, hsample⟩ := castRayIn_eq doubleArith doubleMath 11 (diagonalScene ℝ)
    (stepAngle doubleMath 8 1) (by rw [rayEnd_diagonalScene]; decide)
  obtain ⟨e1, e2, e3, epos⟩ := slopeAt_diagonalScene
  obtain ⟨q1, -, q3⟩ := slopeIn_diagonalScene
  refine ⟨rayEnd_diagonalScene, _, hcells, candidates_diagonalScene, ?_, ?_, ?_, ?_, ?_⟩
  · rw [hsample, raySampleIn_diagonalScene]
  · intro c hc
    rw [candidates_diagonalScene] at hc
    simp only [List.mem_cons, List.mem_singleton, List.not_mem_nil, or_false] at hc
    rcases hc with rfl | rfl | rfl
    · rfl
    · rw [e2, e1]
    · rw [e3, e1]
  · rw [e1]; exact epos
  · unfold planarDistance realMath
    simp only [diagonalScene]
    apply Real.sqrt_lt_sqrt <;> norm_num
  · rw [q1, q3]; norm_num

/-- C6, amended: for every ray on which some competing cell has a positive computed
quotient (in every arithmetic whose quotient `0/1` is 0: that of the doubles, and the
exact one), every other competing cell whose computed quotient
`currentHeight/currentDistance` equals that of the recorded cell (the maximal one) is
strictly farther from the viewpoint in Euclidean distance, and the recorded cell is the
first such cell visited: every competing cell visited before it has a smaller computed
quotient. -/
theorem castRayIn_tie_goes_to_nearest_first {K : Type} [LinearOrderedField K]
    [FloorRing K] (A : JsArith K) (hdiv : A.div 0 1 = 0) (M : JsMath K) (sc : Scene K)
    (angle : K) (fuel : Nat)
    (hfuel : 2 ^ 32 + sc.xStart.natAbs + sc.yStart.natAbs + 1 ≤ fuel) :
    ∃ cells sample, rayCells M fuel sc angle = some cells ∧
      castRayIn A M fuel sc angle = some sample ∧
      ((∃ c ∈ candidates sc cells, 0 < slopeIn A sc c) →
        (∀ c ∈ candidates sc cells,
          slopeIn A sc c ≤ slopeIn A sc (sample.1, sample.2.1)) ∧
        (∀ c ∈ candidates sc cells,
          slopeIn A sc c = slopeIn A sc (sample.1, sample.2.1) →
          c ≠ (sample.1, sample.2.1) →
          squaredDistance sc (sample.1, sample.2.1) < squaredDistance sc c) ∧
        ∃ before after, cells = before ++ (sample.1, sample.2.1) :: after ∧
          ∀ c ∈ candidates sc before,
            slopeIn A sc c < slopeIn A sc (sample.1, sample.2.1)) := by
  obtain ⟨hcells, hsample⟩ := castRayIn_eq_of_rayFuel A M fuel sc angle hfuel
  refine ⟨_, _, hcells, hsample, ?_⟩
  rintro ⟨c, hc, hpos⟩
  rcases raySampleIn_spec A hdiv M sc angle with
    ⟨-, hle⟩ | ⟨pre, b, post, hsplit, hs, -, hpre, hmax⟩
  · exact absurd hpos (not_lt.mpr (hle c hc))
  · rw [hs]
    refine ⟨hmax, ?_, ?_⟩
    · intro d hd heq hne
      have hpw := candidates_pairwise_squaredDistance M sc angle
      rw [hsplit] at hpw hd
      obtain ⟨-, hpost, -⟩ := List.pairwise_append.mp hpw
      rcases List.mem_append.mp hd with hd1 | hd2
      · exact absurd heq (ne_of_lt (hpre d hd1))
      · rcases List.mem_cons.mp hd2 with rfl | hd3
        · exact absurd rfl hne
        · exact (List.pairwise_cons.mp hpost).1 d hd3
    · obtain ⟨before, after, hc1, hc2, -⟩ := candidates_split sc _ pre post b hsplit
      exact ⟨before, after, hc1, by rw [hc2]; exact hpre⟩

theorem castRayIn_tie_goes_to_nearest_first_witness :
    (candidates (evenScene ℝ) (rayPath doubleMath (evenScene ℝ) 0) = [(1, 0), (2, 0)] ∧
      slopeIn doubleArith (evenScene ℝ) (1, 0) = 1 / 4 ∧
      slopeIn doubleArith (evenScene ℝ) (2, 0) = 1 / 4 ∧
      castRayIn doubleArith doubleMath (2 ^ 32 + 1) (evenScene ℝ) 0 = some (1, 0, 1 / 4)) ∧
    ∃ cells sample, rayCells doubleMath (2 ^ 32 + 1) (evenScene ℝ) 0 = some cells ∧
      castRayIn doubleArith doubleMath (2 ^ 32 + 1) (evenScene ℝ) 0 = some sample ∧
      ((∃ c ∈ candidates (evenScene ℝ) cells, 0 < slopeIn doubleArith (evenScene ℝ) c) →
        (∀ c ∈ candidates (evenScene ℝ) cells,
          slopeIn doubleArith (evenScene ℝ) c
            ≤ slopeIn doubleArith (evenScene ℝ) (sample.1, sample.2.1)) ∧
        (∀ c ∈ candidates (evenScene ℝ) cells,
          slopeIn doubleArith (evenScene ℝ) c
              = slopeIn doubleArith (evenScene ℝ) (sample.1, sample.2.1) →
          c ≠ (sample.1, sample.2.1) →
          squaredDistance (evenScene ℝ) (sample.1, sample.2.1)
            < squaredDistance (evenScene ℝ) c) ∧
        ∃ before after, cells = before ++ (sample.1, sample.2.1) :: after ∧
          ∀ c ∈ candidates (evenScene ℝ) before,
            slopeIn doubleArith (evenScene ℝ) c
              < slopeIn doubleArith (evenScene ℝ) (sample.1, sample.2.1)) :=
  ⟨castRayIn_evenScene,
    castRayIn_tie_goes_to_nearest_first doubleArith doubleArith_div_zero_one doubleMath
      (evenScene ℝ) 0 (2 ^ 32 + 1) (by decide)⟩

/-- C7: for every height map in which no cell inside the bounds is higher than the eye
height, every viewpoint and every number of angle steps, `redraw` returns a profile (any
fuel from `2^32 + |xStart| + |yStart| + 1` on) and every sample of it has the start value
0 as its third component. -/
theorem redraw_all_zero_when_nothing_above (sc : Scene ℝ) (n fuel : Nat)
    (hlow : ∀ x y : Int, 0 ≤ x → x < sc.width → 0 ≤ y → y < sc.height →
      sc.heightMap (x + y * sc.width) ≤ sc.viewerHeight)
    (hfuel : 2 ^ 32 + sc.xStart.natAbs + sc.yStart.natAbs + 1 ≤ fuel) :
    ∃ profile, redraw realMath fuel sc n = some profile ∧ profile.length = n + 1 ∧
      ∀ sample ∈ profile, sample.2.2 = 0 := by
  refine ⟨_, redraw_eq realMath fuel sc n hfuel, by simp, ?_⟩
  intro sample hs
  obtain ⟨i, -, rfl⟩ := List.mem_map.mp hs
  rw [raySample_of_not_above sc _ hlow]

theorem redraw_all_zero_when_nothing_above_witness :
    ∃ profile, redraw realMath (2 ^ 32 + 3) (flatScene ℝ) 100 = some profile ∧
      profile.length = 100 + 1 ∧ ∀ sample ∈ profile, sample.2.2 = 0 :=
  redraw_all_zero_when_nothing_above (flatScene ℝ) 100 (2 ^ 32 + 3)
    (fun _ _ _ _ _ _ => by simp only [flatScene]; norm_num) (by decide)

/-- C8, as the claim states it, fails: on the flat 3×3 map (every cell 0.3, eye height
0.5, viewpoint at the centre `(1, 1)`) the ray of step 0 records the viewpoint's own cell
`(1, 1)`, which is not a neighbour different from the viewpoint. -/
theorem flat_ray_records_viewpoint_itself :
    castRay realMath 7 (flatScene ℝ) (stepAngle realMath 100 0) = some (1, 1, 0) ∧
      ¬ (((1 : Int), (1 : Int)) ≠ ((flatScene ℝ).xStart, (flatScene ℝ).yStart) ∧
        |(1 : Int) - (flatScene ℝ).xStart| ≤ 1 ∧ |(1 : Int) - (flatScene ℝ).yStart| ≤ 1) := by
  have h0 : stepAngle realMath 100 0 = 0 := by simp [stepAngle, lerp]
  rw [h0]
  refine ⟨?_, by decide⟩
  have h := (castRay_eq realMath 7 (flatScene ℝ) 0 (by rw [rayEnd_flatScene]; decide)).2
  rw [h, raySample_of_not_above (flatScene ℝ) 0
    (fun _ _ _ _ _ _ => by simp only [flatScene]; norm_num)]
  rfl

/-- C8, amended: for a height map none of whose cells inside the bounds is above the eye
height (so for a flat one below it) and every viewpoint, the cell recorded for every ray
is the viewpoint's own cell. -/
theorem redraw_records_viewpoint_when_nothing_above (sc : Scene ℝ) (n fuel : Nat)
    (hlow : ∀ x y : Int, 0 ≤ x → x < sc.width → 0 ≤ y → y < sc.height →
      sc.heightMap (x + y * sc.width) ≤ sc.viewerHeight)
    (hfuel : 2 ^ 32 + sc.xStart.natAbs + sc.yStart.natAbs + 1 ≤ fuel) :
    ∃ profile, redraw realMath fuel sc n = some profile ∧ profile.length = n + 1 ∧
      ∀ sample ∈ profile, (sample.1, sample.2.1) = (sc.xStart, sc.yStart) := by
  refine ⟨_, redraw_eq realMath fuel sc n hfuel, by simp, ?_⟩
  intro sample hs
  obtain ⟨i, -, rfl⟩ := List.mem_map.mp hs
  rw [raySample_of_not_above sc _ hlow]

theorem redraw_records_viewpoint_when_nothing_above_witness :
    ∃ profile, redraw realMath (2 ^ 32 + 3) (flatScene ℝ) 100 = some profile ∧
      profile.length = 100 + 1 ∧
      ∀ sample ∈ profile, (sample.1, sample.2.1) = ((flatScene ℝ).xStart, (flatScene ℝ).yStart) :=
  redraw_records_viewpoint_when_nothing_above (flatScene ℝ) 100 (2 ^ 32 + 3)
    (fun _ _ _ _ _ _ => by simp only [flatScene]; norm_num) (by decide)

/-- C9, as the claim states it, fails: in doubles `Math.sin(2*Math.PI)` is not 0 but
about `-2.449e-16`, so the ray of the last step ends one row lower than the ray of step
0. On the flat 3×3 map seen from its centre `(1, 1)` the ray of step 0 ends at `(7, 1)`
and the ray of step `n = 100` at `(7, 0)`; there the two samples still agree. On the
`2147483647`×2 map seen from `(2, 1)`, where the ray ends wrap to column 0, the rays end
at `(0, 1)` and at `(0, 0)`, and the samples differ: the ray of step 0 records nothing
and the ray of step `n` records the raised cell `(0, 0)`. -/
theorem last_ray_ends_one_row_lower :
    (stepAngle doubleMath 100 0 = 0 ∧ stepAngle doubleMath 100 100 = doubleMath.PI * 2 ∧
      doubleMath.sin (doubleMath.PI * 2) < 0) ∧
    (rayEnd doubleMath (flatScene ℝ) (stepAngle doubleMath 100 0) = (7, 1) ∧
      rayEnd doubleMath (flatScene ℝ) (stepAngle doubleMath 100 100) = (7, 0)) ∧
    (rayEnd doubleMath (wideScene ℝ) (stepAngle doubleMath 100 0) = (0, 1) ∧
      rayEnd doubleMath (wideScene ℝ) (stepAngle doubleMath 100 100) = (0, 0) ∧
      castRay doubleMath 8 (wideScene ℝ) (stepAngle doubleMath 100 0) = some (2, 1, 0) ∧
      castRay doubleMath 8 (wideScene ℝ) (stepAngle doubleMath 100 100)
        = some (0, 0, 1 / 2)) := by
  have h0 : stepAngle doubleMath 100 0 = 0 := stepAngle_first doubleMath 100
  have h1 : stepAngle doubleMath 100 100 = doubleMath.PI * 2 :=
    stepAngle_last doubleMath 100 (by decide)
  have hsin : doubleMath.sin (doubleMath.PI * 2) < 0 := by
    have := doubleMath_sin_turn.2
    have h : (0 : ℝ) < 1 / 2 ^ 52 := by norm_num
    linarith
  have f0 : rayEnd doubleMath (flatScene ℝ) 0 = (7, 1) := by
    rw [rayEnd_doubleMath_zero _ (by decide) (by decide), toInt_intCast_wrap]
    decide
  have f1 : rayEnd doubleMath (flatScene ℝ) (doubleMath.PI * 2) = (7, 0) := by
    rw [rayEnd_doubleMath_turn _ (by decide) (by decide) (by decide) (by decide),
      toInt_intCast_wrap]
    decide
  have w0 : rayEnd doubleMath (wideScene ℝ) 0 = (0, 1) := by
    rw [rayEnd_doubleMath_zero _ (by decide) (by decide), toInt_intCast_wrap]
    decide
  have w1 : rayEnd doubleMath (wideScene ℝ) (doubleMath.PI * 2) = (0, 0) := by
    rw [rayEnd_doubleMath_turn _ (by decide) (by decide) (by decide) (by decide),
      toInt_intCast_wrap]
    decide
  have c0 : candidates (wideScene ℝ) (rayPath doubleMath (wideScene ℝ) 0) = [(1, 1), (0, 1)] := by
    unfold rayPath
    rw [w0]
    decide
  have c1 : candidates (wideScene ℝ) (rayPath doubleMath (wideScene ℝ) (doubleMath.PI * 2))
      = [(1, 1), (0, 0)] := by
    unfold rayPath
    rw [w1]
    decide
  have s1 : (0 : ℝ) < doubleMath.sqrt (((1 : Int) : ℝ)) := doubleMath_sqrt_pos 1 (by decide)
  have s4 : (0 : ℝ) < doubleMath.sqrt (((4 : Int) : ℝ)) := doubleMath_sqrt_pos 4 (by decide)
  have s5 : (0 : ℝ) < doubleMath.sqrt (((5 : Int) : ℝ)) := doubleMath_sqrt_pos 5 (by decide)
  have r0 : raySample doubleMath (wideScene ℝ) 0 = (2, 1, 0) := by
    unfold raySample rayBest
    rw [c0]
    have b1 : better doubleMath (wideScene ℝ) (Best.init (wideScene ℝ)) (1, 1)
        = Best.init (wideScene ℝ) := by
      unfold better
      rw [if_neg]
      have : slopeAt doubleMath (wideScene ℝ) (1, 1) ≤ 0 := by
        unfold slopeAt planarDistance
        apply div_nonpos_of_nonpos_of_nonneg
        · simp only [wideScene]; norm_num
        · exact le_of_lt (by simpa [wideScene] using s1)
      simp only [Best.init, div_one]
      linarith
    have b2 : better doubleMath (wideScene ℝ) (Best.init (wideScene ℝ)) (0, 1)
        = Best.init (wideScene ℝ) := by
      unfold better
      rw [if_neg]
      have : slopeAt doubleMath (wideScene ℝ) (0, 1) ≤ 0 := by
        unfold slopeAt planarDistance
        apply div_nonpos_of_nonpos_of_nonneg
        · simp only [wideScene]; norm_num
        · exact le_of_lt (by simpa [wideScene] using s4)
      simp only [Best.init, div_one]
      linarith
    simp only [List.foldl_cons, List.foldl_nil, b1, b2]
    rfl
  have r1 : raySample doubleMath (wideScene ℝ) (doubleMath.PI * 2) = (0, 0, 1 / 2) := by
    unfold raySample rayBest
    rw [c1]
    have b1 : better doubleMath (wideScene ℝ) (Best.init (wideScene ℝ)) (1, 1)
        = Best.init (wideScene ℝ) := by
      unfold better
      rw [if_neg]
      have : slopeAt doubleMath (wideScene ℝ) (1, 1) ≤ 0 := by
        unfold slopeAt planarDistance
        apply div_nonpos_of_nonpos_of_nonneg
        · simp only [wideScene]; norm_num
        · exact le_of_lt (by simpa [wideScene] using s1)
      simp only [Best.init, div_one]
      linarith
    have b2 : better doubleMath (wideScene ℝ) (Best.init (wideScene ℝ)) (0, 0)
        = ⟨1 / 2, doubleMath.sqrt (((5 : Int) : ℝ)), 0, 0⟩ := by
      unfold better
      rw [if_pos]
      · simp only [planarDistance, wideScene]
        norm_num
      · have : 0 < slopeAt doubleMath (wideScene ℝ) (0, 0) := by
          unfold slopeAt planarDistance
          apply div_pos
          · simp only [wideScene]; norm_num
          · simpa [wideScene] using s5
        simp only [Best.init, div_one]
        linarith
    simp only [List.foldl_cons, List.foldl_nil, b1, b2]
  refine ⟨⟨h0, h1, hsin⟩, ⟨by rw [h0]; exact f0, by rw [h1]; exact f1⟩,
    by rw [h0]; exact w0, by rw [h1]; exact w1, ?_, ?_⟩
  · rw [h0, (castRay_eq doubleMath 8 (wideScene ℝ) 0 (by rw [w0]; decide)).2, r0]
  · rw [h1, (castRay_eq doubleMath 8 (wideScene ℝ) _ (by rw [w1]; decide)).2, r1]

/-- C9, amended: for every number of angle steps `n ≥ 1` and every grid with
`3 * max(width, height) ≤ 2^31`, with a `Math` whose values at the angles 0 and
`2*Math.PI` are those of the doubles (or of the reals), `redraw` returns a profile of
exactly `n + 1` samples, the sample at index `k` is the one of the ray for the angle of
step `k`, these angles are strictly ascending from 0 to `2*Math.PI`, the rays of step 0
and of step `n` end in the same column and, for a viewpoint inside the map, in the same
row or the last ray one row lower, and the first and the last sample are equal. -/
theorem redraw_profile_length_and_equal_ends {K : Type} [LinearOrderedField K] [FloorRing K]
    (M : JsMath K) (hM : ClosesTurn M) (sc : Scene K) (n fuel : Nat) (hn : 1 ≤ n)
    (hgrid : 3 * max sc.width sc.height ≤ 2 ^ 31)
    (hfuel : 2 ^ 32 + sc.xStart.natAbs + sc.yStart.natAbs + 1 ≤ fuel) :
    ∃ profile, redraw M fuel sc n = some profile ∧ profile.length = n + 1 ∧
      (∀ k, k ≤ n → profile[k]? = castRay M fuel sc (stepAngle M n k)) ∧
      (∀ j k, j < k → stepAngle M n j < stepAngle M n k) ∧
      stepAngle M n 0 = 0 ∧ stepAngle M n n = M.PI * 2 ∧
      (rayEnd M sc (stepAngle M n n)).1 = (rayEnd M sc (stepAngle M n 0)).1 ∧
      (outOfBounds sc sc.xStart sc.yStart = false →
        (rayEnd M sc (stepAngle M n n)).2 = (rayEnd M sc (stepAngle M n 0)).2 ∨
        (rayEnd M sc (stepAngle M n n)).2 = (rayEnd M sc (stepAngle M n 0)).2 - 1) ∧
      profile[0]? = profile[n]? := by
  have h0 : stepAngle M n 0 = 0 := stepAngle_first M n
  have h1 : stepAngle M n n = M.PI * 2 := stepAngle_last M n hn
  obtain ⟨hsame, hcol, hrow⟩ := raySample_turn M hM sc hgrid
  have hget : ∀ k, k ≤ n →
      ((List.range (n + 1)).map (fun i => raySample M sc (stepAngle M n i)))[k]?
        = some (raySample M sc (stepAngle M n k)) := by
    intro k hk
    rw [List.getElem?_map, List.getElem?_range (by omega)]
    rfl
  refine ⟨_, redraw_eq M fuel sc n hfuel, by simp, ?_, ?_, h0, h1, ?_, ?_, ?_⟩
  · intro k hk
    rw [hget k hk, (castRay_eq_of_rayFuel M fuel sc _ hfuel).2]
  · intro j k hjk
    exact stepAngle_lt M n hn hM.1 j k hjk
  · rw [h0, h1, hcol]
  · intro hin
    obtain ⟨e0, e1⟩ := hrow hin
    rw [h0, h1, e0]
    exact e1
  · rw [hget 0 (by omega), hget n le_rfl, h0, h1, hsame]

theorem redraw_profile_length_and_equal_ends_witness :
    ∃ profile, redraw doubleMath (2 ^ 32 + 3) (flatScene ℝ) 100 = some profile ∧
      profile.length = 100 + 1 ∧
      (∀ k, k ≤ 100 →
        profile[k]? = castRay doubleMath (2 ^ 32 + 3) (flatScene ℝ) (stepAngle doubleMath 100 k)) ∧
      (∀ j k, j < k → stepAngle doubleMath 100 j < stepAngle doubleMath 100 k) ∧
      stepAngle doubleMath 100 0 = 0 ∧ stepAngle doubleMath 100 100 = doubleMath.PI * 2 ∧
      (rayEnd doubleMath (flatScene ℝ) (stepAngle doubleMath 100 100)).1
        = (rayEnd doubleMath (flatScene ℝ) (stepAngle doubleMath 100 0)).1 ∧
      (outOfBounds (flatScene ℝ) (flatScene ℝ).xStart (flatScene ℝ).yStart = false →
        (rayEnd doubleMath (flatScene ℝ) (stepAngle doubleMath 100 100)).2
          = (rayEnd doubleMath (flatScene ℝ) (stepAngle doubleMath 100 0)).2 ∨
        (rayEnd doubleMath (flatScene ℝ) (stepAngle doubleMath 100 100)).2
          = (rayEnd doubleMath (flatScene ℝ) (stepAngle doubleMath 100 0)).2 - 1) ∧
      profile[0]? = profile[100]? :=
  redraw_profile_length_and_equal_ends doubleMath closesTurn_doubleMath (flatScene ℝ) 100
    (2 ^ 32 + 3) (by decide) (by decide) (by decide)

/-- C10, as the claim states it, fails twice. On a 10×10 gradient field the integer
coordinates `(9, 9)` are a lattice point of the field, but the corners `(9, 10)`,
`(10, 9)` and `(10, 10)` have the indices 109, 100 and 110, outside the arrays of 100
entries, so `perlinNoise(9, 9)` is `NaN`, not 0. And at the integer coordinates
`(2^32, 0)` the lower corner that `toInt` computes is `(0, 0)`, all four reads are inside
the arrays, and with the gradient `(1, 0)` at every lattice point the noise is a number
different from 0. -/
theorem perlinNoise_nan_or_nonzero_at_integers :
    (perlinLookups ((9 : Int) : ℝ) ((9 : Int) : ℝ) = [(9, 9), (9, 10), (10, 9), (10, 10)] ∧
      (9 : Int) + 10 * (eastField ℝ 10).width = 109 ∧
      ¬ ((109 : Int) < (eastField ℝ 10).width * 10) ∧
      perlinNoiseChecked (eastField ℝ 10) 10 ((9 : Int) : ℝ) ((9 : Int) : ℝ) = none ∧
      perlinNoiseChecked (eastField ℝ 10) 10 ((9 : Int) : ℝ) ((9 : Int) : ℝ) ≠ some 0) ∧
    (perlinLookups ((4294967296 : Int) : ℝ) ((0 : Int) : ℝ) = [(0, 0), (0, 1), (1, 0), (1, 1)] ∧
      ReadsInside (eastField ℝ 10).width 10 [(0, 0), (0, 1), (1, 0), (1, 1)] ∧
      ∃ v, perlinNoiseChecked (eastField ℝ 10) 10 ((4294967296 : Int) : ℝ) ((0 : Int) : ℝ)
          = some v ∧ v ≠ 0) := by
  have h9 : perlinLookups ((9 : Int) : ℝ) ((9 : Int) : ℝ)
      = [(9, 9), (9, 10), (10, 9), (10, 10)] :=
    perlinLookups_at_integers 9 9 (by decide) (by decide) (by decide) (by decide)
  have hnot : ¬ ReadsInside (eastField ℝ 10).width 10
      (perlinLookups ((9 : Int) : ℝ) ((9 : Int) : ℝ)) := by
    rw [h9]
    intro h
    have := (h (9, 10) (by simp)).2
    revert this
    decide
  have hnone := (perlinNoiseChecked_eq (eastField ℝ 10) 10 ((9 : Int) : ℝ) ((9 : Int) : ℝ)).2 hnot
  have hx : toInt (((4294967296 : Int) : ℝ)) = 0 := by
    rw [toInt_intCast_wrap]; decide
  have hy : toInt (((0 : Int) : ℝ)) = 0 := by
    rw [toInt_intCast_wrap]; decide
  have hbig : perlinLookups ((4294967296 : Int) : ℝ) ((0 : Int) : ℝ)
      = [(0, 0), (0, 1), (1, 0), (1, 1)] := by
    unfold perlinLookups
    rw [hx, hy]
    rfl
  have hin : ReadsInside (eastField ℝ 10).width 10 [(0, 0), (0, 1), (1, 0), (1, 1)] := by
    intro p hp
    simp only [List.mem_cons, List.mem_singleton, List.not_mem_nil, or_false] at hp
    rcases hp with rfl | rfl | rfl | rfl <;> decide
  refine ⟨⟨h9, by decide, by decide, hnone, by rw [hnone]; simp⟩, hbig, hin, ?_⟩
  refine ⟨_, (perlinNoiseChecked_eq (eastField ℝ 10) 10 _ _).1 (by rw [hbig]; exact hin), ?_⟩
  unfold perlinNoise
  rw [hx, hy]
  simp only [dotGridGradient, eastField, lerp, smoothCurve]
  norm_num

/-- C10, amended: for every gradient field and all integer coordinates x, y in the 32-bit
range `-2^31 ≤ x, y < 2^31`, the four corners are `(x, y)`, `(x, y+1)`, `(x+1, y)`,
`(x+1, y+1)`; when their indices `ix + iy*width` are all inside the gradient arrays,
`perlinNoise(x, y)` equals 0, whatever gradients occupy the corners, and when one of them
is outside, `perlinNoise(x, y)` is `NaN`. -/
theorem perlinNoise_zero_at_integers_read_inside {K : Type} [LinearOrderedField K]
    [FloorRing K] (G : Gradients K) (height x y : Int) (hx1 : -2 ^ 31 ≤ x) (hx2 : x < 2 ^ 31)
    (hy1 : -2 ^ 31 ≤ y) (hy2 : y < 2 ^ 31) :
    perlinLookups (x : K) (y : K) = [(x, y), (x, y + 1), (x + 1, y), (x + 1, y + 1)] ∧
    (ReadsInside G.width height [(x, y), (x, y + 1), (x + 1, y), (x + 1, y + 1)] →
      perlinNoiseChecked G height (x : K) (y : K) = some 0) ∧
    (¬ ReadsInside G.width height [(x, y), (x, y + 1), (x + 1, y), (x + 1, y + 1)] →
      perlinNoiseChecked G height (x : K) (y : K) = none) := by
  have hl := perlinLookups_at_integers (K := K) x y hx1 hx2 hy1 hy2
  refine ⟨hl, ?_, ?_⟩
  · intro h
    rw [(perlinNoiseChecked_eq G height (x : K) (y : K)).1 (by rw [hl]; exact h),
      perlinNoise_at_integers G x y hx1 hx2 hy1 hy2]
  · intro h
    exact (perlinNoiseChecked_eq G height (x : K) (y : K)).2 (by rw [hl]; exact h)

theorem perlinNoise_zero_at_integers_read_inside_witness :
    perlinLookups ((3 : Int) : ℝ) ((2 : Int) : ℝ) = [(3, 2), (3, 2 + 1), (3 + 1, 2), (3 + 1, 2 + 1)] ∧
    (ReadsInside (eastField ℝ 10).width 10 [(3, 2), (3, 2 + 1), (3 + 1, 2), (3 + 1, 2 + 1)] →
      perlinNoiseChecked (eastField ℝ 10) 10 ((3 : Int) : ℝ) ((2 : Int) : ℝ) = some 0) ∧
    (¬ ReadsInside (eastField ℝ 10).width 10 [(3, 2), (3, 2 + 1), (3 + 1, 2), (3 + 1, 2 + 1)] →
      perlinNoiseChecked (eastField ℝ 10) 10 ((3 : Int) : ℝ) ((2 : Int) : ℝ) = none) :=
  perlinNoise_zero_at_integers_read_inside (eastField ℝ 10) 10 3 2 (by decide) (by decide)
    (by decide) (by decide)

/-- C11: for every field of a size a canvas can have whose gradients have unit length at
the lattice points inside it, every octave count `n ≥ 1` and all real coordinates
`x, y ≥ 0` whose lattice corners lie inside the field at every octave, every array read
is inside the arrays (no value is `NaN`), and `perlinNoise(x, y)` and
`perlinNoiseOctaves(x, y, n)` both lie in `[-1, 1]` (exact real arithmetic). -/
theorem perlinNoise_and_octaves_within_unit (G : Gradients ℝ) (height : Int) (x y : ℝ)
    (n : Nat) (hsize : CanvasSize G.width height)
    (hunit : ∀ ix iy : Int, 0 ≤ ix → ix < G.width → 0 ≤ iy → iy < height →
      G.xGradient (ix + iy * G.width) ^ 2 + G.yGradient (ix + iy * G.width) ^ 2 = 1)
    (hn : 1 ≤ n) (hx : 0 ≤ x) (hy : 0 ≤ y)
    (hin : ∀ i, i < n → ⌊x * 2 ^ i⌋ + 1 < G.width ∧ ⌊y * 2 ^ i⌋ + 1 < height) :
    (perlinNoiseChecked G height x y = some (perlinNoise G x y) ∧
      -1 ≤ perlinNoise G x y ∧ perlinNoise G x y ≤ 1) ∧
    (perlinNoiseOctavesChecked G height x y n = some (perlinNoiseOctaves G x y n) ∧
      -1 ≤ perlinNoiseOctaves G x y n ∧ perlinNoiseOctaves G x y n ≤ 1) := by
  have hpt : ∀ i, i < n → ∀ p ∈ perlinLookups (x * 2 ^ i) (y * 2 ^ i),
      (p.1 = ⌊x * 2 ^ i⌋ ∨ p.1 = ⌊x * 2 ^ i⌋ + 1) ∧ (p.2 = ⌊y * 2 ^ i⌋ ∨ p.2 = ⌊y * 2 ^ i⌋ + 1) ∧
      0 ≤ p.1 ∧ p.1 < G.width ∧ 0 ≤ p.2 ∧ p.2 < height ∧
      0 ≤ p.1 + p.2 * G.width ∧ p.1 + p.2 * G.width < G.width * height := by
    intro i hi p hp
    exact perlinLookups_inside G.width height _ _ hsize (mul_nonneg hx (by positivity))
      (mul_nonneg hy (by positivity)) (hin i hi).1 (hin i hi).2 p hp
  have hread : ReadsInside G.width height (octaveLookups n x y) := by
    intro p hp
    obtain ⟨i, hi, hmem⟩ := octaveLookups_mem n x y p hp
    exact (hpt i hi p hmem).2.2.2.2.2.2
  have hread0 : ReadsInside G.width height (perlinLookups x y) := by
    intro p hp
    have := hpt 0 (by omega) p (by simpa using hp)
    exact this.2.2.2.2.2.2
  have hoct : ∀ i, i < n → |perlinNoise G (x * 2 ^ i) (y * 2 ^ i)| ≤ 1 := by
    intro i hi
    obtain ⟨-, hw31, -, hh31⟩ := hsize
    have hxi : 0 ≤ x * 2 ^ i := mul_nonneg hx (by positivity)
    have hyi : 0 ≤ y * 2 ^ i := mul_nonneg hy (by positivity)
    have hfx : 0 ≤ ⌊x * 2 ^ i⌋ := Int.floor_nonneg.mpr hxi
    have hfy : 0 ≤ ⌊y * 2 ^ i⌋ := Int.floor_nonneg.mpr hyi
    obtain ⟨hw, hh⟩ := hin i hi
    have bound : ∀ (z : ℝ) (m : Int), ⌊z⌋ + 1 < m → m ≤ 2147483647 → z < 2 ^ 31 := by
      intro z m h1 h2
      have a1 : ⌊z⌋ + 1 ≤ 2147483646 := by omega
      have a2 : z < ((⌊z⌋ + 1 : Int) : ℝ) := by push_cast; exact Int.lt_floor_add_one z
      have a3 : ((⌊z⌋ + 1 : Int) : ℝ) ≤ 2147483646 := by exact_mod_cast a1
      have a4 : (2147483646 : ℝ) < 2 ^ 31 := by norm_num
      linarith
    refine perlinNoise_abs_le_one G _ _ hxi (bound _ _ hw hw31) hyi (bound _ _ hh hh31) ?_
    intro ix iy hix hiy
    apply hunit <;> omega
  have h0 := hoct 0 (by omega)
  simp only [pow_zero, mul_one] at h0
  have hn' := perlinNoiseOctaves_abs_le_one G x y n hn hoct
  exact ⟨⟨(perlinNoiseChecked_eq G height x y).1 hread0, (abs_le.mp h0).1, (abs_le.mp h0).2⟩,
    perlinNoiseOctavesChecked_eq G height x y n hn hread, (abs_le.mp hn').1, (abs_le.mp hn').2⟩

theorem perlinNoise_and_octaves_within_unit_witness :
    (perlinNoiseChecked (eastField ℝ 10) 10 (1 / 3) (1 / 4)
        = some (perlinNoise (eastField ℝ 10) (1 / 3) (1 / 4)) ∧
      -1 ≤ perlinNoise (eastField ℝ 10) (1 / 3) (1 / 4) ∧
      perlinNoise (eastField ℝ 10) (1 / 3) (1 / 4) ≤ 1) ∧
    (perlinNoiseOctavesChecked (eastField ℝ 10) 10 (1 / 3) (1 / 4) 2
        = some (perlinNoiseOctaves (eastField ℝ 10) (1 / 3) (1 / 4) 2) ∧
      -1 ≤ perlinNoiseOctaves (eastField ℝ 10) (1 / 3) (1 / 4) 2 ∧
      perlinNoiseOctaves (eastField ℝ 10) (1 / 3) (1 / 4) 2 ≤ 1) :=
  perlinNoise_and_octaves_within_unit (eastField ℝ 10) 10 (1 / 3) (1 / 4) 2
    ⟨by decide, by decide, by decide, by decide⟩
    (fun _ _ _ _ _ _ => by simp [eastField]) (by decide) (by norm_num) (by norm_num)
    (fun i hi => by
      have e1 : ⌊(1 : ℝ) / 3 * 2 ^ i⌋ = 0 := by
        rw [Int.floor_eq_iff]
        interval_cases i <;> constructor <;> norm_num
      have e2 : ⌊(1 : ℝ) / 4 * 2 ^ i⌋ = 0 := by
        rw [Int.floor_eq_iff]
        interval_cases i <;> constructor <;> norm_num
      rw [e1, e2]
      exact ⟨by decide, by decide⟩)

/-- C12: for every `n ≥ 1` and all `x`, `y`, `perlinNoiseOctaves(x, y, n)` equals the sum
over `i` in `[0, n)` of `perlinNoise(x·2^i, y·2^i)·0.5^i` divided by the sum over `i` in
`[0, n)` of `0.5^i`; in particular `perlinNoiseOctaves(x, y, 1) = perlinNoise(x, y)`. -/
theorem perlinNoiseOctaves_is_normalized_sum {K : Type} [LinearOrderedField K]
    [FloorRing K] (G : Gradients K) (x y : K) (n : Nat) (_hn : 1 ≤ n) :
    perlinNoiseOctaves G x y n
        = (∑ i in Finset.range n, perlinNoise G (x * 2 ^ i) (y * 2 ^ i) * (1 / 2) ^ i)
          / (∑ i in Finset.range n, (1 / 2 : K) ^ i) ∧
      perlinNoiseOctaves G x y 1 = perlinNoise G x y := by
  refine ⟨perlinNoiseOctaves_eq G x y n, ?_⟩
  rw [perlinNoiseOctaves_eq]
  simp

theorem perlinNoiseOctaves_is_normalized_sum_witness :
    perlinNoiseOctaves (eastField ℝ 10) (1 / 3) (1 / 4) 2
        = (∑ i in Finset.range 2,
            perlinNoise (eastField ℝ 10) (1 / 3 * 2 ^ i) (1 / 4 * 2 ^ i) * (1 / 2) ^ i)
          / (∑ i in Finset.range 2, (1 / 2 : ℝ) ^ i) ∧
      perlinNoiseOctaves (eastField ℝ 10) (1 / 3) (1 / 4) 1
        = perlinNoise (eastField ℝ 10) (1 / 3) (1 / 4) :=
  perlinNoiseOctaves_is_normalized_sum (eastField ℝ 10) (1 / 3) (1 / 4) 2 (by decide)

/-- C13: after `initializeHeightMap`, for every grid size a canvas can have with
`width ≥ 2` and `height ≥ 2` and every field whose gradients have unit length at the
lattice points of the grid, every cell of the height map holds a number (no array read
on the way was outside the arrays, so it is not `NaN`) and this number is in `[0, 1]`. -/
theorem heightMap_cells_within_unit (G : Gradients ℝ) (height : Int)
    (heightMap : Int → ℝ) (hsize : CanvasSize G.width height) (hw2 : 2 ≤ G.width)
    (hh2 : 2 ≤ height)
    (hunit : ∀ ix iy : Int, 0 ≤ ix → ix < G.width → 0 ≤ iy → iy < height →
      G.xGradient (ix + iy * G.width) ^ 2 + G.yGradient (ix + iy * G.width) ^ 2 = 1)
    (x y : Int) (hx0 : 0 ≤ x) (hx1 : x < G.width) (hy0 : 0 ≤ y) (hy1 : y < height) :
    cellValueChecked G height x y
        = some (initializeHeightMap G height heightMap (x + y * G.width)) ∧
      0 ≤ initializeHeightMap G height heightMap (x + y * G.width) ∧
      initializeHeightMap G height heightMap (x + y * G.width) ≤ 1 := by
  obtain ⟨-, hw31, -, hh31⟩ := hsize
  have hw : G.width ≤ 107374182400 := by omega
  have hh : height ≤ 107374182400 := by omega
  rw [initializeHeightMap_get G height heightMap x y hx0 hx1 hy0 hy1]
  refine ⟨cellValueChecked_eq G height x y ?_,
    cellValue_mem_unit G height x y hw2 hw hh2 hh hunit hx0 hx1 hy0 hy1⟩
  intro p hp
  exact (cellLookups_inside_grid G.width height x y hw2 hw hh2 hh hx0 hx1 hy0 hy1 p hp).2.2.2.2

theorem heightMap_cells_within_unit_witness :
    cellValueChecked (eastField ℝ 300) 300 7 5
        = some (initializeHeightMap (eastField ℝ 300) 300 (fun _ => 0)
            (7 + 5 * (eastField ℝ 300).width)) ∧
      0 ≤ initializeHeightMap (eastField ℝ 300) 300 (fun _ => 0)
          (7 + 5 * (eastField ℝ 300).width) ∧
      initializeHeightMap (eastField ℝ 300) 300 (fun _ => 0)
          (7 + 5 * (eastField ℝ 300).width) ≤ 1 :=
  heightMap_cells_within_unit (eastField ℝ 300) 300 (fun _ => 0)
    ⟨by decide, by decide, by decide, by decide⟩ (by decide) (by decide)
    (fun _ _ _ _ _ _ => by simp [eastField]) 7 5 (by decide) (by decide) (by decide)
    (by decide)

/-- C14, as the claim states it, fails: on a 300×300 grid the cell `(150, 150)`, which is
in the claimed peak rectangle `[150, 250) × [150, 250)`, holds 0 after
`initializeHeightMap`, not 1. -/
theorem peak_rectangle_excludes_its_lower_edge :
    initializeHeightMap (eastField ℝ 300) 300 (fun _ => 0)
        (150 + 150 * (eastField ℝ 300).width) = 0 ∧
      ((150 : Int) ≤ 150 ∧ (150 : Int) < 250) ∧ (0 : ℝ) ≠ 1 := by
  refine ⟨?_, by decide, by norm_num⟩
  rw [initializeHeightMap_get _ _ _ _ _ (by decide) (by decide) (by decide) (by decide)]
  unfold cellValue
  simp

/-- C14, amended: after `initializeHeightMap`, every cell `(x, y)` of the grid with
`150 < x < 250` and `150 < y < 250` equals exactly 1 (also where this overlaps the pit),
and every cell with `100 < x < 200` and `100 < y < 200` that is not such a peak cell
equals exactly 0; e.g. cell `(180, 180)` equals 1 and cell `(120, 120)` equals 0 on a
grid that contains them. -/
theorem heightMap_rectangles (G : Gradients ℝ) (height : Int) (heightMap : Int → ℝ) :
    (∀ x y : Int, 0 ≤ x → x < G.width → 0 ≤ y → y < height →
      150 < x → x < 250 → 150 < y → y < 250 →
      initializeHeightMap G height heightMap (x + y * G.width) = 1) ∧
    (∀ x y : Int, 0 ≤ x → x < G.width → 0 ≤ y → y < height →
      100 < x → x < 200 → 100 < y → y < 200 →
      ¬ (150 < x ∧ x < 250 ∧ 150 < y ∧ y < 250) →
      initializeHeightMap G height heightMap (x + y * G.width) = 0) ∧
    (180 < G.width → 180 < height →
      initializeHeightMap G height heightMap (180 + 180 * G.width) = 1 ∧
      initializeHeightMap G height heightMap (120 + 120 * G.width) = 0) := by
  have peak : ∀ x y : Int, 0 ≤ x → x < G.width → 0 ≤ y → y < height →
      150 < x → x < 250 → 150 < y → y < 250 →
      initializeHeightMap G height heightMap (x + y * G.width) = 1 := by
    intro x y hx0 hx1 hy0 hy1 a1 a2 a3 a4
    rw [initializeHeightMap_get G height heightMap x y hx0 hx1 hy0 hy1]
    unfold cellValue
    simp only
    rw [if_pos ⟨a1, a2, a3, a4⟩]
  have pit : ∀ x y : Int, 0 ≤ x → x < G.width → 0 ≤ y → y < height →
      100 < x → x < 200 → 100 < y → y < 200 →
      ¬ (150 < x ∧ x < 250 ∧ 150 < y ∧ y < 250) →
      initializeHeightMap G height heightMap (x + y * G.width) = 0 := by
    intro x y hx0 hx1 hy0 hy1 a1 a2 a3 a4 hnp
    rw [initializeHeightMap_get G height heightMap x y hx0 hx1 hy0 hy1]
    unfold cellValue
    simp only
    rw [if_neg hnp, if_pos ⟨a1, a2, a3, a4⟩]
  refine ⟨peak, pit, ?_⟩
  intro hw hh
  exact ⟨peak 180 180 (by decide) hw (by decide) hh (by decide) (by decide) (by decide)
      (by decide),
    pit 120 120 (by decide) (by omega) (by decide) (by omega) (by decide) (by decide)
      (by decide) (by decide) (by decide)⟩

theorem heightMap_rectangles_witness :
    initializeHeightMap (eastField ℝ 300) 300 (fun _ => 0)
        (180 + 180 * (eastField ℝ 300).width) = 1 ∧
      initializeHeightMap (eastField ℝ 300) 300 (fun _ => 0)
        (120 + 120 * (eastField ℝ 300).width) = 0 :=
  (heightMap_rectangles (eastField ℝ 300) 300 (fun _ => 0)).2.2 (by decide) (by decide)

/-- C15: for every grid size a canvas can have with `width ≥ 2` and `height ≥ 2`, every
gradient lookup made while `initializeHeightMap` computes the value of a cell of the grid
is at a lattice point `(ix, iy)` with `0 ≤ ix < width` and `0 ≤ iy < height`, so the
index `ix + iy*width` is inside the gradient arrays. -/
theorem heightMap_lookups_within_grid (width height x y : Int)
    (hsize : CanvasSize width height) (hw2 : 2 ≤ width) (hh2 : 2 ≤ height)
    (hx0 : 0 ≤ x) (hx1 : x < width) (hy0 : 0 ≤ y) (hy1 : y < height) :
    ∀ p ∈ cellLookups (K := ℝ) x y,
      0 ≤ p.1 ∧ p.1 < width ∧ 0 ≤ p.2 ∧ p.2 < height ∧
      0 ≤ p.1 + p.2 * width ∧ p.1 + p.2 * width < width * height := by
  obtain ⟨-, hw31, -, hh31⟩ := hsize
  exact cellLookups_inside_grid width height x y hw2 (by omega) hh2 (by omega) hx0 hx1 hy0 hy1

theorem heightMap_lookups_within_grid_witness :
    ((2 : Int), (1 : Int)) ∈ cellLookups (K := ℝ) 299 180 ∧
      (0 : Int) ≤ ((2 : Int), (1 : Int)).1 ∧ ((2 : Int), (1 : Int)).1 < 300 ∧
      (0 : Int) ≤ ((2 : Int), (1 : Int)).2 ∧ ((2 : Int), (1 : Int)).2 < 300 ∧
      0 ≤ ((2 : Int), (1 : Int)).1 + ((2 : Int), (1 : Int)).2 * 300 ∧
      ((2 : Int), (1 : Int)).1 + ((2 : Int), (1 : Int)).2 * 300 < 300 * 300 :=
  ⟨cellLookups_example,
    heightMap_lookups_within_grid 300 300 299 180 ⟨by decide, by decide, by decide, by decide⟩
      (by decide) (by decide) (by decide) (by decide) (by decide) (by decide) (2, 1)
      cellLookups_example⟩

/-- C17: `smoothCurve(0) = 0`, `smoothCurve(1) = 1`, and `smoothCurve` is monotonically
non-decreasing on `[0, 1]`: `smoothCurve(s) ≤ smoothCurve(t)` for `0 ≤ s ≤ t ≤ 1`. -/
theorem smoothCurve_zero_one_monotone {K : Type} [LinearOrderedField K] :
    smoothCurve (0 : K) = 0 ∧ smoothCurve (1 : K) = 1 ∧
      ∀ s t : K, 0 ≤ s → s ≤ t → t ≤ 1 → smoothCurve s ≤ smoothCurve t := by
  refine ⟨by simp [smoothCurve], by simp [smoothCurve]; norm_num, ?_⟩
  intro s t hs hst ht
  unfold smoothCurve
  have h1 : 0 ≤ t - s := sub_nonneg.mpr hst
  have h2 : 0 ≤ 1 - t := sub_nonneg.mpr ht
  have h3 : 0 ≤ t := le_trans hs hst
  have h4 : 0 ≤ 1 - s := by linarith
  have key : t * t * (3 - 2 * t) - s * s * (3 - 2 * s)
      = (t - s) * (2 * (t * (1 - t)) + 2 * (s * (1 - s)) + t * (1 - s) + s * (1 - t)) := by
    ring
  have hnn : 0 ≤ (t - s) * (2 * (t * (1 - t)) + 2 * (s * (1 - s)) + t * (1 - s)
      + s * (1 - t)) := by
    apply mul_nonneg h1
    have a1 := mul_nonneg h3 h2
    have a2 := mul_nonneg hs h4
    have a3 := mul_nonneg h3 h4
    have a4 := mul_nonneg hs h2
    linarith
  linarith

theorem smoothCurve_zero_one_monotone_witness :
    smoothCurve ((1 : ℝ) / 4) ≤ smoothCurve ((1 : ℝ) / 2) :=
  (smoothCurve_zero_one_monotone (K := ℝ)).2.2 (1 / 4) (1 / 2) (by norm_num) (by norm_num)
    (by norm_num)

/-- C18, as the claim states it, fails: at `x = -1/2` (and `y = 0`) the lower corner
that `perlinNoise` computes has `x0 = 0`, while `floor(-1/2) = -1`. -/
theorem lower_corner_not_floor_of_negative :
    (latticeCorners (-(1 : ℝ) / 2) 0).1 = (0, 0) ∧ ⌊(-(1 : ℝ) / 2)⌋ = -1 ∧
      (latticeCorners (-(1 : ℝ) / 2) 0).1 ≠ (⌊(-(1 : ℝ) / 2)⌋, ⌊(0 : ℝ)⌋) := by
  have hf : ⌊(-(1 : ℝ) / 2)⌋ = -1 := by
    rw [Int.floor_eq_iff]; constructor <;> norm_num
  have hc : ⌈(-(1 : ℝ) / 2)⌉ = 0 := by
    rw [Int.ceil_eq_iff]; constructor <;> norm_num
  have hx : toInt (-(1 : ℝ) / 2) = 0 := by
    rw [toInt_of_neg _ (by norm_num), hc]; decide
  have hy : toInt (0 : ℝ) = 0 := by
    rw [toInt_of_nonneg _ le_rfl, Int.floor_zero]; decide
  have hl : (latticeCorners (-(1 : ℝ) / 2) 0).1 = (0, 0) := by
    simp only [latticeCorners, hx, hy]
  refine ⟨hl, hf, ?_⟩
  rw [hl, hf]
  decide

/-- C18, amended: for every real coordinate pair `(x, y)` the upper corner that
`perlinNoise` computes is `(x0 + 1, y0 + 1)`, and the lower corner `(x0, y0)` equals
`(floor(x), floor(y))` exactly when each coordinate is non-negative or an integer and
has its floor in the 32-bit range `-2^31 ≤ floor < 2^31`. -/
theorem lower_corner_is_floor_iff (x y : ℝ) :
    (latticeCorners x y).2 = ((latticeCorners x y).1.1 + 1, (latticeCorners x y).1.2 + 1) ∧
      ((latticeCorners x y).1 = (⌊x⌋, ⌊y⌋) ↔
        ((0 ≤ x ∨ (⌊x⌋ : ℝ) = x) ∧ -2 ^ 31 ≤ ⌊x⌋ ∧ ⌊x⌋ < 2 ^ 31) ∧
        ((0 ≤ y ∨ (⌊y⌋ : ℝ) = y) ∧ -2 ^ 31 ≤ ⌊y⌋ ∧ ⌊y⌋ < 2 ^ 31)) := by
  refine ⟨rfl, ?_⟩
  simp only [latticeCorners, Prod.mk.injEq]
  rw [toInt_eq_floor_iff x, toInt_eq_floor_iff y]

/-- C16, as the claim states it, fails: on a height map of width `1431655766` and height
1, from the viewpoint `(1431655765, 0)` inside it, the ray end for angle 0 is
`toInt(2*1431655766 + 1431655765) = toInt(2^32 + 1) = 1`, so the end `(1, 0)` is inside
the height map. -/
theorem rayEnd_inside_on_long_map :
    (1 : Int) ≤ (longScene ℝ).width ∧ (1 : Int) ≤ (longScene ℝ).height ∧
      outOfBounds (longScene ℝ) (longScene ℝ).xStart (longScene ℝ).yStart = false ∧
      rayEnd realMath (longScene ℝ) 0 = (1, 0) ∧
      outOfBounds (longScene ℝ) (rayEnd realMath (longScene ℝ) 0).1
        (rayEnd realMath (longScene ℝ) 0).2 = false := by
  have hend : rayEnd realMath (longScene ℝ) 0 = (1, 0) := by
    unfold rayEnd realMath
    simp only [Real.cos_zero, Real.sin_zero, one_mul, zero_mul, zero_add]
    rw [← Int.cast_add, toInt_intCast_wrap, toInt_intCast_wrap]
    decide
  refine ⟨by decide, by decide, by decide, hend, ?_⟩
  rw [hend]
  decide

/-- C16, amended: for every grid size `width, height ≥ 1` with
`3 * max(width, height) ≤ 2^32`, every viewpoint inside the height-map bounds and every
angle, the ray end `(xEnd, yEnd)` computed at distance `2*max(width, height)` lies
outside the height-map bounds, and the ray's traversal ends at an out-of-bounds cell. -/
theorem rayEnd_outside_and_traversal_ends_outside (sc : Scene ℝ) (angle : ℝ) (fuel : Nat)
    (hw : 1 ≤ sc.width) (hh : 1 ≤ sc.height)
    (h3 : 3 * max sc.width sc.height ≤ 2 ^ 32)
    (hx0 : 0 ≤ sc.xStart) (hx1 : sc.xStart < sc.width) (hy0 : 0 ≤ sc.yStart)
    (hy1 : sc.yStart < sc.height)
    (hfuel : 2 ^ 32 + sc.xStart.natAbs + sc.yStart.natAbs + 1 ≤ fuel) :
    outOfBounds sc (rayEnd realMath sc angle).1 (rayEnd realMath sc angle).2 = true ∧
      ∃ cells c, rayCells realMath fuel sc angle = some cells ∧
        cells.getLast? = some c ∧ outOfBounds sc c.1 c.2 = true := by
  have hout := rayEnd_outOfBounds sc angle hw hh h3 hx0 hx1 hy0 hy1
  refine ⟨hout, ?_⟩
  obtain ⟨hcells, -⟩ := castRay_eq_of_rayFuel realMath fuel sc angle hfuel
  rcases cutAfterFirst_last (outOfBounds sc)
      (lineCells sc.xStart sc.yStart (rayEnd realMath sc angle).1
        (rayEnd realMath sc angle).2) with h | ⟨c, hc, hv⟩
  · refine ⟨_, _, hcells, ?_, hout⟩
    unfold rayPath
    rw [h, lineCells_getLast]
  · exact ⟨_, c, hcells, hc, hv⟩

theorem rayEnd_outside_and_traversal_ends_outside_witness :
    outOfBounds (flatScene ℝ) (rayEnd realMath (flatScene ℝ) 1).1
        (rayEnd realMath (flatScene ℝ) 1).2 = true ∧
      ∃ cells c, rayCells realMath (2 ^ 32 + 3) (flatScene ℝ) 1 = some cells ∧
        cells.getLast? = some c ∧ outOfBounds (flatScene ℝ) c.1 c.2 = true :=
  rayEnd_outside_and_traversal_ends_outside (flatScene ℝ) 1 (2 ^ 32 + 3) (by decide)
    (by decide) (by decide) (by decide) (by decide) (by decide) (by decide) (by decide)

/-- C19: for all integer endpoints (and every visitor), every cell `(x, y)` that
`bresenhamLine` visits lies within half a cell of the ideal segment:
`2·|(x − x0)·(y1 − y0) − (y − y0)·(x1 − x0)| ≤ max(|x1 − x0|, |y1 − y0|)`, with
`(x0, y0)` and `(x1, y1)` the original endpoints. -/
theorem bresenhamLine_within_half_cell (x0 y0 x1 y1 : Int) (visit : Int → Int → Bool)
    (fuel : Nat) (hfuel : (x1 - x0).natAbs + (y1 - y0).natAbs + 1 ≤ fuel) :
    ∃ cells, visitedCells fuel x0 y0 x1 y1 visit = some cells ∧
      ∀ c ∈ cells,
        2 * |(c.1 - x0) * (y1 - y0) - (c.2 - y0) * (x1 - x0)|
          ≤ max |x1 - x0| |y1 - y0| := by
  refine ⟨_, visitedCells_eq fuel x0 y0 x1 y1 visit hfuel, ?_⟩
  intro c hc
  exact lineCells_near_line x0 y0 x1 y1 c
    ((cutAfterFirst_initial visit _).sublist.subset hc)

theorem bresenhamLine_within_half_cell_witness :
    ∃ cells, visitedCells 8 0 0 3 4 neverStop = some cells ∧
      ∀ c ∈ cells,
        2 * |(c.1 - 0) * ((4 : Int) - 0) - (c.2 - 0) * ((3 : Int) - 0)|
          ≤ max |(3 : Int) - 0| |(4 : Int) - 0| :=
  bresenhamLine_within_half_cell 0 0 3 4 neverStop 8 (by decide)

/-- C20: for every viewpoint (inside or outside the height map) and every angle, the
per-cell ray visitor never divides by a zero distance and never reads the height map at
an index outside `[0, width*height)`: started from variables with a non-zero
`bestDistance` each call passes the checks, returns what the visitor returns and keeps
`bestDistance` non-zero; the viewpoint's own cell, when inside the map, is skipped
without a stop request; a cell outside the map requests the stop with the variables
untouched; and the whole ray run with the checks returns the ray's sample. -/
theorem rayVisitor_never_divides_by_zero_nor_reads_outside (sc : Scene ℝ) :
    (∀ (s : Best ℝ) (x y : Int), s.bestDistance ≠ 0 →
      rayVisitorChecked realMath sc s x y = some (rayVisitor realMath sc s x y) ∧
      (rayVisitor realMath sc s x y).2.bestDistance ≠ 0) ∧
    (∀ s : Best ℝ, outOfBounds sc sc.xStart sc.yStart = false →
      rayVisitor realMath sc s sc.xStart sc.yStart = (false, s)) ∧
    (∀ (s : Best ℝ) (x y : Int), outOfBounds sc x y = true →
      rayVisitorChecked realMath sc s x y = some (true, s) ∧
      rayVisitor realMath sc s x y = (true, s)) ∧
    (∀ (angle : ℝ) (fuel : Nat), 2 ^ 32 + sc.xStart.natAbs + sc.yStart.natAbs + 1 ≤ fuel →
      ∃ sample, castRayChecked realMath fuel sc angle = some (some sample) ∧
        castRay realMath fuel sc angle = some sample) := by
  refine ⟨fun s x y hs => rayVisitorChecked_eq realMath real_sqrt_ne_zero sc s x y hs,
    ?_, ?_, ?_⟩
  · intro s hin
    simp only [outOfBounds, decide_eq_false_iff_not] at hin
    simp only [rayVisitor, hin, sub_self, and_self, if_true, if_false]
  · intro s x y hout
    simp only [outOfBounds, decide_eq_true_eq] at hout
    simp only [rayVisitorChecked, rayVisitor, hout, if_true, and_self]
  · intro angle fuel hfuel
    exact ⟨_, castRayChecked_eq sc angle fuel hfuel⟩

theorem rayVisitor_never_divides_by_zero_nor_reads_outside_witness :
    (rayVisitorChecked realMath (spikeScene ℝ) (Best.init (spikeScene ℝ)) 2 0
        = some (rayVisitor realMath (spikeScene ℝ) (Best.init (spikeScene ℝ)) 2 0) ∧
      (rayVisitor realMath (spikeScene ℝ) (Best.init (spikeScene ℝ)) 2 0).2.bestDistance
        ≠ 0) ∧
    rayVisitor realMath (spikeScene ℝ) (Best.init (spikeScene ℝ)) (spikeScene ℝ).xStart
        (spikeScene ℝ).yStart = (false, Best.init (spikeScene ℝ)) ∧
    (rayVisitorChecked realMath (spikeScene ℝ) (Best.init (spikeScene ℝ)) 3 0
        = some (true, Best.init (spikeScene ℝ)) ∧
      rayVisitor realMath (spikeScene ℝ) (Best.init (spikeScene ℝ)) 3 0
        = (true, Best.init (spikeScene ℝ))) ∧
    ∃ sample, castRayChecked realMath (2 ^ 32 + 1) (spikeScene ℝ) 0 = some (some sample) ∧
      castRay realMath (2 ^ 32 + 1) (spikeScene ℝ) 0 = some sample :=
  ⟨(rayVisitor_never_divides_by_zero_nor_reads_outside (spikeScene ℝ)).1
      (Best.init (spikeScene ℝ)) 2 0 (by simp [Best.init]),
    (rayVisitor_never_divides_by_zero_nor_reads_outside (spikeScene ℝ)).2.1
      (Best.init (spikeScene ℝ)) (by decide),
    (rayVisitor_never_divides_by_zero_nor_reads_outside (spikeScene ℝ)).2.2.1
      (Best.init (spikeScene ℝ)) 3 0 (by decide),
    (rayVisitor_never_divides_by_zero_nor_reads_outside (spikeScene ℝ)).2.2.2 0
      (2 ^ 32 + 1) (by decide)⟩

end Silhouette
